import Mathlib

/-!
# m7rogue: the dungeon map (`src/Map.cpp`)

A shallow embedding of `Map` and `BspListener` from `src/Map.cpp`, followed by
theorems about digging, field of view, scent, walkability and generation.

Conventions of the embedding

* C++ `int` coordinates are mathematical integers (`Int`); map-sized values are
  far from the 32-bit limits, so `+`, `-`, `*`, `++` are the exact operations.
  `int / int` is truncating division, `Int.tdiv`.
* `unsigned int` scent values are naturals; the one place where the source
  converts a possibly negative value to `unsigned int` reduces it modulo `2^32`.
* The tile array `tiles` is addressed by the flat index `x + y * width`, as in
  the source.
* Mutating member functions take the state and return the new state; a member
  function that also returns a value returns a pair.
* A `for (i = lo; i <= hi; i++)` loop is a left fold over `loopRange lo hi`.
-/

namespace M7Rogue

/-! ## Constants of `Map.cpp` -/

def ROOM_MAX_SIZE : Int := 12
def ROOM_MIN_SIZE : Int := 6
def MAX_ROOM_MONSTERS : Int := 3
def MAX_ROOM_ITEMS : Int := 2

/-- The values taken by the counter of `for (int i = lo; i <= hi; i++)`, in order. -/
def loopRange (lo hi : Int) : List Int :=
  (List.range (hi + 1 - lo).toNat).map (fun (k : Nat) => lo + (k : Int))

/-! ## External collaborators -/

/-- Modelled from the spec: the external walkability/visibility grid service
(`TCODMap`), whose declaration is not part of the sources. It keeps, per cell
coordinate, a transparent flag, a walkable flag and the result of the last
field-of-view computation. -/
structure TCODMap where
  transparent : Int → Int → Bool
  walkable : Int → Int → Bool
  fov : Int → Int → Bool

/-- Modelled from the spec: the external field-of-view engine. From the
transparency grid, an origin and a radius it yields the visible set. -/
abbrev FovAlgo := (Int → Int → Bool) → Int → Int → Int → (Int → Int → Bool)

/-- Modelled from the spec: `new TCODMap(width, height)`, a grid with no walkable,
transparent or visible cell. -/
def TCODMap.new : TCODMap :=
  { transparent := fun _ _ => false, walkable := fun _ _ => false, fov := fun _ _ => false }

/-- Modelled from the spec: "set a cell's walkable+transparent properties". -/
def TCODMap.setProperties (t : TCODMap) (x y : Int) (isTransparent isWalkable : Bool) :
    TCODMap :=
  { t with
    transparent := fun a b => if a = x ∧ b = y then isTransparent else t.transparent a b
    walkable := fun a b => if a = x ∧ b = y then isWalkable else t.walkable a b }

/-- Modelled from the spec: "query walkability". -/
def TCODMap.isWalkable (t : TCODMap) (x y : Int) : Bool := t.walkable x y

/-- Modelled from the spec: "query whether a cell is currently visible". -/
def TCODMap.isInFov (t : TCODMap) (x y : Int) : Bool := t.fov x y

/-- Modelled from the spec: "compute visible-set from an origin+radius". -/
def TCODMap.computeFov (algo : FovAlgo) (t : TCODMap) (px py radius : Int) : TCODMap :=
  { t with fov := algo t.transparent px py radius }

/-- Modelled from the spec: the external random source (`TCODRandom`). The
generator is the family of outcomes of its successive `getInt` calls: the
outcome of call number `pos` when the inclusive range `lo..hi` is requested is
`draw pos lo hi`. -/
structure TCODRandom where
  draw : Nat → Int → Int → Int
  pos : Nat

/-- Modelled from the spec: "uniform-integer draws over inclusive ranges". One
call yields the next outcome and advances the generator. -/
def TCODRandom.getInt (r : TCODRandom) (lo hi : Int) : Int × TCODRandom :=
  (r.draw r.pos lo hi, { r with pos := r.pos + 1 })

/-- The contract of the random source: every outcome lies in the inclusive range
that was requested. -/
def TCODRandom.InRange (r : TCODRandom) : Prop :=
  ∀ (n : Nat) (lo hi : Int), lo ≤ hi → lo ≤ r.draw n lo hi ∧ r.draw n lo hi ≤ hi

/-- Modelled from the spec: an actor of the external registry, "with position
and a blocks-movement flag"; `name` tells the archetypes apart. -/
structure Actor where
  x : Int
  y : Int
  name : String
  blocks : Bool
deriving DecidableEq, Repr

/-- Modelled from the spec: the `engine` global, holding the player, the stairs,
the field-of-view radius and the actor registry. -/
structure Engine where
  player : Actor
  stairs : Actor
  fovRadius : Int
  actors : List Actor

/-- Modelled from the spec: a node of the external partition tree, with its
rectangle and whether it is a leaf. -/
structure TCODBsp where
  x : Int
  y : Int
  w : Int
  h : Int
  leaf : Bool
deriving DecidableEq, Repr

def TCODBsp.isLeaf (n : TCODBsp) : Bool := n.leaf

/-! ## The map -/

/-- Modelled from the spec: per-cell state, "explored: boolean, scent: unsigned
integer"; a fresh tile is unexplored with zero scent. -/
structure Tile where
  explored : Bool := false
  scent : Nat := 0
deriving DecidableEq, Repr

/-- The data members of `Map`. `tiles` is the array behind the `tiles` pointer,
addressed by flat index. -/
structure Map where
  width : Int
  height : Int
  tiles : Int → Tile
  map : TCODMap
  rng : TCODRandom
  seed : Int
  currentScentValue : Nat

/-- Everything `Map` code reads or writes: the map itself, the `engine` global and
the global generator `TCODRandom::getInstance()`. -/
structure World where
  map : Map
  engine : Engine
  rnd : TCODRandom

/-- Flat index `x + y * width` of a tile. -/
def Map.idx (m : Map) (x y : Int) : Int := x + y * m.width

/-- Member function `Map::isWall` of the source. -/
def Map.isWall (m : Map) (x y : Int) : Bool := !m.map.isWalkable x y

/-- The actor scan of `Map::canWalk`: `false` at the first blocking actor standing
on `(x, y)`, `true` when the registry is exhausted. -/
def Map.canWalk.scan : List Actor → Int → Int → Bool
  | [], _, _ => true
  | actor :: rest, x, y =>
    if actor.blocks && actor.x == x && actor.y == y then false
    else Map.canWalk.scan rest x y

/-- Member function `Map::canWalk` of the source. -/
def Map.canWalk (m : Map) (eng : Engine) (x y : Int) : Bool :=
  if m.isWall x y then false
  else Map.canWalk.scan eng.actors x y

/-- Member function `Map::isExplored` of the source. -/
def Map.isExplored (m : Map) (x y : Int) : Bool := (m.tiles (m.idx x y)).explored

/-- Member function `Map::getScent` of the source. -/
def Map.getScent (m : Map) (x y : Int) : Nat := (m.tiles (m.idx x y)).scent

/-- Member function `Map::isInFov`: the answer and the map after the call. -/
def Map.isInFov (m : Map) (x y : Int) : Bool × Map :=
  if x < 0 ∨ x ≥ m.width ∨ y < 0 ∨ y ≥ m.height then (false, m)
  else if m.map.isInFov x y then
    (true, { m with tiles := Function.update m.tiles (m.idx x y)
                      { m.tiles (m.idx x y) with explored := true } })
  else (false, m)

/-- Lines 108-110 of `Map::computeFov`: `(int)sqrt(dx * dx + dy * dy)`, the
truncated distance of `(x, y)` from the player. -/
def Map.computeFov.distance (eng : Engine) (x y : Int) : Int :=
  let dx : Int := x - eng.player.x
  let dy : Int := y - eng.player.y
  (Nat.sqrt (dx * dx + dy * dy).toNat : Int)

/-- Line 111 of `Map::computeFov`: `currentScentValue - distance` stored in an
`unsigned int`, that is, reduced modulo `2^32`. -/
def Map.computeFov.newScent (eng : Engine) (m : Map) (x y : Int) : Nat :=
  (((m.currentScentValue : Int) - Map.computeFov.distance eng x y) % 4294967296).toNat

/-- The body of the scent loop of `Map::computeFov` for one `(x, y)`. -/
def Map.computeFov.body (eng : Engine) (m : Map) (x y : Int) : Map :=
  let r := m.isInFov x y
  let m1 := r.2
  if r.1 then
    let oldScent : Nat := m1.getScent x y
    let newScent : Nat := Map.computeFov.newScent eng m1 x y
    if newScent > oldScent then
      { m1 with tiles := Function.update m1.tiles (m1.idx x y)
                  { m1.tiles (m1.idx x y) with scent := newScent } }
    else m1
  else m1

/-- Member function `Map::computeFov`, with the external field-of-view engine as `algo`. -/
def Map.computeFov (algo : FovAlgo) (eng : Engine) (m : Map) : Map :=
  let m0 : Map :=
    { m with map := m.map.computeFov algo eng.player.x eng.player.y eng.fovRadius }
  (loopRange 0 (m0.width - 1)).foldl
    (fun acc x =>
      (loopRange 0 (m0.height - 1)).foldl (fun acc2 y => Map.computeFov.body eng acc2 x y) acc)
    m0

/-- Member function `Map::dig` of the source. -/
def Map.dig (m : Map) (x1 y1 x2 y2 : Int) : Map :=
  let xa := if x2 < x1 then x2 else x1
  let xb := if x2 < x1 then x1 else x2
  let ya := if y2 < y1 then y2 else y1
  let yb := if y2 < y1 then y1 else y2
  (loopRange xa xb).foldl
    (fun acc tilex =>
      (loopRange ya yb).foldl
        (fun acc2 tiley => { acc2 with map := acc2.map.setProperties tilex tiley true true })
        acc)
    m

/-- Modelled from the spec: the `Actor` constructor, whose declaration is not part
of the sources. A new actor blocks movement (`Map::addItem` clears the flag for
items, `Map::addMonster` leaves it alone). -/
def Actor.new (x y : Int) (name : String) : Actor :=
  { x := x, y := y, name := name, blocks := true }

/-- Member function `Map::addMonster` of the source. -/
def Map.addMonster (wd : World) (x y : Int) : World :=
  let r := wd.rnd.getInt 0 100
  if r.1 < 80 then
    { wd with rnd := r.2,
              engine := { wd.engine with actors := wd.engine.actors ++ [Actor.new x y "orc"] } }
  else
    { wd with rnd := r.2,
              engine := { wd.engine with actors := wd.engine.actors ++ [Actor.new x y "troll"] } }

/-- Member function `Map::addItem` of the source. -/
def Map.addItem (wd : World) (x y : Int) : World :=
  let r := wd.rnd.getInt 0 100
  let dice := r.1
  let item (name : String) : Actor := { Actor.new x y name with blocks := false }
  let push (a : Actor) : World :=
    { wd with rnd := r.2, engine := { wd.engine with actors := wd.engine.actors ++ [a] } }
  if dice < 70 then push (item "health potion")
  else if dice < 70 + 10 then push (item "scroll of lightning bolt")
  else if dice < 70 + 10 + 10 then push (item "scroll of fireball")
  else push (item "scroll of confusion")

/-- The loop `while (nbMonsters > 0)` of `Map::createRoom`, by the number of
iterations left. -/
def Map.createRoom.monsters : Nat → World → Int → Int → Int → Int → World
  | 0, wd, _, _, _, _ => wd
  | n + 1, wd, x1, y1, x2, y2 =>
    let rx := wd.rnd.getInt x1 x2
    let ry := rx.2.getInt y1 y2
    let wd1 : World := { wd with rnd := ry.2 }
    let wd2 := if wd1.map.canWalk wd1.engine rx.1 ry.1 then Map.addMonster wd1 rx.1 ry.1 else wd1
    Map.createRoom.monsters n wd2 x1 y1 x2 y2

/-- The loop `while (nbItems > 0)` of `Map::createRoom`, by the number of
iterations left. -/
def Map.createRoom.items : Nat → World → Int → Int → Int → Int → World
  | 0, wd, _, _, _, _ => wd
  | n + 1, wd, x1, y1, x2, y2 =>
    let rx := wd.rnd.getInt x1 x2
    let ry := rx.2.getInt y1 y2
    let wd1 : World := { wd with rnd := ry.2 }
    let wd2 := if wd1.map.canWalk wd1.engine rx.1 ry.1 then Map.addItem wd1 rx.1 ry.1 else wd1
    Map.createRoom.items n wd2 x1 y1 x2 y2

/-- Member function `Map::createRoom` of the source. -/
def Map.createRoom (wd : World) (first : Bool) (x1 y1 x2 y2 : Int) (withActors : Bool) :
    World :=
  let wd0 : World := { wd with map := wd.map.dig x1 y1 x2 y2 }
  if !withActors then wd0
  else
    let wd1 : World :=
      if first then
        { wd0 with engine := { wd0.engine with
            player := { wd0.engine.player with x := Int.tdiv (x1 + x2) 2,
                                               y := Int.tdiv (y1 + y2) 2 } } }
      else
        let rm := wd0.rnd.getInt 0 MAX_ROOM_MONSTERS
        let wdm := Map.createRoom.monsters rm.1.toNat { wd0 with rnd := rm.2 } x1 y1 x2 y2
        let ri := wdm.rnd.getInt 0 MAX_ROOM_ITEMS
        Map.createRoom.items ri.1.toNat { wdm with rnd := ri.2 } x1 y1 x2 y2
    { wd1 with engine := { wd1.engine with
        stairs := { wd1.engine.stairs with x := Int.tdiv (x1 + x2) 2,
                                           y := Int.tdiv (y1 + y2) 2 } } }

/-! ## The partition listener -/

/-- The data members of `BspListener` other than the map reference. -/
structure BspListener where
  roomNum : Nat
  lastx : Int
  lasty : Int
deriving DecidableEq, Repr

/-- A room as `visitNode` draws it: origin `(x, y)`, width `w`, height `h`. -/
structure Room where
  x : Int
  y : Int
  w : Int
  h : Int
deriving DecidableEq, Repr

/-- The four draws at the head of `BspListener::visitNode` (`w`, `h`, `x`, `y`, in
that order) from the map's own generator, and the generator afterwards. -/
def BspListener.pickRoom (rng : TCODRandom) (node : TCODBsp) : Room × TCODRandom :=
  let rw := rng.getInt ROOM_MIN_SIZE (node.w - 2)
  let rh := rw.2.getInt ROOM_MIN_SIZE (node.h - 2)
  let rx := rh.2.getInt (node.x + 1) (node.x + node.w - rw.1 - 1)
  let ry := rx.2.getInt (node.y + 1) (node.y + node.h - rh.1 - 1)
  ({ x := rx.1, y := ry.1, w := rw.1, h := rh.1 }, ry.2)

/-- The room `visitNode` draws for `node` when the map's generator is `rng`. -/
def BspListener.roomOf (rng : TCODRandom) (node : TCODBsp) : Room :=
  (BspListener.pickRoom rng node).1

/-- Member function `BspListener::visitNode`; `userData` is the `withActors` flag. -/
def BspListener.visitNode (l : BspListener) (wd : World) (node : TCODBsp)
    (withActors : Bool) : BspListener × World :=
  if node.isLeaf then
    let pr := BspListener.pickRoom wd.map.rng node
    let x := pr.1.x
    let y := pr.1.y
    let w := pr.1.w
    let h := pr.1.h
    let wd1 : World := { wd with map := { wd.map with rng := pr.2 } }
    let wd2 := Map.createRoom wd1 (l.roomNum == 0) x y (x + w - 1) (y + h - 1) withActors
    let wd3 : World :=
      if l.roomNum != 0 then
        let m1 := wd2.map.dig l.lastx l.lasty (x + Int.tdiv w 2) l.lasty
        { wd2 with map := m1.dig (x + Int.tdiv w 2) l.lasty (x + Int.tdiv w 2) (y + Int.tdiv h 2) }
      else wd2
    ({ roomNum := l.roomNum + 1, lastx := x + Int.tdiv w 2, lasty := y + Int.tdiv h 2 }, wd3)
  else (l, wd)

/-- Modelled from the spec: the external traversal
(`traverseInvertedLevelOrder`), which calls `visitNode` once per node; `nodes`
is the sequence of nodes in the order of the calls. -/
def traverse (nodes : List TCODBsp) (withActors : Bool) (l : BspListener) (wd : World) :
    BspListener × World :=
  nodes.foldl (fun s node => BspListener.visitNode s.1 s.2 node withActors) (l, wd)

/-- Modelled from the spec: the external partition service. From the region
size and the generator, `splitRecursive` followed by the traversal order gives
the nodes to visit and the generator after splitting. -/
abbrev BspService := Int → Int → TCODRandom → List TCODBsp × TCODRandom

/-- Member function `Map::init`. `mkRng` is `new TCODRandom(seed, TCOD_RNG_CMWC)`, `bsp` the
partition service; the listener starts with `roomNum = 0` and `lastx`, `lasty`
not yet set (`l0` gives their initial content). -/
def Map.init (mkRng : Int → TCODRandom) (bsp : BspService) (l0 : Int × Int) (wd : World)
    (withActors : Bool) : World :=
  let split := bsp wd.map.width wd.map.height (mkRng wd.map.seed)
  let m : Map :=
    { wd.map with rng := split.2, tiles := fun _ => {}, map := TCODMap.new }
  (traverse split.1 withActors { roomNum := 0, lastx := l0.1, lasty := l0.2 }
    { wd with map := m }).2

/-- The grid after `setProperties (tx, y, true, true)` for every `y` of `ys`. -/
def digColumn (tx : Int) (ys : List Int) (t : TCODMap) : TCODMap :=
  ys.foldl (fun acc y => acc.setProperties tx y true true) t

/-- The grid after the two nested loops of `Map::dig` over `xs` and `ys`. -/
def digGrid (xs ys : List Int) (t : TCODMap) : TCODMap :=
  xs.foldl (fun acc tx => digColumn tx ys acc) t

/-- The tile coordinate `(x, y)` passes the bounds check of `Map::isInFov`. -/
def Map.inBounds (m : Map) (x y : Int) : Prop :=
  0 ≤ x ∧ x < m.width ∧ 0 ≤ y ∧ y < m.height

instance (m : Map) (x y : Int) : Decidable (m.inBounds x y) := by
  unfold Map.inBounds; infer_instance

/-- What one pass of the scent loop body does to the tile it addresses: nothing
when the cell is not visible, else explored and scent raised to the candidate. -/
def Map.computeFov.tileAfter (eng : Engine) (m : Map) (x y : Int) (t : Tile) : Tile :=
  if m.map.fov x y then
    { explored := true, scent := max t.scent (Map.computeFov.newScent eng m x y) }
  else t

/-- The tile array after one pass of the scent loop body for the cell `p`, the rest
of the map `m` being unchanged by the pass. -/
def Map.computeFov.tilesStep (eng : Engine) (m : Map) (tl : Int → Tile) (p : Int × Int) :
    Int → Tile :=
  if m.inBounds p.1 p.2 then
    Function.update tl (m.idx p.1 p.2)
      (Map.computeFov.tileAfter eng m p.1 p.2 (tl (m.idx p.1 p.2)))
  else tl

/-- The map `Map::computeFov` runs its scent loop on: the field of view has been
recomputed by the external engine around the player. -/
def Map.withFov (algo : FovAlgo) (eng : Engine) (m : Map) : Map :=
  { m with map := m.map.computeFov algo eng.player.x eng.player.y eng.fovRadius }

/-- The cells visited by the scent loop of `Map::computeFov`, in order. -/
def Map.cells (m : Map) : List (Int × Int) :=
  (loopRange 0 (m.width - 1)) ×ˢ (loopRange 0 (m.height - 1))

/-- One `computeFov` call of the turn loop: the external field-of-view engine and
`engine` state at the time of the call, and the value the turn loop has given
`currentScentValue` before it. -/
structure FovCall where
  algo : FovAlgo
  eng : Engine
  scent : Nat

/-- A sequence of `computeFov` calls, `currentScentValue` being set before each. -/
def runFovCalls (calls : List FovCall) (m : Map) : Map :=
  calls.foldl
    (fun acc c => Map.computeFov c.algo c.eng { acc with currentScentValue := c.scent }) m

/-- A call of one of the map's gameplay operations, with its arguments and the
`engine` state it reads. -/
inductive MapOp where
  | isInFov (x y : Int)
  | computeFov (algo : FovAlgo) (eng : Engine)
  | dig (x1 y1 x2 y2 : Int)
  | canWalk (eng : Engine) (x y : Int)
  | isWall (x y : Int)
  | isExplored (x y : Int)
  | getScent (x y : Int)

/-- The map after a call. `canWalk`, `isWall`, `isExplored` and `getScent` are
`const` member functions that write nothing. -/
def MapOp.run (m : Map) : MapOp → Map
  | .isInFov x y => (m.isInFov x y).2
  | .computeFov algo eng => Map.computeFov algo eng m
  | .dig x1 y1 x2 y2 => m.dig x1 y1 x2 y2
  | .canWalk _ _ _ => m
  | .isWall _ _ => m
  | .isExplored _ _ => m
  | .getScent _ _ => m

/-- What `visitNode` does to the listener and to the map, which depend on nothing
else: the room is drawn and dug, then the two corridor segments when a room
came before, and the listener records the new centre. -/
def BspListener.carve (l : BspListener) (m : Map) (node : TCODBsp) : BspListener × Map :=
  if node.isLeaf then
    let pr := BspListener.pickRoom m.rng node
    let r := pr.1
    let m1 : Map := ({ m with rng := pr.2 } : Map).dig r.x r.y (r.x + r.w - 1) (r.y + r.h - 1)
    let m2 : Map :=
      if l.roomNum != 0 then
        (m1.dig l.lastx l.lasty (r.x + Int.tdiv r.w 2) l.lasty).dig
          (r.x + Int.tdiv r.w 2) l.lasty (r.x + Int.tdiv r.w 2) (r.y + Int.tdiv r.h 2)
      else m1
    ({ roomNum := l.roomNum + 1, lastx := r.x + Int.tdiv r.w 2,
       lasty := r.y + Int.tdiv r.h 2 }, m2)
  else (l, m)

/-- Modelled from the spec: the external serializer (`TCODZip`) holding the persisted
record, a sequence of integers "written and read in that exact order". -/
structure TCODZip where
  data : List Int
deriving DecidableEq, Repr

/-- Modelled from the spec: `putInt` appends one integer to the record. -/
def TCODZip.putInt (z : TCODZip) (v : Int) : TCODZip := { data := z.data ++ [v] }

/-- Modelled from the spec: `getInt` reads the next integer of the record (0 when the
record is exhausted) and moves past it. -/
def TCODZip.getInt (z : TCODZip) : Int × TCODZip := (z.data.headD 0, { data := z.data.tail })

/-- The integer `putInt` receives for a `bool` flag. -/
def boolToInt (b : Bool) : Int := if b then 1 else 0

/-- Member function `Map::save` of the source. -/
def Map.save (m : Map) (zip : TCODZip) : TCODZip :=
  (loopRange 0 (m.width * m.height - 1)).foldl
    (fun z i => z.putInt (boolToInt (m.tiles i).explored))
    (zip.putInt m.seed)

/-- The body of the loop of `Map::load`: `tiles[i].explored = zip.getInt()`. -/
def Map.load.body (s : Map × TCODZip) (i : Int) : Map × TCODZip :=
  let r := s.2.getInt
  ({ s.1 with tiles := Function.update s.1.tiles i
                { s.1.tiles i with explored := r.1 != 0 } }, r.2)

/-- Member function `Map::load` of the source, with the collaborators of `Map::init`. -/
def Map.load (mkRng : Int → TCODRandom) (bsp : BspService) (l0 : Int × Int) (wd : World)
    (zip : TCODZip) : World × TCODZip :=
  let r := zip.getInt
  let wd1 : World := { wd with map := { wd.map with seed := r.1 } }
  let wd2 := Map.init mkRng bsp l0 wd1 false
  let s := (loopRange 0 (wd2.map.width * wd2.map.height - 1)).foldl Map.load.body (wd2.map, r.2)
  ({ wd2 with map := s.1 }, s.2)

/-- One carving step of `visitNode`: the room dug through `createRoom` with corners
`(x1, y1)` and `(x2, y2)`, or the corridor of lines 33-34 from the previous
centre `(lastx, lasty)` to the new centre `(cx, cy)`. -/
inductive Carving where
  | room (x1 y1 x2 y2 : Int)
  | corridor (lastx lasty cx cy : Int)
deriving DecidableEq, Repr

/-- The step is a room. -/
def Carving.isRoom : Carving → Bool
  | .room _ _ _ _ => true
  | .corridor _ _ _ _ => false

/-- The step is a corridor. -/
def Carving.isCorridor : Carving → Bool
  | .room _ _ _ _ => false
  | .corridor _ _ _ _ => true

/-- The `dig` calls a carving step consists of, in order, each as `(x1, y1, x2, y2)`:
one for a room; for a corridor the horizontal segment at `lasty`, then the
vertical segment at `cx`. -/
def Carving.digs : Carving → List (Int × Int × Int × Int)
  | .room x1 y1 x2 y2 => [(x1, y1, x2, y2)]
  | .corridor lastx lasty cx cy => [(lastx, lasty, cx, lasty), (cx, lasty, cx, cy)]

/-- The cells `Map::dig` passes to `setProperties`, in the order of its two loops. -/
def Map.dig.cells (x1 y1 x2 y2 : Int) : List (Int × Int) :=
  let xa := if x2 < x1 then x2 else x1
  let xb := if x2 < x1 then x1 else x2
  let ya := if y2 < y1 then y2 else y1
  let yb := if y2 < y1 then y1 else y2
  (loopRange xa xb) ×ˢ (loopRange ya yb)

/-- The carving steps `visitNode` performs for `node`, from the listener before the call
and the map's generator: nothing for an inner node; for a leaf the room, then the
corridor when a room came before. -/
def BspListener.carvings (l : BspListener) (rng : TCODRandom) (node : TCODBsp) :
    List Carving :=
  if node.isLeaf then
    let r := BspListener.roomOf rng node
    Carving.room r.x r.y (r.x + r.w - 1) (r.y + r.h - 1) ::
      (if l.roomNum != 0 then
        [Carving.corridor l.lastx l.lasty (r.x + Int.tdiv r.w 2) (r.y + Int.tdiv r.h 2)]
      else [])
  else []

/-- The carving steps of a whole traversal, in order. -/
def traverseCarvings : List TCODBsp → BspListener → Map → List Carving
  | [], _, _ => []
  | node :: rest, l, m =>
    l.carvings m.rng node
      ++ traverseCarvings rest (BspListener.carve l m node).1 (BspListener.carve l m node).2

/-- The cells passed to `setProperties` by the `dig` calls of the steps, in order. -/
def setCalls (steps : List Carving) : List (Int × Int) :=
  ((steps.map Carving.digs).flatten.map
    (fun r => Map.dig.cells r.1 r.2.1 r.2.2.1 r.2.2.2)).flatten

/-- The grid after `setProperties (x, y, true, true)` for each cell of the list in turn. -/
def applySet (cells : List (Int × Int)) (t : TCODMap) : TCODMap :=
  cells.foldl (fun acc c => acc.setProperties c.1 c.2 true true) t

/-- Two cells are 4-adjacent: they agree in one coordinate and differ by one in the other. -/
def adjacent4 (p q : Int × Int) : Prop :=
  (p.1 = q.1 ∧ (p.2 = q.2 + 1 ∨ q.2 = p.2 + 1)) ∨
  (p.2 = q.2 ∧ (p.1 = q.1 + 1 ∨ q.1 = p.1 + 1))

/-- One step of a walk on the grid: from a walkable cell to a 4-adjacent walkable cell. -/
def walkStep (t : TCODMap) (p q : Int × Int) : Prop :=
  t.walkable p.1 p.2 = true ∧ t.walkable q.1 q.2 = true ∧ adjacent4 p q

/-- There is a path of 4-adjacent walkable cells from `p` to `q`: both are walkable and
`q` is reached from `p` by finitely many steps. -/
def Walk (t : TCODMap) (p q : Int × Int) : Prop :=
  t.walkable p.1 p.2 = true ∧ t.walkable q.1 q.2 = true ∧
    Relation.ReflTransGen (walkStep t) p q

/-! ## Concrete states used to exercise the definitions -/

/-- A generator whose every outcome is the low end of the requested range. -/
def lowRng : TCODRandom := { draw := fun _ lo _ => lo, pos := 0 }

/-- A generator whose every outcome is the high end of the requested range. -/
def highRng : TCODRandom := { draw := fun _ _ hi => hi, pos := 0 }

/-- A 12 x 10 map right after allocation: nothing dug, explored or scented. -/
def blankMap : Map :=
  { width := 12, height := 10, tiles := fun _ => {}, map := TCODMap.new,
    rng := lowRng, seed := 0, currentScentValue := 20 }

/-- The blank map with a scent ceiling of only 2. -/
def faintMap : Map := { blankMap with currentScentValue := 2 }

/-- An engine with the player at `(5, 5)`, stairs at the origin and no other actor. -/
def demoEngine : Engine :=
  { player := { x := 5, y := 5, name := "player", blocks := true },
    stairs := { x := 0, y := 0, name := "stairs", blocks := false },
    fovRadius := 10, actors := [] }

/-- A 3 x 2 map whose tile `(1, 1)` is explored and carries scent 7, with only
cell `(2, 1)` visible and only cell `(1, 1)` walkable. -/
def smallMap : Map :=
  { width := 3, height := 2,
    tiles := fun i => if i = 4 then { explored := true, scent := 7 } else {},
    map := { transparent := fun a b => decide (a = 1 ∧ b = 1),
             walkable := fun a b => decide (a = 1 ∧ b = 1),
             fov := fun a b => decide (a = 2 ∧ b = 1) },
    rng := lowRng, seed := 0, currentScentValue := 20 }

/-- An engine whose registry holds an item lying on `(1, 1)` and an orc on `(2, 1)`. -/
def crowdedEngine : Engine :=
  { demoEngine with
    actors := [{ x := 1, y := 1, name := "health potion", blocks := false },
               { x := 2, y := 1, name := "orc", blocks := true }] }

/-- A world on the blank map: nothing generated yet. -/
def demoWorld : World := { map := blankMap, engine := demoEngine, rnd := lowRng }

/-- A leaf of the partition with rectangle `6, 4, 8 x 8`. -/
def demoLeaf : TCODBsp := { x := 6, y := 4, w := 8, h := 8, leaf := true }

/-- A listener that has already visited one room, centred on `(5, 5)`. -/
def laterListener : BspListener := { roomNum := 1, lastx := 5, lasty := 5 }

/-- A listener that has not visited any room yet. -/
def freshListener : BspListener := { roomNum := 0, lastx := 0, lasty := 0 }

/-- A second leaf, with rectangle `20, 10, 10 x 9`. -/
def demoLeaf2 : TCODBsp := { x := 20, y := 10, w := 10, h := 9, leaf := true }

/-- An inner node of the partition, covering a `40 x 20` region. -/
def demoInner : TCODBsp := { x := 0, y := 0, w := 40, h := 20, leaf := false }

/-- A field-of-view engine that sees every cell. -/
def seeAll : FovAlgo := fun _ _ _ _ _ _ => true

/-- A field-of-view engine that sees nothing. -/
def seeNothing : FovAlgo := fun _ _ _ _ _ _ => false

/-- A generator whose every outcome is `d`, whatever range is requested. -/
def fixedRng (d : Int) : TCODRandom := { draw := fun _ _ _ => d, pos := 0 }

/-- The archetype `Map::addMonster` creates when the global generator's draw comes out
as `d`: the name of the actor it appends to the registry. -/
def monsterFor (d : Int) : String :=
  ((Map.addMonster { demoWorld with rnd := fixedRng d } 0 0).engine.actors.getLast?.map
    Actor.name).getD ""

/-- A partition service that returns the two demo leaves and the inner node. -/
def demoBsp : BspService := fun _ _ rng => ([demoLeaf, demoLeaf2, demoInner], rng)

/-- A world on a blank 40 x 25 map, large enough for both demo leaves. -/
def bigWorld : World :=
  { demoWorld with map := { blankMap with width := 40, height := 25 } }

/-! # Theorems -/

/-! ## Loops -/

theorem mem_loopRange (lo hi i : Int) : i ∈ loopRange lo hi ↔ lo ≤ i ∧ i ≤ hi := by
  unfold loopRange
  simp only [List.mem_map, List.mem_range]
  constructor
  · rintro ⟨k, hk, rfl⟩
    omega
  · rintro ⟨h1, h2⟩
    refine ⟨(i - lo).toNat, ?_, ?_⟩ <;> omega

theorem foldl_map_field (f : TCODMap → Int → TCODMap) (l : List Int) (m : Map) :
    l.foldl (fun acc v => { acc with map := f acc.map v }) m
      = { m with map := l.foldl f m.map } := by
  induction l generalizing m with
  | nil => rfl
  | cons v rest ih => simp only [List.foldl_cons]; rw [ih]

/-! ## Digging -/

theorem dig_eq_digGrid (m : Map) (x1 y1 x2 y2 : Int) :
    m.dig x1 y1 x2 y2
      = { m with map := digGrid (loopRange (min x1 x2) (max x1 x2))
                          (loopRange (min y1 y2) (max y1 y2)) m.map } := by
  have hx1 : (if x2 < x1 then x2 else x1) = min x1 x2 := by
    split <;> omega
  have hx2 : (if x2 < x1 then x1 else x2) = max x1 x2 := by
    split <;> omega
  have hy1 : (if y2 < y1 then y2 else y1) = min y1 y2 := by
    split <;> omega
  have hy2 : (if y2 < y1 then y1 else y2) = max y1 y2 := by
    split <;> omega
  unfold Map.dig
  simp only [hx1, hx2, hy1, hy2]
  have inner : ∀ (tx : Int) (acc : Map),
      (loopRange (min y1 y2) (max y1 y2)).foldl
          (fun acc2 tiley => { acc2 with map := acc2.map.setProperties tx tiley true true }) acc
        = { acc with map := digColumn tx (loopRange (min y1 y2) (max y1 y2)) acc.map } := by
    intro tx acc
    exact foldl_map_field (fun t y => t.setProperties tx y true true) _ acc
  simp only [inner]
  exact foldl_map_field (fun t tx => digColumn tx (loopRange (min y1 y2) (max y1 y2)) t) _ m

theorem digColumn_walkable (tx : Int) (ys : List Int) (t : TCODMap) (a b : Int) :
    (digColumn tx ys t).walkable a b = (t.walkable a b || decide (a = tx ∧ b ∈ ys)) := by
  unfold digColumn
  induction ys generalizing t with
  | nil => simp
  | cons y rest ih =>
    simp only [List.foldl_cons]
    rw [ih]
    simp only [TCODMap.setProperties, List.mem_cons]
    by_cases h1 : a = tx <;> by_cases h2 : b = y <;> by_cases h3 : b ∈ rest <;> simp [h1, h2, h3]

theorem digColumn_transparent (tx : Int) (ys : List Int) (t : TCODMap) (a b : Int) :
    (digColumn tx ys t).transparent a b = (t.transparent a b || decide (a = tx ∧ b ∈ ys)) := by
  unfold digColumn
  induction ys generalizing t with
  | nil => simp
  | cons y rest ih =>
    simp only [List.foldl_cons]
    rw [ih]
    simp only [TCODMap.setProperties, List.mem_cons]
    by_cases h1 : a = tx <;> by_cases h2 : b = y <;> by_cases h3 : b ∈ rest <;> simp [h1, h2, h3]

theorem digColumn_fov (tx : Int) (ys : List Int) (t : TCODMap) :
    (digColumn tx ys t).fov = t.fov := by
  unfold digColumn
  induction ys generalizing t with
  | nil => rfl
  | cons y rest ih => simp only [List.foldl_cons]; rw [ih]; rfl

theorem digGrid_walkable (xs ys : List Int) (t : TCODMap) (a b : Int) :
    (digGrid xs ys t).walkable a b = (t.walkable a b || decide (a ∈ xs ∧ b ∈ ys)) := by
  unfold digGrid
  induction xs generalizing t with
  | nil => simp
  | cons x rest ih =>
    simp only [List.foldl_cons]
    rw [ih, digColumn_walkable]
    simp only [List.mem_cons]
    by_cases h1 : a = x <;> by_cases h2 : a ∈ rest <;> by_cases h3 : b ∈ ys <;> simp [h1, h2, h3]

theorem digGrid_transparent (xs ys : List Int) (t : TCODMap) (a b : Int) :
    (digGrid xs ys t).transparent a b = (t.transparent a b || decide (a ∈ xs ∧ b ∈ ys)) := by
  unfold digGrid
  induction xs generalizing t with
  | nil => simp
  | cons x rest ih =>
    simp only [List.foldl_cons]
    rw [ih, digColumn_transparent]
    simp only [List.mem_cons]
    by_cases h1 : a = x <;> by_cases h2 : a ∈ rest <;> by_cases h3 : b ∈ ys <;> simp [h1, h2, h3]

theorem digGrid_fov (xs ys : List Int) (t : TCODMap) : (digGrid xs ys t).fov = t.fov := by
  unfold digGrid
  induction xs generalizing t with
  | nil => rfl
  | cons x rest ih => simp only [List.foldl_cons]; rw [ih, digColumn_fov]

/-- Walkability after `dig`: what it was, or inside the inclusive rectangle. -/
theorem dig_walkable (m : Map) (x1 y1 x2 y2 a b : Int) :
    (m.dig x1 y1 x2 y2).map.walkable a b
      = (m.map.walkable a b ||
          decide ((min x1 x2 ≤ a ∧ a ≤ max x1 x2) ∧ (min y1 y2 ≤ b ∧ b ≤ max y1 y2))) := by
  rw [dig_eq_digGrid]
  simp only [digGrid_walkable, mem_loopRange]

theorem dig_transparent (m : Map) (x1 y1 x2 y2 a b : Int) :
    (m.dig x1 y1 x2 y2).map.transparent a b
      = (m.map.transparent a b ||
          decide ((min x1 x2 ≤ a ∧ a ≤ max x1 x2) ∧ (min y1 y2 ≤ b ∧ b ≤ max y1 y2))) := by
  rw [dig_eq_digGrid]
  simp only [digGrid_transparent, mem_loopRange]

/-- C1: after `dig(x1,y1,x2,y2)` every cell of the inclusive rectangle spanned by the
two corners is walkable and transparent, every cell outside it keeps the walkable
and transparent properties it had, and the result is the same whichever way the
corners are given. -/
theorem dig_rectangle (m : Map) (x1 y1 x2 y2 x y : Int) :
    ((min x1 x2 ≤ x ∧ x ≤ max x1 x2 ∧ min y1 y2 ≤ y ∧ y ≤ max y1 y2) →
        (m.dig x1 y1 x2 y2).map.isWalkable x y = true ∧
        (m.dig x1 y1 x2 y2).map.transparent x y = true) ∧
    (¬ (min x1 x2 ≤ x ∧ x ≤ max x1 x2 ∧ min y1 y2 ≤ y ∧ y ≤ max y1 y2) →
        (m.dig x1 y1 x2 y2).map.isWalkable x y = m.map.isWalkable x y ∧
        (m.dig x1 y1 x2 y2).map.transparent x y = m.map.transparent x y) ∧
    m.dig x2 y2 x1 y1 = m.dig x1 y1 x2 y2 ∧
    m.dig x2 y1 x1 y2 = m.dig x1 y1 x2 y2 ∧
    m.dig x1 y2 x2 y1 = m.dig x1 y1 x2 y2 := by
  refine ⟨?_, ?_, ?_, ?_, ?_⟩
  · intro h
    have h' : (min x1 x2 ≤ x ∧ x ≤ max x1 x2) ∧ (min y1 y2 ≤ y ∧ y ≤ max y1 y2) :=
      ⟨⟨h.1, h.2.1⟩, h.2.2⟩
    simp only [TCODMap.isWalkable, dig_walkable, dig_transparent, h', and_self, decide_True,
      Bool.or_true]
  · intro h
    have h' : ¬ ((min x1 x2 ≤ x ∧ x ≤ max x1 x2) ∧ (min y1 y2 ≤ y ∧ y ≤ max y1 y2)) :=
      fun c => h ⟨c.1.1, c.1.2, c.2⟩
    simp only [TCODMap.isWalkable, dig_walkable, dig_transparent, h', decide_False,
      Bool.or_false, and_self]
  · simp only [dig_eq_digGrid, min_comm x2 x1, max_comm x2 x1, min_comm y2 y1, max_comm y2 y1]
  · simp only [dig_eq_digGrid, min_comm x2 x1, max_comm x2 x1]
  · simp only [dig_eq_digGrid, min_comm y2 y1, max_comm y2 y1]

/-- C1 at a concrete input: digging from `(10, 8)` back to `(5, 5)` in a blank map opens
`(7, 6)`, leaves `(11, 6)` closed, and equals digging from `(5, 5)` to `(10, 8)`. -/
theorem dig_rectangle_witness :
    (min (10 : Int) 5 ≤ 7 ∧ (7 : Int) ≤ max 10 5 ∧ min (8 : Int) 5 ≤ 6 ∧ (6 : Int) ≤ max 8 5) ∧
    ((blankMap.dig 10 8 5 5).map.isWalkable 7 6 = true ∧
      (blankMap.dig 10 8 5 5).map.transparent 7 6 = true) ∧
    ¬ (min (10 : Int) 5 ≤ 11 ∧ (11 : Int) ≤ max 10 5 ∧ min (8 : Int) 5 ≤ 6 ∧ (6 : Int) ≤ max 8 5) ∧
    ((blankMap.dig 10 8 5 5).map.isWalkable 11 6 = false ∧
      (blankMap.dig 10 8 5 5).map.transparent 11 6 = false) ∧
    blankMap.dig 5 5 10 8 = blankMap.dig 10 8 5 5 :=
  ⟨by decide, (dig_rectangle blankMap 10 8 5 5 7 6).1 (by decide), by decide,
    (dig_rectangle blankMap 10 8 5 5 11 6).2.1 (by decide),
    (dig_rectangle blankMap 10 8 5 5 7 6).2.2.1⟩

/-! ## Field of view and scent -/

theorem idx_injective (m : Map) (x y x0 y0 : Int) (h : m.inBounds x y)
    (h0 : m.inBounds x0 y0) (e : m.idx x y = m.idx x0 y0) : x = x0 ∧ y = y0 := by
  unfold Map.inBounds at h h0
  unfold Map.idx at e
  have hw : (0 : Int) < m.width := by omega
  have hx : x = x0 := by
    have e1 : (x + y * m.width) % m.width = (x0 + y0 * m.width) % m.width := by rw [e]
    rw [Int.add_mul_emod_self, Int.add_mul_emod_self,
      Int.emod_eq_of_lt h.1 h.2.1, Int.emod_eq_of_lt h0.1 h0.2.1] at e1
    exact e1
  subst hx
  have e2 : y * m.width = y0 * m.width := by omega
  exact ⟨rfl, mul_right_cancel₀ (ne_of_gt hw) e2⟩

theorem isInFov_outside (m : Map) (x y : Int) (h : ¬ m.inBounds x y) :
    m.isInFov x y = (false, m) := by
  unfold Map.inBounds at h
  unfold Map.isInFov
  rw [if_pos (by omega)]

theorem isInFov_inside (m : Map) (x y : Int) (h : m.inBounds x y) :
    m.isInFov x y =
      (m.map.fov x y,
        if m.map.fov x y then
          { m with tiles := Function.update m.tiles (m.idx x y)
                      { m.tiles (m.idx x y) with explored := true } }
        else m) := by
  unfold Map.inBounds at h
  unfold Map.isInFov
  rw [if_neg (by omega)]
  simp only [TCODMap.isInFov]
  split <;> simp_all

theorem body_outside (eng : Engine) (m : Map) (x y : Int) (h : ¬ m.inBounds x y) :
    Map.computeFov.body eng m x y = m := by
  unfold Map.computeFov.body
  simp [isInFov_outside m x y h]

theorem body_inside (eng : Engine) (m : Map) (x y : Int) (h : m.inBounds x y) :
    Map.computeFov.body eng m x y =
      { m with tiles := Function.update m.tiles (m.idx x y)
                  (Map.computeFov.tileAfter eng m x y (m.tiles (m.idx x y))) } := by
  unfold Map.computeFov.body Map.computeFov.tileAfter
  rw [isInFov_inside m x y h]
  by_cases hv : m.map.fov x y = true
  · simp only [hv, if_true]
    simp only [Map.getScent, Map.idx, Map.computeFov.newScent, Map.computeFov.distance,
      Function.update_same,
      Function.update_idem]
    split
    · next hgt => rw [max_eq_right (le_of_lt hgt)]
    · next hle =>
      rw [max_eq_left (not_lt.mp hle)]
  · simp only [hv]
    simp


theorem foldl_nested_product {σ : Type} (f : σ → Int × Int → σ) (xs ys : List Int) (s : σ) :
    xs.foldl (fun acc x => ys.foldl (fun a y => f a (x, y)) acc) s
      = (xs ×ˢ ys).foldl f s := by
  induction xs generalizing s with
  | nil => rfl
  | cons x rest ih =>
    rw [List.product_cons, List.foldl_append, List.foldl_map, List.foldl_cons, ih]

theorem body_eq_tilesStep (eng : Engine) (m : Map) (x y : Int) :
    Map.computeFov.body eng m x y
      = { m with tiles := Map.computeFov.tilesStep eng m m.tiles (x, y) } := by
  unfold Map.computeFov.tilesStep
  by_cases h : m.inBounds x y
  · rw [body_inside eng m x y h, if_pos h]
  · rw [body_outside eng m x y h, if_neg h]

theorem scentLoop_eq (eng : Engine) (cells : List (Int × Int)) (m : Map) :
    cells.foldl (fun acc p => Map.computeFov.body eng acc p.1 p.2) m
      = { m with tiles := cells.foldl (Map.computeFov.tilesStep eng m) m.tiles } := by
  induction cells generalizing m with
  | nil => rfl
  | cons p rest ih =>
    rw [List.foldl_cons, ih, body_eq_tilesStep]
    rfl

theorem computeFov_eq (algo : FovAlgo) (eng : Engine) (m : Map) :
    Map.computeFov algo eng m
      = { Map.withFov algo eng m with
          tiles := (Map.cells m).foldl (Map.computeFov.tilesStep eng (Map.withFov algo eng m))
                      m.tiles } := by
  unfold Map.computeFov
  have h := foldl_nested_product (fun acc p => Map.computeFov.body eng acc p.1 p.2)
    (loopRange 0 (m.width - 1)) (loopRange 0 (m.height - 1)) (Map.withFov algo eng m)
  simp only at h
  show List.foldl _ (Map.withFov algo eng m) (loopRange 0 (m.width - 1)) = _
  rw [h, scentLoop_eq]
  rfl

theorem mem_cells (m : Map) (x y : Int) : (x, y) ∈ Map.cells m ↔ m.inBounds x y := by
  unfold Map.cells Map.inBounds
  rw [List.mem_product, mem_loopRange, mem_loopRange]
  constructor <;> intro h <;> omega

theorem tileAfter_idem (eng : Engine) (m : Map) (x y : Int) (t : Tile) :
    Map.computeFov.tileAfter eng m x y (Map.computeFov.tileAfter eng m x y t)
      = Map.computeFov.tileAfter eng m x y t := by
  unfold Map.computeFov.tileAfter
  split <;> simp

theorem tilesFold_other (eng : Engine) (m : Map) (cells : List (Int × Int)) (tl : Int → Tile)
    (i : Int) (h : ∀ p ∈ cells, m.inBounds p.1 p.2 → m.idx p.1 p.2 ≠ i) :
    cells.foldl (Map.computeFov.tilesStep eng m) tl i = tl i := by
  induction cells generalizing tl with
  | nil => rfl
  | cons p rest ih =>
    rw [List.foldl_cons, ih _ (fun q hq => h q (List.mem_cons_of_mem _ hq))]
    unfold Map.computeFov.tilesStep
    by_cases hb : m.inBounds p.1 p.2
    · rw [if_pos hb, Function.update_noteq (Ne.symm (h p (List.mem_cons_self _ _) hb))]
    · rw [if_neg hb]

theorem tilesFold_hit (eng : Engine) (m : Map) (cells : List (Int × Int)) (tl : Int → Tile)
    (x y : Int) (hb : m.inBounds x y) :
    cells.foldl (Map.computeFov.tilesStep eng m) tl (m.idx x y)
      = if (x, y) ∈ cells then Map.computeFov.tileAfter eng m x y (tl (m.idx x y))
        else tl (m.idx x y) := by
  induction cells generalizing tl with
  | nil => rfl
  | cons p rest ih =>
    rw [List.foldl_cons, ih]
    by_cases hp : p = (x, y)
    · subst hp
      have e : Map.computeFov.tilesStep eng m tl (x, y) (m.idx x y)
          = Map.computeFov.tileAfter eng m x y (tl (m.idx x y)) := by
        unfold Map.computeFov.tilesStep
        rw [if_pos hb, Function.update_same]
      rw [e, tileAfter_idem]
      simp
    · have e : Map.computeFov.tilesStep eng m tl p (m.idx x y) = tl (m.idx x y) := by
        unfold Map.computeFov.tilesStep
        by_cases hq : m.inBounds p.1 p.2
        · rw [if_pos hq, Function.update_noteq]
          intro c
          have := idx_injective m x y p.1 p.2 hb hq c
          exact hp (Prod.ext this.1.symm this.2.symm)
        · rw [if_neg hq]
      rw [e]
      have hm : (x, y) ∈ p :: rest ↔ (x, y) ∈ rest := by
        rw [List.mem_cons]
        constructor
        · rintro (c | c)
          · exact absurd c.symm hp
          · exact c
        · exact Or.inr
      simp only [hm]

/-- The tile of an in-range cell after `computeFov`. -/
theorem computeFov_tile (algo : FovAlgo) (eng : Engine) (m : Map) (x y : Int)
    (hb : m.inBounds x y) :
    (Map.computeFov algo eng m).tiles (m.idx x y)
      = Map.computeFov.tileAfter eng (Map.withFov algo eng m) x y (m.tiles (m.idx x y)) := by
  rw [computeFov_eq]
  have h := tilesFold_hit eng (Map.withFov algo eng m) (Map.cells m) m.tiles x y hb
  rw [if_pos ((mem_cells m x y).2 hb)] at h
  exact h

/-- A tile that is not the tile of an in-range cell is untouched by `computeFov`. -/
theorem computeFov_tile_other (algo : FovAlgo) (eng : Engine) (m : Map) (i : Int)
    (h : ∀ x y, m.inBounds x y → m.idx x y ≠ i) :
    (Map.computeFov algo eng m).tiles i = m.tiles i := by
  rw [computeFov_eq]
  exact tilesFold_other eng (Map.withFov algo eng m) (Map.cells m) m.tiles i
    (fun p _ hp => h p.1 p.2 hp)

theorem computeFov_width (algo : FovAlgo) (eng : Engine) (m : Map) :
    (Map.computeFov algo eng m).width = m.width := by
  rw [computeFov_eq]; rfl

theorem computeFov_height (algo : FovAlgo) (eng : Engine) (m : Map) :
    (Map.computeFov algo eng m).height = m.height := by
  rw [computeFov_eq]; rfl

theorem computeFov_map (algo : FovAlgo) (eng : Engine) (m : Map) :
    (Map.computeFov algo eng m).map
      = m.map.computeFov algo eng.player.x eng.player.y eng.fovRadius := by
  rw [computeFov_eq]; rfl

/-- Scent of an in-range tile after `computeFov`, with the candidate as the source
computes it. -/
theorem computeFov_getScent (algo : FovAlgo) (eng : Engine) (m : Map) (x y : Int)
    (hb : m.inBounds x y) :
    (Map.computeFov algo eng m).getScent x y
      = if algo m.map.transparent eng.player.x eng.player.y eng.fovRadius x y = true then
          max (m.getScent x y) (Map.computeFov.newScent eng m x y)
        else m.getScent x y := by
  unfold Map.getScent
  have hi : (Map.computeFov algo eng m).idx x y = m.idx x y := by
    unfold Map.idx; rw [computeFov_width]
  rw [hi, computeFov_tile algo eng m x y hb]
  unfold Map.computeFov.tileAfter
  show (if algo m.map.transparent eng.player.x eng.player.y eng.fovRadius x y = true then _
    else _ : Tile).scent = _
  split <;> rfl

/-- Explored flag of an in-range tile after `computeFov`. -/
theorem computeFov_isExplored (algo : FovAlgo) (eng : Engine) (m : Map) (x y : Int)
    (hb : m.inBounds x y) :
    (Map.computeFov algo eng m).isExplored x y
      = (algo m.map.transparent eng.player.x eng.player.y eng.fovRadius x y
          || m.isExplored x y) := by
  unfold Map.isExplored
  have hi : (Map.computeFov algo eng m).idx x y = m.idx x y := by
    unfold Map.idx; rw [computeFov_width]
  rw [hi, computeFov_tile algo eng m x y hb]
  unfold Map.computeFov.tileAfter
  show (if algo m.map.transparent eng.player.x eng.player.y eng.fovRadius x y = true then _
    else _ : Tile).explored = _
  split
  · next h => rw [h]; rfl
  · next h => rw [Bool.not_eq_true] at h; rw [h]; rfl


theorem distance_demo : Map.computeFov.distance demoEngine 5 8 = 3 := by
  have h9 : ((5 - demoEngine.player.x) * (5 - demoEngine.player.x)
      + (8 - demoEngine.player.y) * (8 - demoEngine.player.y) : Int).toNat = 3 * 3 := by decide
  unfold Map.computeFov.distance
  simp only [h9]
  rw [Nat.sqrt_eq' 3]
  rfl

/-- C2, as the code has it: for an in-range tile in view whose truncated distance from
the player does not exceed `currentScentValue` (an `unsigned int`), the scent
after `computeFov` is the larger of the old scent and
`currentScentValue - distance`: it is set to that value when it is greater than
the old scent and is left at the old scent otherwise. -/
theorem computeFov_scent (algo : FovAlgo) (eng : Engine) (m : Map) (x y : Int)
    (hx : 0 ≤ x ∧ x < m.width) (hy : 0 ≤ y ∧ y < m.height)
    (hv : algo m.map.transparent eng.player.x eng.player.y eng.fovRadius x y = true)
    (hc : m.currentScentValue < 4294967296)
    (hd : Map.computeFov.distance eng x y ≤ (m.currentScentValue : Int)) :
    (((Map.computeFov algo eng m).getScent x y : Nat) : Int)
        = max ((m.getScent x y : Nat) : Int)
            ((m.currentScentValue : Int) - Map.computeFov.distance eng x y) ∧
    ((m.currentScentValue : Int) - Map.computeFov.distance eng x y > ((m.getScent x y : Nat) : Int) →
      (((Map.computeFov algo eng m).getScent x y : Nat) : Int)
        = (m.currentScentValue : Int) - Map.computeFov.distance eng x y) ∧
    (¬ (m.currentScentValue : Int) - Map.computeFov.distance eng x y
          > ((m.getScent x y : Nat) : Int) →
      (Map.computeFov algo eng m).getScent x y = m.getScent x y) := by
  have hb : m.inBounds x y := ⟨hx.1, hx.2, hy.1, hy.2⟩
  have hn : ((Map.computeFov.newScent eng m x y : Nat) : Int)
      = (m.currentScentValue : Int) - Map.computeFov.distance eng x y := by
    unfold Map.computeFov.newScent
    have h0 : (0 : Int) ≤ Map.computeFov.distance eng x y := by
      unfold Map.computeFov.distance; exact Int.natCast_nonneg _
    rw [Int.toNat_of_nonneg (Int.emod_nonneg _ (by decide))]
    exact Int.emod_eq_of_lt (by omega) (by omega)
  rw [computeFov_getScent algo eng m x y hb, if_pos hv]
  refine ⟨?_, ?_, ?_⟩
  · rw [Nat.cast_max, hn]
  · intro h
    rw [Nat.cast_max, hn]
    exact max_eq_right (le_of_lt h)
  · intro h
    apply max_eq_left
    have : ((Map.computeFov.newScent eng m x y : Nat) : Int) ≤ ((m.getScent x y : Nat) : Int) := by
      rw [hn]; exact not_lt.mp h
    exact_mod_cast this

/-- C2 at a concrete input: with ceiling 20 and the player at `(5, 5)`, the visible
tile `(5, 8)` of a blank map, at distance 3, gets scent 17. -/
theorem computeFov_scent_witness :
    ((0 : Int) ≤ 5 ∧ (5 : Int) < blankMap.width) ∧ ((0 : Int) ≤ 8 ∧ (8 : Int) < blankMap.height) ∧
    seeAll blankMap.map.transparent demoEngine.player.x demoEngine.player.y
      demoEngine.fovRadius 5 8 = true ∧
    blankMap.currentScentValue < 4294967296 ∧
    Map.computeFov.distance demoEngine 5 8 ≤ (blankMap.currentScentValue : Int) ∧
    (((Map.computeFov seeAll demoEngine blankMap).getScent 5 8 : Nat) : Int)
      = max ((blankMap.getScent 5 8 : Nat) : Int)
          ((blankMap.currentScentValue : Int) - Map.computeFov.distance demoEngine 5 8) :=
  ⟨by decide, by decide, by decide, by decide, by rw [distance_demo]; decide,
    (computeFov_scent seeAll demoEngine blankMap 5 8 (by decide) (by decide) (by decide)
      (by decide) (by rw [distance_demo]; decide)).1⟩

/-- C2 as stated fails when the distance exceeds the ceiling: with
`currentScentValue = 2` and the player at `(5, 5)`, the visible tile `(5, 8)` has
old scent 0 and `currentScentValue - distance = -1`, which is not greater than
the old scent, yet `computeFov` changes its scent to `4294967295`. -/
theorem computeFov_scent_counterexample :
    ((0 : Int) ≤ 5 ∧ (5 : Int) < faintMap.width ∧ (0 : Int) ≤ 8 ∧ (8 : Int) < faintMap.height) ∧
    seeAll faintMap.map.transparent demoEngine.player.x demoEngine.player.y
      demoEngine.fovRadius 5 8 = true ∧
    faintMap.getScent 5 8 = 0 ∧
    (faintMap.currentScentValue : Int) - Map.computeFov.distance demoEngine 5 8 = -1 ∧
    ¬ ((faintMap.currentScentValue : Int) - Map.computeFov.distance demoEngine 5 8
        > ((faintMap.getScent 5 8 : Nat) : Int)) ∧
    (Map.computeFov seeAll demoEngine faintMap).getScent 5 8 = 4294967295 ∧
    (((Map.computeFov seeAll demoEngine faintMap).getScent 5 8 : Nat) : Int)
      ≠ max ((faintMap.getScent 5 8 : Nat) : Int)
          ((faintMap.currentScentValue : Int) - Map.computeFov.distance demoEngine 5 8) := by
  have hs : (Map.computeFov seeAll demoEngine faintMap).getScent 5 8 = 4294967295 := by
    rw [computeFov_getScent seeAll demoEngine faintMap 5 8 (by decide)]
    rw [if_pos (by decide)]
    unfold Map.computeFov.newScent
    rw [distance_demo]
    decide
  refine ⟨by decide, by decide, by decide, ?_, ?_, hs, ?_⟩
  · rw [distance_demo]; decide
  · rw [distance_demo]; decide
  · rw [hs, distance_demo]; decide


theorem tilesStep_scent_le (eng : Engine) (m : Map) (tl : Int → Tile) (p : Int × Int) (i : Int) :
    (tl i).scent ≤ (Map.computeFov.tilesStep eng m tl p i).scent := by
  unfold Map.computeFov.tilesStep
  split
  · by_cases hi : i = m.idx p.1 p.2
    · subst hi
      rw [Function.update_same]
      unfold Map.computeFov.tileAfter
      split
      · exact le_max_left _ _
      · exact le_refl _
    · rw [Function.update_noteq hi]
  · exact le_refl _

theorem tilesStep_explored (eng : Engine) (m : Map) (tl : Int → Tile) (p : Int × Int) (i : Int)
    (h : (tl i).explored = true) : (Map.computeFov.tilesStep eng m tl p i).explored = true := by
  unfold Map.computeFov.tilesStep
  split
  · by_cases hi : i = m.idx p.1 p.2
    · subst hi
      rw [Function.update_same]
      unfold Map.computeFov.tileAfter
      split
      · rfl
      · exact h
    · rw [Function.update_noteq hi]; exact h
  · exact h

theorem tilesFold_scent_le (eng : Engine) (m : Map) (cells : List (Int × Int)) (tl : Int → Tile)
    (i : Int) : (tl i).scent ≤ (cells.foldl (Map.computeFov.tilesStep eng m) tl i).scent := by
  induction cells generalizing tl with
  | nil => exact le_refl _
  | cons p rest ih =>
    rw [List.foldl_cons]
    exact le_trans (tilesStep_scent_le eng m tl p i) (ih _)

theorem tilesFold_explored (eng : Engine) (m : Map) (cells : List (Int × Int)) (tl : Int → Tile)
    (i : Int) (h : (tl i).explored = true) :
    (cells.foldl (Map.computeFov.tilesStep eng m) tl i).explored = true := by
  induction cells generalizing tl with
  | nil => exact h
  | cons p rest ih =>
    rw [List.foldl_cons]
    exact ih _ (tilesStep_explored eng m tl p i h)

theorem computeFov_tile_scent_le (algo : FovAlgo) (eng : Engine) (m : Map) (i : Int) :
    (m.tiles i).scent ≤ ((Map.computeFov algo eng m).tiles i).scent := by
  rw [computeFov_eq]
  exact tilesFold_scent_le eng (Map.withFov algo eng m) (Map.cells m) m.tiles i

theorem computeFov_tile_explored (algo : FovAlgo) (eng : Engine) (m : Map) (i : Int)
    (h : (m.tiles i).explored = true) : ((Map.computeFov algo eng m).tiles i).explored = true := by
  rw [computeFov_eq]
  exact tilesFold_explored eng (Map.withFov algo eng m) (Map.cells m) m.tiles i h

theorem runFovCalls_width (calls : List FovCall) (m : Map) :
    (runFovCalls calls m).width = m.width := by
  unfold runFovCalls
  induction calls generalizing m with
  | nil => rfl
  | cons c rest ih => rw [List.foldl_cons, ih, computeFov_width]

theorem runFovCalls_tile_scent_le (calls : List FovCall) (m : Map) (i : Int) :
    (m.tiles i).scent ≤ ((runFovCalls calls m).tiles i).scent := by
  unfold runFovCalls
  induction calls generalizing m with
  | nil => exact le_refl _
  | cons c rest ih =>
    rw [List.foldl_cons]
    exact le_trans
      (computeFov_tile_scent_le c.algo c.eng { m with currentScentValue := c.scent } i) (ih _)

/-- C3: a tile's scent never decreases. For every map state, every tile coordinate and
every `computeFov` call (any field of view, any player position, any
`currentScentValue`), `getScent(x, y)` after the call is at least its value
before; the same holds across every sequence of such calls with
`currentScentValue` set to any value before each. -/
theorem getScent_never_decreases (m : Map) (x y : Int) :
    (∀ (algo : FovAlgo) (eng : Engine),
      m.getScent x y ≤ (Map.computeFov algo eng m).getScent x y) ∧
    (∀ calls : List FovCall, m.getScent x y ≤ (runFovCalls calls m).getScent x y) := by
  constructor
  · intro algo eng
    unfold Map.getScent Map.idx
    rw [computeFov_width]
    exact computeFov_tile_scent_le algo eng m _
  · intro calls
    unfold Map.getScent Map.idx
    rw [runFovCalls_width]
    exact runFovCalls_tile_scent_le calls m _


/-! ## The explored flag -/

theorem isInFov_width (m : Map) (x y : Int) : (m.isInFov x y).2.width = m.width := by
  unfold Map.isInFov
  split
  · rfl
  · split <;> rfl

theorem isInFov_tile_explored (m : Map) (x y i : Int) (h : (m.tiles i).explored = true) :
    ((m.isInFov x y).2.tiles i).explored = true := by
  unfold Map.isInFov
  split
  · exact h
  · split
    · by_cases hi : i = m.idx x y
      · subst hi
        simp only [Function.update_same]
      · simp only [Function.update_noteq hi]
        exact h
    · exact h

theorem dig_width (m : Map) (x1 y1 x2 y2 : Int) : (m.dig x1 y1 x2 y2).width = m.width := by
  rw [dig_eq_digGrid]

theorem dig_tiles (m : Map) (x1 y1 x2 y2 : Int) : (m.dig x1 y1 x2 y2).tiles = m.tiles := by
  rw [dig_eq_digGrid]

theorem run_width (m : Map) (op : MapOp) : (MapOp.run m op).width = m.width := by
  cases op with
  | isInFov x y => exact isInFov_width m x y
  | computeFov algo eng => exact computeFov_width algo eng m
  | dig x1 y1 x2 y2 => exact dig_width m x1 y1 x2 y2
  | canWalk _ _ _ => rfl
  | isWall _ _ => rfl
  | isExplored _ _ => rfl
  | getScent _ _ => rfl

theorem run_tile_explored (m : Map) (op : MapOp) (i : Int) (h : (m.tiles i).explored = true) :
    ((MapOp.run m op).tiles i).explored = true := by
  cases op with
  | isInFov x y => exact isInFov_tile_explored m x y i h
  | computeFov algo eng => exact computeFov_tile_explored algo eng m i h
  | dig x1 y1 x2 y2 =>
    show ((m.dig x1 y1 x2 y2).tiles i).explored = true
    rw [dig_tiles]; exact h
  | canWalk _ _ _ => exact h
  | isWall _ _ => exact h
  | isExplored _ _ => exact h
  | getScent _ _ => exact h

theorem runs_width (ops : List MapOp) (m : Map) : (ops.foldl MapOp.run m).width = m.width := by
  induction ops generalizing m with
  | nil => rfl
  | cons op rest ih => rw [List.foldl_cons, ih, run_width]

theorem runs_tile_explored (ops : List MapOp) (m : Map) (i : Int)
    (h : (m.tiles i).explored = true) : ((ops.foldl MapOp.run m).tiles i).explored = true := by
  induction ops generalizing m with
  | nil => exact h
  | cons op rest ih =>
    rw [List.foldl_cons]
    exact ih _ (run_tile_explored m op i h)

/-- C4: the explored flag is monotonic. If `isExplored(x, y)` is true in a map state, it
is still true after any one gameplay operation (`isInFov`, `computeFov`, `dig`,
`canWalk`, `isWall`, `isExplored`, `getScent`, with any arguments) and after
every sequence of them. -/
theorem explored_monotonic (m : Map) (x y : Int) (h : m.isExplored x y = true) :
    (∀ op : MapOp, (MapOp.run m op).isExplored x y = true) ∧
    (∀ ops : List MapOp, (ops.foldl MapOp.run m).isExplored x y = true) := by
  unfold Map.isExplored Map.idx at h
  constructor
  · intro op
    unfold Map.isExplored Map.idx
    rw [run_width]
    exact run_tile_explored m op _ h
  · intro ops
    unfold Map.isExplored Map.idx
    rw [runs_width]
    exact runs_tile_explored ops m _ h

/-- C4 at a concrete input: tile `(1, 1)` of the small map is explored and stays so
through a field-of-view computation that sees nothing, a dig over it and a
visibility query. -/
theorem explored_monotonic_witness :
    smallMap.isExplored 1 1 = true ∧
    ([MapOp.computeFov seeNothing demoEngine, MapOp.dig 0 0 2 1, MapOp.isInFov 1 1].foldl
      MapOp.run smallMap).isExplored 1 1 = true :=
  ⟨by decide, (explored_monotonic smallMap 1 1 (by decide)).2 _⟩

/-- C5: `isInFov` is bounds-checked and marks visible tiles explored. Outside the grid
it answers false and changes nothing. Inside the grid it answers what the
external structure says about `(x, y)`; the explored flag of that tile becomes true when
the cell is visible and keeps its value when it is not; no other tile changes
(by flat index, hence by coordinate for every other in-range cell), no scent
changes, and nothing else of the map changes. -/
theorem isInFov_checked (m : Map) (x y : Int) :
    ((x < 0 ∨ x ≥ m.width ∨ y < 0 ∨ y ≥ m.height) → m.isInFov x y = (false, m)) ∧
    ((0 ≤ x ∧ x < m.width ∧ 0 ≤ y ∧ y < m.height) →
      (m.isInFov x y).1 = m.map.isInFov x y ∧
      (m.map.isInFov x y = true → (m.isInFov x y).2.isExplored x y = true) ∧
      (m.map.isInFov x y = false → (m.isInFov x y).2.isExplored x y = m.isExplored x y) ∧
      (∀ i : Int, i ≠ m.idx x y → (m.isInFov x y).2.tiles i = m.tiles i) ∧
      (∀ a b : Int, 0 ≤ a ∧ a < m.width ∧ 0 ≤ b ∧ b < m.height → (a, b) ≠ (x, y) →
        (m.isInFov x y).2.isExplored a b = m.isExplored a b) ∧
      (∀ i : Int, ((m.isInFov x y).2.tiles i).scent = (m.tiles i).scent) ∧
      (∀ a b : Int, (m.isInFov x y).2.getScent a b = m.getScent a b) ∧
      (m.isInFov x y).2.map = m.map ∧
      (m.isInFov x y).2.width = m.width ∧ (m.isInFov x y).2.height = m.height ∧
      (m.isInFov x y).2.currentScentValue = m.currentScentValue) := by
  constructor
  · intro h
    exact isInFov_outside m x y (by unfold Map.inBounds; omega)
  · intro hb
    have hb' : m.inBounds x y := hb
    rw [isInFov_inside m x y hb']
    simp only [TCODMap.isInFov]
    by_cases hv : m.map.fov x y = true
    · simp only [hv, if_true]
      refine ⟨trivial, ?_, ?_, ?_, ?_, ?_, ?_, trivial, trivial, trivial, trivial⟩
      · intro _
        simp only [Map.isExplored, Map.idx, Function.update_same]
      · intro c; exact absurd c (by simp)
      · intro i hi
        simp only [Function.update_noteq hi]
      · intro a b hab hne
        have hi : m.idx a b ≠ m.idx x y := by
          intro c
          have := idx_injective m a b x y hab hb' c
          exact hne (Prod.ext this.1 this.2)
        simp only [Map.isExplored]
        show (Function.update m.tiles (m.idx x y) _ (m.idx a b)).explored = _
        rw [Function.update_noteq hi]
      · intro i
        by_cases hi : i = m.idx x y
        · subst hi; simp only [Function.update_same]
        · simp only [Function.update_noteq hi]
      · intro a b
        simp only [Map.getScent]
        show (Function.update m.tiles (m.idx x y) _ (m.idx a b)).scent = _
        by_cases hi : m.idx a b = m.idx x y
        · rw [hi, Function.update_same]
        · rw [Function.update_noteq hi]
    · have hv' : m.map.fov x y = false := by simpa using hv
      simp only [hv', Bool.false_eq_true, if_false]
      simp

/-- C5 at concrete inputs on the small map: `(3, 0)` is outside and changes nothing;
`(2, 1)` is visible, so the query answers true and marks it explored; `(0, 0)`
is not visible, so the query answers false and leaves it unexplored. -/
theorem isInFov_checked_witness :
    ((3 : Int) < 0 ∨ (3 : Int) ≥ smallMap.width ∨ (0 : Int) < 0 ∨ (0 : Int) ≥ smallMap.height) ∧
    smallMap.isInFov 3 0 = (false, smallMap) ∧
    ((0 : Int) ≤ 2 ∧ (2 : Int) < smallMap.width ∧ (0 : Int) ≤ 1 ∧ (1 : Int) < smallMap.height) ∧
    smallMap.map.isInFov 2 1 = true ∧
    (smallMap.isInFov 2 1).1 = true ∧
    (smallMap.isInFov 2 1).2.isExplored 2 1 = true ∧
    smallMap.isExplored 2 1 = false ∧
    (smallMap.isInFov 0 0).1 = false ∧
    (smallMap.isInFov 0 0).2.isExplored 0 0 = false :=
  ⟨by decide, (isInFov_checked smallMap 3 0).1 (by decide), by decide, by decide,
    ((isInFov_checked smallMap 2 1).2 (by decide)).1.trans (by decide),
    ((isInFov_checked smallMap 2 1).2 (by decide)).2.1 (by decide), by decide,
    ((isInFov_checked smallMap 0 0).2 (by decide)).1.trans (by decide),
    (((isInFov_checked smallMap 0 0).2 (by decide)).2.2.1 (by decide)).trans (by decide)⟩


/-! ## Walkability -/

theorem scan_iff (actors : List Actor) (x y : Int) :
    Map.canWalk.scan actors x y = true
      ↔ ∀ a ∈ actors, ¬ (a.blocks = true ∧ a.x = x ∧ a.y = y) := by
  induction actors with
  | nil => simp [Map.canWalk.scan]
  | cons a rest ih =>
    unfold Map.canWalk.scan
    by_cases h : a.blocks = true ∧ a.x = x ∧ a.y = y
    · have hc : (a.blocks && a.x == x && a.y == y) = true := by
        simp [h.1, h.2.1, h.2.2]
      rw [if_pos hc]
      constructor
      · intro c; exact absurd c (by simp)
      · intro c; exact absurd h (c a (List.mem_cons_self _ _))
    · have hc : ¬ (a.blocks && a.x == x && a.y == y) = true := by
        intro c
        simp only [Bool.and_eq_true, beq_iff_eq] at c
        exact h ⟨c.1.1, c.1.2, c.2⟩
      rw [if_neg hc, ih]
      constructor
      · intro c b hb
        rcases List.mem_cons.1 hb with e | e
        · rw [e]; exact h
        · exact c b e
      · intro c b hb
        exact c b (List.mem_cons_of_mem _ hb)

/-- C6: `canWalk(x, y)` is true exactly when the cell is not a wall, that is, walkable
in the external grid, and no actor of the registry both blocks and stands on
`(x, y)`. An actor that does not block, or stands elsewhere, can be added to or
removed from any place of the registry without changing the answer. -/
theorem canWalk_iff (m : Map) (eng : Engine) (x y : Int) :
    (m.canWalk eng x y = true
      ↔ m.isWall x y = false ∧
        ∀ a ∈ eng.actors, ¬ (a.blocks = true ∧ a.x = x ∧ a.y = y)) ∧
    (m.isWall x y = false ↔ m.map.isWalkable x y = true) ∧
    (∀ (a : Actor) (before after : List Actor), (a.blocks = false ∨ a.x ≠ x ∨ a.y ≠ y) →
      m.canWalk { eng with actors := before ++ a :: after } x y
        = m.canWalk { eng with actors := before ++ after } x y) := by
  refine ⟨?_, ?_, ?_⟩
  · unfold Map.canWalk
    by_cases hw : m.isWall x y = true
    · rw [if_pos hw]
      simp [hw]
    · rw [if_neg hw, scan_iff]
      simp only [Bool.not_eq_true] at hw
      simp [hw]
  · unfold Map.isWall
    simp
  · intro a before after ha
    unfold Map.canWalk
    by_cases hw : m.isWall x y = true
    · rw [if_pos hw, if_pos hw]
    · rw [if_neg hw, if_neg hw]
      have key : Map.canWalk.scan (before ++ a :: after) x y = true
          ↔ Map.canWalk.scan (before ++ after) x y = true := by
        rw [scan_iff, scan_iff]
        constructor
        · intro c b hb
          apply c b
          rcases List.mem_append.1 hb with e | e
          · exact List.mem_append_left _ e
          · exact List.mem_append_right _ (List.mem_cons_of_mem _ e)
        · intro c b hb
          rcases List.mem_append.1 hb with e | e
          · exact c b (List.mem_append_left _ e)
          · rcases List.mem_cons.1 e with e2 | e2
            · rw [e2]
              rintro ⟨h1, h2, h3⟩
              rcases ha with g | g | g
              · rw [h1] at g; exact absurd g (by simp)
              · exact g h2
              · exact g h3
            · exact c b (List.mem_append_right _ e2)
      show Map.canWalk.scan (before ++ a :: after) x y = Map.canWalk.scan (before ++ after) x y
      cases h1 : Map.canWalk.scan (before ++ a :: after) x y <;>
        cases h2 : Map.canWalk.scan (before ++ after) x y <;> simp_all

/-- C6 at concrete inputs: on the small map the walkable cell `(1, 1)` can be walked
although an item lies on it and an orc stands next to it, and taking the item
out of the registry leaves the answer as it is. -/
theorem canWalk_iff_witness :
    smallMap.canWalk crowdedEngine 1 1 = true ∧
    (({ x := 1, y := 1, name := "health potion", blocks := false } : Actor).blocks = false ∨
      ({ x := 1, y := 1, name := "health potion", blocks := false } : Actor).x ≠ 1 ∨
      ({ x := 1, y := 1, name := "health potion", blocks := false } : Actor).y ≠ 1) ∧
    smallMap.canWalk
        { crowdedEngine with
          actors := [] ++ ({ x := 1, y := 1, name := "health potion", blocks := false } : Actor)
                      :: [{ x := 2, y := 1, name := "orc", blocks := true }] } 1 1
      = smallMap.canWalk
        { crowdedEngine with
          actors := [] ++ [{ x := 2, y := 1, name := "orc", blocks := true }] } 1 1 :=
  ⟨by decide, by decide,
    (canWalk_iff smallMap crowdedEngine 1 1).2.2 _ [] _ (by decide)⟩


/-! ## Rooms and corridors -/

theorem addMonster_map (wd : World) (x y : Int) : (Map.addMonster wd x y).map = wd.map := by
  unfold Map.addMonster
  simp only
  split <;> rfl

theorem addItem_map (wd : World) (x y : Int) : (Map.addItem wd x y).map = wd.map := by
  unfold Map.addItem
  simp only
  split
  · rfl
  · split
    · rfl
    · split <;> rfl

theorem monsters_map (n : Nat) (wd : World) (x1 y1 x2 y2 : Int) :
    (Map.createRoom.monsters n wd x1 y1 x2 y2).map = wd.map := by
  induction n generalizing wd with
  | zero => rfl
  | succ k ih =>
    unfold Map.createRoom.monsters
    simp only
    rw [ih]
    split
    · rw [addMonster_map]
    · rfl

theorem items_map (n : Nat) (wd : World) (x1 y1 x2 y2 : Int) :
    (Map.createRoom.items n wd x1 y1 x2 y2).map = wd.map := by
  induction n generalizing wd with
  | zero => rfl
  | succ k ih =>
    unfold Map.createRoom.items
    simp only
    rw [ih]
    split
    · rw [addItem_map]
    · rfl

theorem createRoom_map (wd : World) (first : Bool) (x1 y1 x2 y2 : Int) (withActors : Bool) :
    (Map.createRoom wd first x1 y1 x2 y2 withActors).map = wd.map.dig x1 y1 x2 y2 := by
  unfold Map.createRoom
  cases withActors
  · rfl
  · cases first
    · simp only [Bool.not_true, Bool.false_eq_true, if_false]
      rw [items_map]
      show (Map.createRoom.monsters _ _ x1 y1 x2 y2).map = _
      rw [monsters_map]
    · rfl

theorem visitNode_carve (l : BspListener) (wd : World) (node : TCODBsp) (withActors : Bool) :
    ((BspListener.visitNode l wd node withActors).1,
      (BspListener.visitNode l wd node withActors).2.map) = BspListener.carve l wd.map node := by
  unfold BspListener.visitNode BspListener.carve
  by_cases hl : node.isLeaf = true
  · simp only [hl, if_true]
    by_cases hr : (l.roomNum != 0) = true
    · simp only [hr, if_true, createRoom_map]
    · simp only [hr, if_false, createRoom_map, Bool.false_eq_true]
  · simp only [hl, if_false, Bool.false_eq_true]

theorem traverse_carve (nodes : List TCODBsp) (withActors : Bool) (l : BspListener)
    (wd : World) :
    ((traverse nodes withActors l wd).1, (traverse nodes withActors l wd).2.map)
      = nodes.foldl (fun s node => BspListener.carve s.1 s.2 node) (l, wd.map) := by
  unfold traverse
  induction nodes generalizing l wd with
  | nil => rfl
  | cons node rest ih =>
    rw [List.foldl_cons, List.foldl_cons, ih, visitNode_carve]


theorem visitNode_listener (l : BspListener) (wd : World) (node : TCODBsp) (withActors : Bool) :
    (BspListener.visitNode l wd node withActors).1 = (BspListener.carve l wd.map node).1 :=
  congrArg Prod.fst (visitNode_carve l wd node withActors)

theorem visitNode_map (l : BspListener) (wd : World) (node : TCODBsp) (withActors : Bool) :
    (BspListener.visitNode l wd node withActors).2.map = (BspListener.carve l wd.map node).2 :=
  congrArg Prod.snd (visitNode_carve l wd node withActors)

theorem carve_leaf_later (l : BspListener) (m : Map) (node : TCODBsp)
    (hleaf : node.isLeaf = true) (hnum : l.roomNum ≠ 0) :
    BspListener.carve l m node =
      ({ roomNum := l.roomNum + 1,
         lastx := (BspListener.pickRoom m.rng node).1.x
                    + Int.tdiv (BspListener.pickRoom m.rng node).1.w 2,
         lasty := (BspListener.pickRoom m.rng node).1.y
                    + Int.tdiv (BspListener.pickRoom m.rng node).1.h 2 },
        (((({ m with rng := (BspListener.pickRoom m.rng node).2 } : Map).dig
              (BspListener.pickRoom m.rng node).1.x (BspListener.pickRoom m.rng node).1.y
              ((BspListener.pickRoom m.rng node).1.x + (BspListener.pickRoom m.rng node).1.w - 1)
              ((BspListener.pickRoom m.rng node).1.y + (BspListener.pickRoom m.rng node).1.h - 1)).dig
            l.lastx l.lasty
            ((BspListener.pickRoom m.rng node).1.x
              + Int.tdiv (BspListener.pickRoom m.rng node).1.w 2) l.lasty).dig
          ((BspListener.pickRoom m.rng node).1.x
            + Int.tdiv (BspListener.pickRoom m.rng node).1.w 2) l.lasty
          ((BspListener.pickRoom m.rng node).1.x
            + Int.tdiv (BspListener.pickRoom m.rng node).1.w 2)
          ((BspListener.pickRoom m.rng node).1.y
            + Int.tdiv (BspListener.pickRoom m.rng node).1.h 2))) := by
  unfold BspListener.carve
  have hr : (l.roomNum != 0) = true := by simpa using hnum
  simp only [hleaf, hr, if_true]

theorem carve_leaf_first (l : BspListener) (m : Map) (node : TCODBsp)
    (hleaf : node.isLeaf = true) (hnum : l.roomNum = 0) :
    BspListener.carve l m node =
      ({ roomNum := l.roomNum + 1,
         lastx := (BspListener.pickRoom m.rng node).1.x
                    + Int.tdiv (BspListener.pickRoom m.rng node).1.w 2,
         lasty := (BspListener.pickRoom m.rng node).1.y
                    + Int.tdiv (BspListener.pickRoom m.rng node).1.h 2 },
        (({ m with rng := (BspListener.pickRoom m.rng node).2 } : Map).dig
              (BspListener.pickRoom m.rng node).1.x (BspListener.pickRoom m.rng node).1.y
              ((BspListener.pickRoom m.rng node).1.x + (BspListener.pickRoom m.rng node).1.w - 1)
              ((BspListener.pickRoom m.rng node).1.y
                + (BspListener.pickRoom m.rng node).1.h - 1))) := by
  unfold BspListener.carve
  have hr : (l.roomNum != 0) = false := by simp [hnum]
  simp only [hleaf, hr, if_true, Bool.false_eq_true, if_false]

theorem carve_not_leaf (l : BspListener) (m : Map) (node : TCODBsp)
    (hleaf : node.isLeaf = false) : BspListener.carve l m node = (l, m) := by
  unfold BspListener.carve
  simp only [hleaf, Bool.false_eq_true, if_false]

/-- C7: for a leaf visited after the first, with previous centre `(lastx, lasty)` and new
centre `(cx, cy) = (x + w/2, y + h/2)` recorded by the listener, after
`visitNode` every cell `(i, lasty)` with `i` between `lastx` and `cx`
(inclusive, in either direction) and every cell `(cx, j)` with `j` between
`lasty` and `cy` (inclusive, in either direction) is walkable. -/
theorem corridor_walkable (l : BspListener) (wd : World) (node : TCODBsp) (withActors : Bool)
    (hleaf : node.isLeaf = true) (hnum : l.roomNum ≠ 0) :
    (BspListener.visitNode l wd node withActors).1.lastx
      = (BspListener.pickRoom wd.map.rng node).1.x
          + Int.tdiv (BspListener.pickRoom wd.map.rng node).1.w 2 ∧
    (BspListener.visitNode l wd node withActors).1.lasty
      = (BspListener.pickRoom wd.map.rng node).1.y
          + Int.tdiv (BspListener.pickRoom wd.map.rng node).1.h 2 ∧
    (∀ i : Int,
      min l.lastx (BspListener.visitNode l wd node withActors).1.lastx ≤ i ∧
        i ≤ max l.lastx (BspListener.visitNode l wd node withActors).1.lastx →
      (BspListener.visitNode l wd node withActors).2.map.map.isWalkable i l.lasty = true) ∧
    (∀ j : Int,
      min l.lasty (BspListener.visitNode l wd node withActors).1.lasty ≤ j ∧
        j ≤ max l.lasty (BspListener.visitNode l wd node withActors).1.lasty →
      (BspListener.visitNode l wd node withActors).2.map.map.isWalkable
        (BspListener.visitNode l wd node withActors).1.lastx j = true) := by
  rw [visitNode_listener, visitNode_map, carve_leaf_later l wd.map node hleaf hnum]
  refine ⟨rfl, rfl, ?_, ?_⟩
  · intro i hi
    simp only [TCODMap.isWalkable, dig_walkable]
    have h1 : (min l.lastx ((BspListener.pickRoom wd.map.rng node).1.x
          + Int.tdiv (BspListener.pickRoom wd.map.rng node).1.w 2) ≤ i ∧
        i ≤ max l.lastx ((BspListener.pickRoom wd.map.rng node).1.x
          + Int.tdiv (BspListener.pickRoom wd.map.rng node).1.w 2)) ∧
        (min l.lasty l.lasty ≤ l.lasty ∧ l.lasty ≤ max l.lasty l.lasty) :=
      ⟨hi, by simp⟩
    simp only [h1, decide_True, Bool.or_true, Bool.true_or, and_self]
  · intro j hj
    simp only [TCODMap.isWalkable, dig_walkable]
    have h2 : (min ((BspListener.pickRoom wd.map.rng node).1.x
            + Int.tdiv (BspListener.pickRoom wd.map.rng node).1.w 2)
          ((BspListener.pickRoom wd.map.rng node).1.x
            + Int.tdiv (BspListener.pickRoom wd.map.rng node).1.w 2)
          ≤ (BspListener.pickRoom wd.map.rng node).1.x
            + Int.tdiv (BspListener.pickRoom wd.map.rng node).1.w 2 ∧
        (BspListener.pickRoom wd.map.rng node).1.x
            + Int.tdiv (BspListener.pickRoom wd.map.rng node).1.w 2
          ≤ max ((BspListener.pickRoom wd.map.rng node).1.x
            + Int.tdiv (BspListener.pickRoom wd.map.rng node).1.w 2)
          ((BspListener.pickRoom wd.map.rng node).1.x
            + Int.tdiv (BspListener.pickRoom wd.map.rng node).1.w 2)) ∧
        (min l.lasty ((BspListener.pickRoom wd.map.rng node).1.y
            + Int.tdiv (BspListener.pickRoom wd.map.rng node).1.h 2) ≤ j ∧
          j ≤ max l.lasty ((BspListener.pickRoom wd.map.rng node).1.y
            + Int.tdiv (BspListener.pickRoom wd.map.rng node).1.h 2)) :=
      ⟨by simp, hj⟩
    simp only [h2, decide_True, Bool.or_true, and_self]


/-- C7 at the example of the specification: with the previous centre at `(5, 5)` and a
leaf whose room is centred on `(10, 8)`, the cells `(5..10, 5)` and `(10, 5..8)`
are walkable after `visitNode`. -/
theorem corridor_walkable_witness :
    demoLeaf.isLeaf = true ∧ laterListener.roomNum ≠ 0 ∧
    (BspListener.visitNode laterListener demoWorld demoLeaf false).1.lastx = 10 ∧
    (BspListener.visitNode laterListener demoWorld demoLeaf false).1.lasty = 8 ∧
    (∀ i : Int, 5 ≤ i ∧ i ≤ 10 →
      (BspListener.visitNode laterListener demoWorld demoLeaf false).2.map.map.isWalkable i 5
        = true) ∧
    (∀ j : Int, 5 ≤ j ∧ j ≤ 8 →
      (BspListener.visitNode laterListener demoWorld demoLeaf false).2.map.map.isWalkable 10 j
        = true) := by
  have h := corridor_walkable laterListener demoWorld demoLeaf false (by decide) (by decide)
  have hx : (BspListener.visitNode laterListener demoWorld demoLeaf false).1.lastx = 10 := by
    decide
  have hy : (BspListener.visitNode laterListener demoWorld demoLeaf false).1.lasty = 8 := by
    decide
  rw [hx, hy] at h
  exact ⟨by decide, by decide, hx, hy, fun i hi => h.2.2.1 i (by simpa [laterListener] using hi),
    fun j hj => h.2.2.2 j (by simpa [laterListener] using hj)⟩

theorem pickRoom_bounds (rng : TCODRandom) (node : TCODBsp) (hw : node.w ≥ 8) (hh : node.h ≥ 8)
    (hr : rng.InRange) :
    ROOM_MIN_SIZE ≤ (BspListener.roomOf rng node).w ∧
    (BspListener.roomOf rng node).w ≤ node.w - 2 ∧
    ROOM_MIN_SIZE ≤ (BspListener.roomOf rng node).h ∧
    (BspListener.roomOf rng node).h ≤ node.h - 2 ∧
    node.x + 1 ≤ (BspListener.roomOf rng node).x ∧
    (BspListener.roomOf rng node).x ≤ node.x + node.w - (BspListener.roomOf rng node).w - 1 ∧
    node.y + 1 ≤ (BspListener.roomOf rng node).y ∧
    (BspListener.roomOf rng node).y ≤ node.y + node.h - (BspListener.roomOf rng node).h - 1 := by
  unfold BspListener.roomOf BspListener.pickRoom TCODRandom.getInt
  simp only
  have h1 := hr rng.pos ROOM_MIN_SIZE (node.w - 2) (by unfold ROOM_MIN_SIZE; omega)
  have h2 := hr (rng.pos + 1) ROOM_MIN_SIZE (node.h - 2) (by unfold ROOM_MIN_SIZE; omega)
  have h3 := hr (rng.pos + 1 + 1) (node.x + 1)
    (node.x + node.w - rng.draw rng.pos ROOM_MIN_SIZE (node.w - 2) - 1) (by omega)
  have h4 := hr (rng.pos + 1 + 1 + 1) (node.y + 1)
    (node.y + node.h - rng.draw (rng.pos + 1) ROOM_MIN_SIZE (node.h - 2) - 1) (by omega)
  exact ⟨h1.1, h1.2, h2.1, h2.2, h3.1, h3.2, h4.1, h4.2⟩


theorem lowRng_inRange : lowRng.InRange :=
  fun _ _ _ h => ⟨le_refl _, h⟩

/-- C8: for a leaf at least 8 wide and 8 high and a generator that honours the requested
ranges, the room `visitNode` draws has `ROOM_MIN_SIZE <= w <= node.w - 2` and
`ROOM_MIN_SIZE <= h <= node.h - 2`, and its rectangle
`[x, x+w-1] x [y, y+h-1]` lies strictly inside the leaf. That rectangle is
what `visitNode` carves: each of its cells is walkable and transparent
afterwards, and for the first room every cell outside it keeps its
walkability. -/
theorem room_inside_leaf (l : BspListener) (wd : World) (node : TCODBsp) (withActors : Bool)
    (hleaf : node.isLeaf = true) (hw : node.w ≥ 8) (hh : node.h ≥ 8)
    (hr : wd.map.rng.InRange) :
    (ROOM_MIN_SIZE ≤ (BspListener.roomOf wd.map.rng node).w ∧
      (BspListener.roomOf wd.map.rng node).w ≤ node.w - 2) ∧
    (ROOM_MIN_SIZE ≤ (BspListener.roomOf wd.map.rng node).h ∧
      (BspListener.roomOf wd.map.rng node).h ≤ node.h - 2) ∧
    (node.x + 1 ≤ (BspListener.roomOf wd.map.rng node).x ∧
      (BspListener.roomOf wd.map.rng node).x + (BspListener.roomOf wd.map.rng node).w - 1
        ≤ node.x + node.w - 2) ∧
    (node.y + 1 ≤ (BspListener.roomOf wd.map.rng node).y ∧
      (BspListener.roomOf wd.map.rng node).y + (BspListener.roomOf wd.map.rng node).h - 1
        ≤ node.y + node.h - 2) ∧
    (∀ a b : Int,
      ((BspListener.roomOf wd.map.rng node).x ≤ a ∧
        a ≤ (BspListener.roomOf wd.map.rng node).x + (BspListener.roomOf wd.map.rng node).w - 1 ∧
        (BspListener.roomOf wd.map.rng node).y ≤ b ∧
        b ≤ (BspListener.roomOf wd.map.rng node).y + (BspListener.roomOf wd.map.rng node).h - 1) →
      (BspListener.visitNode l wd node withActors).2.map.map.isWalkable a b = true ∧
      (BspListener.visitNode l wd node withActors).2.map.map.transparent a b = true) ∧
    (l.roomNum = 0 → ∀ a b : Int,
      ¬ ((BspListener.roomOf wd.map.rng node).x ≤ a ∧
        a ≤ (BspListener.roomOf wd.map.rng node).x + (BspListener.roomOf wd.map.rng node).w - 1 ∧
        (BspListener.roomOf wd.map.rng node).y ≤ b ∧
        b ≤ (BspListener.roomOf wd.map.rng node).y + (BspListener.roomOf wd.map.rng node).h - 1) →
      (BspListener.visitNode l wd node withActors).2.map.map.isWalkable a b
        = wd.map.map.isWalkable a b) := by
  have hb := pickRoom_bounds wd.map.rng node hw hh hr
  have h6 : ROOM_MIN_SIZE = 6 := rfl
  rw [h6] at hb ⊢
  refine ⟨⟨hb.1, hb.2.1⟩, ⟨hb.2.2.1, hb.2.2.2.1⟩, ⟨hb.2.2.2.2.1, by omega⟩,
    ⟨hb.2.2.2.2.2.2.1, by omega⟩, ?_, ?_⟩
  · intro a b hab
    have hin : (min (BspListener.roomOf wd.map.rng node).x
          ((BspListener.roomOf wd.map.rng node).x + (BspListener.roomOf wd.map.rng node).w - 1)
            ≤ a ∧
          a ≤ max (BspListener.roomOf wd.map.rng node).x
            ((BspListener.roomOf wd.map.rng node).x
              + (BspListener.roomOf wd.map.rng node).w - 1)) ∧
        (min (BspListener.roomOf wd.map.rng node).y
          ((BspListener.roomOf wd.map.rng node).y + (BspListener.roomOf wd.map.rng node).h - 1)
            ≤ b ∧
          b ≤ max (BspListener.roomOf wd.map.rng node).y
            ((BspListener.roomOf wd.map.rng node).y
              + (BspListener.roomOf wd.map.rng node).h - 1)) := by
      refine ⟨⟨?_, ?_⟩, ⟨?_, ?_⟩⟩
      · exact le_trans (min_le_left _ _) hab.1
      · exact le_trans hab.2.1 (le_max_right _ _)
      · exact le_trans (min_le_left _ _) hab.2.2.1
      · exact le_trans hab.2.2.2 (le_max_right _ _)
    rw [visitNode_map]
    by_cases hn : l.roomNum = 0
    · rw [carve_leaf_first l wd.map node hleaf hn]
      simp only [TCODMap.isWalkable, dig_walkable, dig_transparent]
      unfold BspListener.roomOf at hin
      simp only [hin, and_self, decide_True, Bool.or_true]
    · rw [carve_leaf_later l wd.map node hleaf hn]
      simp only [TCODMap.isWalkable, dig_walkable, dig_transparent]
      unfold BspListener.roomOf at hin
      simp only [hin, and_self, decide_True, Bool.or_true, Bool.true_or]
  · intro hn a b hab
    have hout : ¬ ((min (BspListener.roomOf wd.map.rng node).x
          ((BspListener.roomOf wd.map.rng node).x + (BspListener.roomOf wd.map.rng node).w - 1)
            ≤ a ∧
          a ≤ max (BspListener.roomOf wd.map.rng node).x
            ((BspListener.roomOf wd.map.rng node).x
              + (BspListener.roomOf wd.map.rng node).w - 1)) ∧
        (min (BspListener.roomOf wd.map.rng node).y
          ((BspListener.roomOf wd.map.rng node).y + (BspListener.roomOf wd.map.rng node).h - 1)
            ≤ b ∧
          b ≤ max (BspListener.roomOf wd.map.rng node).y
            ((BspListener.roomOf wd.map.rng node).y
              + (BspListener.roomOf wd.map.rng node).h - 1))) := by
      intro c
      apply hab
      have e1 : min (BspListener.roomOf wd.map.rng node).x
          ((BspListener.roomOf wd.map.rng node).x + (BspListener.roomOf wd.map.rng node).w - 1)
          = (BspListener.roomOf wd.map.rng node).x := min_eq_left (by omega)
      have e2 : max (BspListener.roomOf wd.map.rng node).x
          ((BspListener.roomOf wd.map.rng node).x + (BspListener.roomOf wd.map.rng node).w - 1)
          = (BspListener.roomOf wd.map.rng node).x + (BspListener.roomOf wd.map.rng node).w - 1 :=
        max_eq_right (by omega)
      have e3 : min (BspListener.roomOf wd.map.rng node).y
          ((BspListener.roomOf wd.map.rng node).y + (BspListener.roomOf wd.map.rng node).h - 1)
          = (BspListener.roomOf wd.map.rng node).y := min_eq_left (by omega)
      have e4 : max (BspListener.roomOf wd.map.rng node).y
          ((BspListener.roomOf wd.map.rng node).y + (BspListener.roomOf wd.map.rng node).h - 1)
          = (BspListener.roomOf wd.map.rng node).y + (BspListener.roomOf wd.map.rng node).h - 1 :=
        max_eq_right (by omega)
      rw [e1, e2, e3, e4] at c
      exact ⟨c.1.1, c.1.2, c.2.1, c.2.2⟩
    rw [visitNode_map, carve_leaf_first l wd.map node hleaf hn]
    simp only [TCODMap.isWalkable, dig_walkable]
    unfold BspListener.roomOf at hout
    simp only [hout, decide_False, Bool.or_false]

/-- C8 at a concrete input: in the 8 x 8 leaf at `(6, 4)`, with a generator that always
returns the low end of the range, the room is 6 x 6 with origin `(7, 5)`. -/
theorem room_inside_leaf_witness :
    (demoLeaf.isLeaf = true ∧ demoLeaf.w ≥ 8 ∧ demoLeaf.h ≥ 8 ∧ demoWorld.map.rng.InRange) ∧
    BspListener.roomOf demoWorld.map.rng demoLeaf = { x := 7, y := 5, w := 6, h := 6 } ∧
    (ROOM_MIN_SIZE ≤ (BspListener.roomOf demoWorld.map.rng demoLeaf).w ∧
      (BspListener.roomOf demoWorld.map.rng demoLeaf).w ≤ demoLeaf.w - 2) ∧
    (demoLeaf.x + 1 ≤ (BspListener.roomOf demoWorld.map.rng demoLeaf).x ∧
      (BspListener.roomOf demoWorld.map.rng demoLeaf).x
          + (BspListener.roomOf demoWorld.map.rng demoLeaf).w - 1
        ≤ demoLeaf.x + demoLeaf.w - 2) :=
  ⟨⟨by decide, by decide, by decide, lowRng_inRange⟩, by decide,
    (room_inside_leaf freshListener demoWorld demoLeaf true (by decide) (by decide) (by decide)
      lowRng_inRange).1,
    (room_inside_leaf freshListener demoWorld demoLeaf true (by decide) (by decide) (by decide)
      lowRng_inRange).2.2.1⟩


/-! ## Generation -/

/-- C10: the layout does not depend on population. For the same node sequence, listener
and map (hence the same layout generator), a traversal with `withActors = true`
and one with `withActors = false` end with the same map, walkability grid and
layout generator included, and the same listener, whatever the engine states
and the global generators are; so do `Map::init(true)` and `Map::init(false)`
from the same map state, as at a load that regenerates from the stored seed. -/
theorem layout_independent (nodes : List TCODBsp) (l : BspListener) (m : Map)
    (eng eng' : Engine) (rnd rnd' : TCODRandom) :
    (traverse nodes true l { map := m, engine := eng, rnd := rnd }).2.map
      = (traverse nodes false l { map := m, engine := eng', rnd := rnd' }).2.map ∧
    (traverse nodes true l { map := m, engine := eng, rnd := rnd }).2.map.map.walkable
      = (traverse nodes false l { map := m, engine := eng', rnd := rnd' }).2.map.map.walkable ∧
    (traverse nodes true l { map := m, engine := eng, rnd := rnd }).1
      = (traverse nodes false l { map := m, engine := eng', rnd := rnd' }).1 ∧
    (∀ (mkRng : Int → TCODRandom) (bsp : BspService) (l0 : Int × Int),
      (Map.init mkRng bsp l0 { map := m, engine := eng, rnd := rnd } true).map
        = (Map.init mkRng bsp l0 { map := m, engine := eng', rnd := rnd' } false).map) := by
  have key : ∀ (ns : List TCODBsp) (k : BspListener) (m0 : Map),
      ((traverse ns true k { map := m0, engine := eng, rnd := rnd }).1,
        (traverse ns true k { map := m0, engine := eng, rnd := rnd }).2.map)
      = ((traverse ns false k { map := m0, engine := eng', rnd := rnd' }).1,
        (traverse ns false k { map := m0, engine := eng', rnd := rnd' }).2.map) := by
    intro ns k m0
    rw [traverse_carve, traverse_carve]
  have h := key nodes l m
  have h1 : (traverse nodes true l { map := m, engine := eng, rnd := rnd }).1
      = (traverse nodes false l { map := m, engine := eng', rnd := rnd' }).1 :=
    (Prod.mk.inj h).1
  have h2 : (traverse nodes true l { map := m, engine := eng, rnd := rnd }).2.map
      = (traverse nodes false l { map := m, engine := eng', rnd := rnd' }).2.map :=
    (Prod.mk.inj h).2
  refine ⟨h2, ?_, h1, ?_⟩
  · rw [h2]
  · intro mkRng bsp l0
    unfold Map.init
    exact (Prod.mk.inj (key _ _ _)).2

theorem traverse_append (a b : List TCODBsp) (withActors : Bool) (l : BspListener) (wd : World) :
    traverse (a ++ b) withActors l wd
      = traverse b withActors (traverse a withActors l wd).1 (traverse a withActors l wd).2 := by
  unfold traverse
  rw [List.foldl_append]

theorem traverse_cons (node : TCODBsp) (rest : List TCODBsp) (withActors : Bool)
    (l : BspListener) (wd : World) :
    traverse (node :: rest) withActors l wd
      = traverse rest withActors (BspListener.visitNode l wd node withActors).1
          (BspListener.visitNode l wd node withActors).2 := by
  unfold traverse
  rw [List.foldl_cons]

theorem visitNode_not_leaf (l : BspListener) (wd : World) (node : TCODBsp) (withActors : Bool)
    (h : node.isLeaf = false) : BspListener.visitNode l wd node withActors = (l, wd) := by
  unfold BspListener.visitNode
  simp only [h, Bool.false_eq_true, if_false]

theorem traverse_no_leaf (nodes : List TCODBsp) (withActors : Bool) (l : BspListener)
    (wd : World) (h : ∀ n ∈ nodes, n.isLeaf = false) :
    traverse nodes withActors l wd = (l, wd) := by
  induction nodes with
  | nil => rfl
  | cons node rest ih =>
    rw [traverse_cons, visitNode_not_leaf l wd node withActors (h node (List.mem_cons_self _ _))]
    exact ih (fun n hn => h n (List.mem_cons_of_mem _ hn))

theorem addMonster_engine (wd : World) (x y : Int) :
    (Map.addMonster wd x y).engine.player = wd.engine.player ∧
    (Map.addMonster wd x y).engine.stairs = wd.engine.stairs := by
  unfold Map.addMonster
  simp only
  split <;> exact ⟨rfl, rfl⟩

theorem addItem_engine (wd : World) (x y : Int) :
    (Map.addItem wd x y).engine.player = wd.engine.player ∧
    (Map.addItem wd x y).engine.stairs = wd.engine.stairs := by
  unfold Map.addItem
  simp only
  split
  · exact ⟨rfl, rfl⟩
  · split
    · exact ⟨rfl, rfl⟩
    · split <;> exact ⟨rfl, rfl⟩

theorem monsters_engine (n : Nat) (wd : World) (x1 y1 x2 y2 : Int) :
    (Map.createRoom.monsters n wd x1 y1 x2 y2).engine.player = wd.engine.player ∧
    (Map.createRoom.monsters n wd x1 y1 x2 y2).engine.stairs = wd.engine.stairs := by
  induction n generalizing wd with
  | zero => exact ⟨rfl, rfl⟩
  | succ k ih =>
    unfold Map.createRoom.monsters
    simp only
    rw [(ih _).1, (ih _).2]
    split
    · exact addMonster_engine _ _ _
    · exact ⟨rfl, rfl⟩

theorem items_engine (n : Nat) (wd : World) (x1 y1 x2 y2 : Int) :
    (Map.createRoom.items n wd x1 y1 x2 y2).engine.player = wd.engine.player ∧
    (Map.createRoom.items n wd x1 y1 x2 y2).engine.stairs = wd.engine.stairs := by
  induction n generalizing wd with
  | zero => exact ⟨rfl, rfl⟩
  | succ k ih =>
    unfold Map.createRoom.items
    simp only
    rw [(ih _).1, (ih _).2]
    split
    · exact addItem_engine _ _ _
    · exact ⟨rfl, rfl⟩

theorem createRoom_player_first (wd : World) (x1 y1 x2 y2 : Int) :
    (Map.createRoom wd true x1 y1 x2 y2 true).engine.player
      = { wd.engine.player with x := Int.tdiv (x1 + x2) 2, y := Int.tdiv (y1 + y2) 2 } := by
  unfold Map.createRoom
  rfl

theorem createRoom_player_later (wd : World) (x1 y1 x2 y2 : Int) :
    (Map.createRoom wd false x1 y1 x2 y2 true).engine.player = wd.engine.player := by
  unfold Map.createRoom
  simp only [Bool.not_true, Bool.false_eq_true, if_false]
  rw [(items_engine _ _ _ _ _ _).1]
  show (Map.createRoom.monsters _ _ x1 y1 x2 y2).engine.player = _
  rw [(monsters_engine _ _ _ _ _ _).1]

theorem createRoom_stairs (wd : World) (first : Bool) (x1 y1 x2 y2 : Int) :
    (Map.createRoom wd first x1 y1 x2 y2 true).engine.stairs.x = Int.tdiv (x1 + x2) 2 ∧
    (Map.createRoom wd first x1 y1 x2 y2 true).engine.stairs.y = Int.tdiv (y1 + y2) 2 := by
  unfold Map.createRoom
  exact ⟨rfl, rfl⟩

theorem visitNode_engine (l : BspListener) (wd : World) (node : TCODBsp) (withActors : Bool)
    (hleaf : node.isLeaf = true) :
    (BspListener.visitNode l wd node withActors).2.engine
      = (Map.createRoom { wd with map := { wd.map with rng := (BspListener.pickRoom wd.map.rng node).2 } }
          (l.roomNum == 0) (BspListener.roomOf wd.map.rng node).x
          (BspListener.roomOf wd.map.rng node).y
          ((BspListener.roomOf wd.map.rng node).x + (BspListener.roomOf wd.map.rng node).w - 1)
          ((BspListener.roomOf wd.map.rng node).y + (BspListener.roomOf wd.map.rng node).h - 1)
          withActors).engine := by
  unfold BspListener.visitNode BspListener.roomOf
  simp only [hleaf, if_true]
  split <;> rfl

theorem visitNode_roomNum (l : BspListener) (wd : World) (node : TCODBsp) (withActors : Bool)
    (h : l.roomNum ≠ 0) : (BspListener.visitNode l wd node withActors).1.roomNum ≠ 0 := by
  unfold BspListener.visitNode
  split
  · exact Nat.succ_ne_zero _
  · exact h

theorem visitNode_player_later (l : BspListener) (wd : World) (node : TCODBsp)
    (h : l.roomNum ≠ 0) :
    (BspListener.visitNode l wd node true).2.engine.player = wd.engine.player := by
  by_cases hleaf : node.isLeaf = true
  · rw [visitNode_engine l wd node true hleaf]
    have hr : (l.roomNum == 0) = false := by simpa using h
    rw [hr, createRoom_player_later]
  · rw [visitNode_not_leaf l wd node true (by simpa using hleaf)]

theorem traverse_player_later (nodes : List TCODBsp) (l : BspListener) (wd : World)
    (h : l.roomNum ≠ 0) : (traverse nodes true l wd).2.engine.player = wd.engine.player := by
  induction nodes generalizing l wd with
  | nil => rfl
  | cons node rest ih =>
    rw [traverse_cons, ih _ _ (visitNode_roomNum l wd node true h), visitNode_player_later l wd node h]

theorem traverse_stairs_no_leaf (nodes : List TCODBsp) (l : BspListener) (wd : World)
    (h : ∀ n ∈ nodes, n.isLeaf = false) :
    (traverse nodes true l wd).2.engine.stairs = wd.engine.stairs := by
  rw [traverse_no_leaf nodes true l wd h]


theorem visitNode_leaf_roomNum (l : BspListener) (wd : World) (node : TCODBsp)
    (withActors : Bool) (hleaf : node.isLeaf = true) :
    (BspListener.visitNode l wd node withActors).1.roomNum ≠ 0 := by
  unfold BspListener.visitNode
  simp only [hleaf, if_true]
  exact Nat.succ_ne_zero _

/-- C9: in a traversal with `withActors` enabled, split around a leaf as
`before ++ leaf :: after`. If the listener starts at room 0 and no leaf comes
before, the player ends on the centre `((x1+x2)/2, (y1+y2)/2)` of that leaf's
room, whatever follows; if no leaf comes after, the stairs end on the centre of
that leaf's room, whatever came before (last wins); and once the listener is
past room 0 no traversal moves the player. The room is the one drawn from the
map's generator as it is when the leaf is reached, with `x1 = x`, `x2 = x+w-1`,
`y1 = y`, `y2 = y+h-1`. -/
theorem spawn_and_stairs (before after : List TCODBsp) (leaf : TCODBsp) (l : BspListener)
    (wd : World) (hleaf : leaf.isLeaf = true) :
    (l.roomNum = 0 → (∀ n ∈ before, n.isLeaf = false) →
      (traverse (before ++ leaf :: after) true l wd).2.engine.player.x
        = Int.tdiv ((BspListener.roomOf wd.map.rng leaf).x
            + ((BspListener.roomOf wd.map.rng leaf).x
                + (BspListener.roomOf wd.map.rng leaf).w - 1)) 2 ∧
      (traverse (before ++ leaf :: after) true l wd).2.engine.player.y
        = Int.tdiv ((BspListener.roomOf wd.map.rng leaf).y
            + ((BspListener.roomOf wd.map.rng leaf).y
                + (BspListener.roomOf wd.map.rng leaf).h - 1)) 2) ∧
    ((∀ n ∈ after, n.isLeaf = false) →
      (traverse (before ++ leaf :: after) true l wd).2.engine.stairs.x
        = Int.tdiv ((BspListener.roomOf (traverse before true l wd).2.map.rng leaf).x
            + ((BspListener.roomOf (traverse before true l wd).2.map.rng leaf).x
                + (BspListener.roomOf (traverse before true l wd).2.map.rng leaf).w - 1)) 2 ∧
      (traverse (before ++ leaf :: after) true l wd).2.engine.stairs.y
        = Int.tdiv ((BspListener.roomOf (traverse before true l wd).2.map.rng leaf).y
            + ((BspListener.roomOf (traverse before true l wd).2.map.rng leaf).y
                + (BspListener.roomOf (traverse before true l wd).2.map.rng leaf).h - 1)) 2) ∧
    (l.roomNum ≠ 0 → ∀ nodes : List TCODBsp,
      (traverse nodes true l wd).2.engine.player = wd.engine.player) := by
  refine ⟨?_, ?_, ?_⟩
  · intro hn hpre
    rw [traverse_append, traverse_no_leaf before true l wd hpre, traverse_cons,
      traverse_player_later _ _ _ (visitNode_leaf_roomNum l wd leaf true hleaf),
      visitNode_engine l wd leaf true hleaf]
    have hr : (l.roomNum == 0) = true := by simp [hn]
    rw [hr, createRoom_player_first]
    exact ⟨rfl, rfl⟩
  · intro hpost
    rw [traverse_append, traverse_cons, traverse_stairs_no_leaf after _ _ hpost,
      visitNode_engine _ _ leaf true hleaf]
    exact createRoom_stairs _ _ _ _ _ _
  · intro hn nodes
    exact traverse_player_later nodes l wd hn

/-- C9 at a concrete input: visiting the leaf at `(6, 4)`, then the leaf at `(20, 10)`,
then an inner node, the player spawns on the centre `(9, 7)` of the first room
and the stairs end on the centre `(23, 13)` of the second. -/
theorem spawn_and_stairs_witness :
    (demoLeaf.isLeaf = true ∧ freshListener.roomNum = 0 ∧
      ∀ n ∈ ([] : List TCODBsp), n.isLeaf = false) ∧
    (traverse ([] ++ demoLeaf :: [demoLeaf2, demoInner]) true freshListener
        demoWorld).2.engine.player.x
      = Int.tdiv ((BspListener.roomOf demoWorld.map.rng demoLeaf).x
          + ((BspListener.roomOf demoWorld.map.rng demoLeaf).x
              + (BspListener.roomOf demoWorld.map.rng demoLeaf).w - 1)) 2 ∧
    Int.tdiv ((BspListener.roomOf demoWorld.map.rng demoLeaf).x
          + ((BspListener.roomOf demoWorld.map.rng demoLeaf).x
              + (BspListener.roomOf demoWorld.map.rng demoLeaf).w - 1)) 2 = 9 ∧
    (demoLeaf2.isLeaf = true ∧ ∀ n ∈ [demoInner], n.isLeaf = false) ∧
    (traverse ([demoLeaf] ++ demoLeaf2 :: [demoInner]) true freshListener
        demoWorld).2.engine.stairs.x
      = Int.tdiv ((BspListener.roomOf (traverse [demoLeaf] true freshListener demoWorld).2.map.rng
            demoLeaf2).x
          + ((BspListener.roomOf (traverse [demoLeaf] true freshListener demoWorld).2.map.rng
                demoLeaf2).x
              + (BspListener.roomOf (traverse [demoLeaf] true freshListener demoWorld).2.map.rng
                  demoLeaf2).w - 1)) 2 ∧
    Int.tdiv ((BspListener.roomOf (traverse [demoLeaf] true freshListener demoWorld).2.map.rng
            demoLeaf2).x
          + ((BspListener.roomOf (traverse [demoLeaf] true freshListener demoWorld).2.map.rng
                demoLeaf2).x
              + (BspListener.roomOf (traverse [demoLeaf] true freshListener demoWorld).2.map.rng
                  demoLeaf2).w - 1)) 2 = 23 :=
  ⟨⟨by decide, by decide, by simp⟩,
    ((spawn_and_stairs [] [demoLeaf2, demoInner] demoLeaf freshListener demoWorld (by decide)).1
      (by decide) (by simp)).1,
    by decide,
    ⟨by decide, by decide⟩,
    ((spawn_and_stairs [demoLeaf] [demoInner] demoLeaf2 freshListener demoWorld (by decide)).2.1
      (by decide)).1,
    by decide⟩

/-! ## Frame of `computeFov` -/

theorem newScent_of_le (eng : Engine) (m : Map) (x y : Int)
    (hc : m.currentScentValue < 4294967296)
    (hd : Map.computeFov.distance eng x y ≤ (m.currentScentValue : Int)) :
    ((Map.computeFov.newScent eng m x y : Nat) : Int)
      = (m.currentScentValue : Int) - Map.computeFov.distance eng x y := by
  unfold Map.computeFov.newScent
  have h0 : (0 : Int) ≤ Map.computeFov.distance eng x y := by
    unfold Map.computeFov.distance; exact Int.natCast_nonneg _
  rw [Int.toNat_of_nonneg (Int.emod_nonneg _ (by decide))]
  exact Int.emod_eq_of_lt (by omega) (by omega)

theorem distance_nonneg (eng : Engine) (x y : Int) : 0 ≤ Map.computeFov.distance eng x y := by
  unfold Map.computeFov.distance; exact Int.natCast_nonneg _

/-- A tile that no visible in-range cell addresses is untouched by `computeFov`. -/
theorem computeFov_tile_unseen (algo : FovAlgo) (eng : Engine) (m : Map) (i : Int)
    (h : ∀ x y, m.inBounds x y →
      algo m.map.transparent eng.player.x eng.player.y eng.fovRadius x y = true →
      m.idx x y ≠ i) :
    (Map.computeFov algo eng m).tiles i = m.tiles i := by
  by_cases hex : ∃ x y, m.inBounds x y ∧ m.idx x y = i
  · obtain ⟨x, y, hb, rfl⟩ := hex
    rw [computeFov_tile algo eng m x y hb]
    unfold Map.computeFov.tileAfter
    have hv : ¬ algo m.map.transparent eng.player.x eng.player.y eng.fovRadius x y = true :=
      fun c => h x y hb c rfl
    show (if algo m.map.transparent eng.player.x eng.player.y eng.fovRadius x y = true then _
      else _ : Tile) = _
    rw [if_neg hv]
  · exact computeFov_tile_other algo eng m i (fun x y hb c => hex ⟨x, y, hb, c⟩)

/-- C14: scent is frozen outside the view. After `computeFov`, every in-range tile that is
not in the recomputed visible set has the scent and the explored flag it had
before; more generally every entry of the tile array that no visible in-range
cell addresses is unchanged; and no cell's walkability (or transparency)
changes. -/
theorem scent_frozen_outside_view (algo : FovAlgo) (eng : Engine) (m : Map) :
    (∀ x y : Int, (0 ≤ x ∧ x < m.width ∧ 0 ≤ y ∧ y < m.height) →
      algo m.map.transparent eng.player.x eng.player.y eng.fovRadius x y = false →
      (Map.computeFov algo eng m).map.isInFov x y = false ∧
      (Map.computeFov algo eng m).getScent x y = m.getScent x y ∧
      (Map.computeFov algo eng m).isExplored x y = m.isExplored x y) ∧
    (∀ i : Int,
      (∀ x y : Int, (0 ≤ x ∧ x < m.width ∧ 0 ≤ y ∧ y < m.height) →
        algo m.map.transparent eng.player.x eng.player.y eng.fovRadius x y = true →
        m.idx x y ≠ i) →
      (Map.computeFov algo eng m).tiles i = m.tiles i) ∧
    (∀ a b : Int,
      (Map.computeFov algo eng m).map.isWalkable a b = m.map.isWalkable a b ∧
      (Map.computeFov algo eng m).isWall a b = m.isWall a b ∧
      (Map.computeFov algo eng m).map.transparent a b = m.map.transparent a b) := by
  refine ⟨?_, ?_, ?_⟩
  · intro x y hb hv
    have hb' : m.inBounds x y := hb
    refine ⟨?_, ?_, ?_⟩
    · rw [computeFov_map]; exact hv
    · rw [computeFov_getScent algo eng m x y hb', hv]; rfl
    · rw [computeFov_isExplored algo eng m x y hb', hv]; rfl
  · intro i h
    exact computeFov_tile_unseen algo eng m i h
  · intro a b
    unfold Map.isWall
    rw [computeFov_map]
    exact ⟨rfl, rfl, rfl⟩

/-- C14 at a concrete input: through a `computeFov` that sees nothing, the explored,
scented tile `(1, 1)` of the small map keeps scent 7 and its flag. -/
theorem scent_frozen_outside_view_witness :
    ((0 : Int) ≤ 1 ∧ (1 : Int) < smallMap.width ∧ (0 : Int) ≤ 1 ∧ (1 : Int) < smallMap.height) ∧
    seeNothing smallMap.map.transparent demoEngine.player.x demoEngine.player.y
      demoEngine.fovRadius 1 1 = false ∧
    (Map.computeFov seeNothing demoEngine smallMap).getScent 1 1 = 7 ∧
    (Map.computeFov seeNothing demoEngine smallMap).isExplored 1 1 = true :=
  ⟨by decide, by decide,
    (((scent_frozen_outside_view seeNothing demoEngine smallMap).1 1 1 (by decide)
      (by decide)).2.1).trans (by decide),
    (((scent_frozen_outside_view seeNothing demoEngine smallMap).1 1 1 (by decide)
      (by decide)).2.2).trans (by decide)⟩

/-- C20: `computeFov` itself marks tiles explored. After the call, every in-range tile
that is in the recomputed visible set has its explored flag set, whatever the
flag was before and without any other member function being called. -/
theorem computeFov_marks_explored (algo : FovAlgo) (eng : Engine) (m : Map) (x y : Int)
    (hb : 0 ≤ x ∧ x < m.width ∧ 0 ≤ y ∧ y < m.height)
    (hv : algo m.map.transparent eng.player.x eng.player.y eng.fovRadius x y = true) :
    (Map.computeFov algo eng m).map.isInFov x y = true ∧
    (Map.computeFov algo eng m).isExplored x y = true := by
  have hb' : m.inBounds x y := hb
  constructor
  · rw [computeFov_map]; exact hv
  · rw [computeFov_isExplored algo eng m x y hb', hv]; rfl

/-- C20 at a concrete input: the unexplored tile `(5, 8)` of the blank map is explored
after a `computeFov` that sees every cell. -/
theorem computeFov_marks_explored_witness :
    ((0 : Int) ≤ 5 ∧ (5 : Int) < blankMap.width ∧ (0 : Int) ≤ 8 ∧ (8 : Int) < blankMap.height) ∧
    seeAll blankMap.map.transparent demoEngine.player.x demoEngine.player.y
      demoEngine.fovRadius 5 8 = true ∧
    blankMap.isExplored 5 8 = false ∧
    (Map.computeFov seeAll demoEngine blankMap).isExplored 5 8 = true :=
  ⟨by decide, by decide, by decide,
    (computeFov_marks_explored seeAll demoEngine blankMap 5 8 (by decide) (by decide)).2⟩

/-! ## The scent ceiling -/

/-- C13, as the code has it: `currentScentValue` (an `unsigned int`) stays a ceiling on
tile scent across a `computeFov` call when every visible in-range tile lies at
a truncated distance of at most `currentScentValue` from the player: if every
tile's scent is at most `currentScentValue` before the call, so it is after
(for every entry of the tile array and every coordinate), and the scent of a
visible in-range tile is then the larger of its old scent and
`currentScentValue - distance`. -/
theorem scent_ceiling (algo : FovAlgo) (eng : Engine) (m : Map)
    (hc : m.currentScentValue < 4294967296)
    (h0 : ∀ i : Int, (m.tiles i).scent ≤ m.currentScentValue)
    (hd : ∀ x y : Int, (0 ≤ x ∧ x < m.width ∧ 0 ≤ y ∧ y < m.height) →
      algo m.map.transparent eng.player.x eng.player.y eng.fovRadius x y = true →
      Map.computeFov.distance eng x y ≤ (m.currentScentValue : Int)) :
    (Map.computeFov algo eng m).currentScentValue = m.currentScentValue ∧
    (∀ i : Int, ((Map.computeFov algo eng m).tiles i).scent ≤ m.currentScentValue) ∧
    (∀ x y : Int, (Map.computeFov algo eng m).getScent x y ≤ m.currentScentValue) ∧
    (∀ x y : Int, (0 ≤ x ∧ x < m.width ∧ 0 ≤ y ∧ y < m.height) →
      algo m.map.transparent eng.player.x eng.player.y eng.fovRadius x y = true →
      (((Map.computeFov algo eng m).getScent x y : Nat) : Int)
        = max ((m.getScent x y : Nat) : Int)
            ((m.currentScentValue : Int) - Map.computeFov.distance eng x y)) := by
  have key : ∀ i : Int, ((Map.computeFov algo eng m).tiles i).scent ≤ m.currentScentValue := by
    intro i
    by_cases hex : ∃ x y, m.inBounds x y ∧ m.idx x y = i
    · obtain ⟨x, y, hb, rfl⟩ := hex
      rw [computeFov_tile algo eng m x y hb]
      unfold Map.computeFov.tileAfter
      show (if algo m.map.transparent eng.player.x eng.player.y eng.fovRadius x y = true then _
        else _ : Tile).scent ≤ _
      split
      · next hv =>
        have hn := newScent_of_le eng m x y hc (hd x y hb hv)
        have hnn := distance_nonneg eng x y
        have h1 : Map.computeFov.newScent eng (Map.withFov algo eng m) x y
            = Map.computeFov.newScent eng m x y := rfl
        show max (m.tiles (m.idx x y)).scent
          (Map.computeFov.newScent eng (Map.withFov algo eng m) x y) ≤ _
        rw [h1]
        apply max_le (h0 _)
        omega
      · exact h0 _
    · rw [computeFov_tile_other algo eng m i (fun x y hb c => hex ⟨x, y, hb, c⟩)]
      exact h0 i
  refine ⟨?_, key, ?_, ?_⟩
  · rw [computeFov_eq]; rfl
  · intro x y
    exact key _
  · intro x y hb hv
    rw [computeFov_getScent algo eng m x y hb, if_pos hv, Nat.cast_max,
      newScent_of_le eng m x y hc (hd x y hb hv)]

/-- C13 at a concrete input: with ceiling 20 on the blank 12 x 10 map and the player at
`(5, 5)`, every tile is within distance 20, and the scent of `(5, 8)` after a
`computeFov` that sees every cell is at most 20. -/
theorem scent_ceiling_witness :
    blankMap.currentScentValue < 4294967296 ∧
    (∀ i : Int, (blankMap.tiles i).scent ≤ blankMap.currentScentValue) ∧
    (Map.computeFov seeAll demoEngine blankMap).getScent 5 8 ≤ blankMap.currentScentValue := by
  have hd : ∀ x y : Int, (0 ≤ x ∧ x < blankMap.width ∧ 0 ≤ y ∧ y < blankMap.height) →
      seeAll blankMap.map.transparent demoEngine.player.x demoEngine.player.y
        demoEngine.fovRadius x y = true →
      Map.computeFov.distance demoEngine x y ≤ (blankMap.currentScentValue : Int) := by
    intro x y hb _
    have hb' : 0 ≤ x ∧ x < 12 ∧ 0 ≤ y ∧ y < 10 := hb
    unfold Map.computeFov.distance
    show ((Nat.sqrt ((x - 5) * (x - 5) + (y - 5) * (y - 5)).toNat : Nat) : Int) ≤ 20
    have h1 : ((x - 5) * (x - 5) + (y - 5) * (y - 5)).toNat < 21 * 21 := by
      have hx : (x - 5) * (x - 5) ≤ 36 := by nlinarith
      have hy : (y - 5) * (y - 5) ≤ 25 := by nlinarith
      omega
    have h2 := Nat.sqrt_lt.2 h1
    omega
  exact ⟨by decide, fun _ => Nat.zero_le _,
    (scent_ceiling seeAll demoEngine blankMap (by decide) (fun _ => Nat.zero_le _) hd).2.2.1 5 8⟩

/-- C13 as stated fails when a visible tile is farther than the ceiling: on the blank map
with `currentScentValue = 2` every tile has scent 0, at most the ceiling, yet
after a `computeFov` with the player at `(5, 5)` the visible tile `(5, 8)`, at
distance 3, has scent `4294967295`, above the ceiling. -/
theorem scent_ceiling_counterexample :
    (∀ i : Int, (faintMap.tiles i).scent ≤ faintMap.currentScentValue) ∧
    faintMap.currentScentValue = 2 ∧
    ((0 : Int) ≤ 5 ∧ (5 : Int) < faintMap.width ∧ (0 : Int) ≤ 8 ∧ (8 : Int) < faintMap.height) ∧
    seeAll faintMap.map.transparent demoEngine.player.x demoEngine.player.y
      demoEngine.fovRadius 5 8 = true ∧
    (Map.computeFov seeAll demoEngine faintMap).currentScentValue = 2 ∧
    ¬ ((Map.computeFov seeAll demoEngine faintMap).getScent 5 8
        ≤ (Map.computeFov seeAll demoEngine faintMap).currentScentValue) := by
  have hs : (Map.computeFov seeAll demoEngine faintMap).getScent 5 8 = 4294967295 := by
    rw [computeFov_getScent seeAll demoEngine faintMap 5 8 (by decide)]
    rw [if_pos (by decide)]
    unfold Map.computeFov.newScent
    rw [distance_demo]
    decide
  have hcs : (Map.computeFov seeAll demoEngine faintMap).currentScentValue = 2 := by
    rw [computeFov_eq]; rfl
  refine ⟨fun _ => Nat.zero_le _, rfl, by decide, by decide, hcs, ?_⟩
  rw [hs, hcs]
  decide

/-! ## Room centres -/

/-- C15, as the code has it: for a room drawn at non-negative coordinates with positive
width and height, `visitNode` (with actors) puts the stairs, and for the first
room the player, on `((x1+x2)/2, (y1+y2)/2)`, and records the corridor anchor
`(x + w/2, y + h/2)`; in each coordinate the anchor equals the stairs
coordinate when the room's dimension is odd and is one more when it is even. -/
theorem anchor_versus_centre (l : BspListener) (wd : World) (node : TCODBsp)
    (hleaf : node.isLeaf = true)
    (hx : 0 ≤ (BspListener.roomOf wd.map.rng node).x)
    (hw : 1 ≤ (BspListener.roomOf wd.map.rng node).w)
    (hy : 0 ≤ (BspListener.roomOf wd.map.rng node).y)
    (hh : 1 ≤ (BspListener.roomOf wd.map.rng node).h) :
    ((BspListener.visitNode l wd node true).2.engine.stairs.x
        = Int.tdiv ((BspListener.roomOf wd.map.rng node).x
            + ((BspListener.roomOf wd.map.rng node).x
                + (BspListener.roomOf wd.map.rng node).w - 1)) 2 ∧
      (BspListener.visitNode l wd node true).2.engine.stairs.y
        = Int.tdiv ((BspListener.roomOf wd.map.rng node).y
            + ((BspListener.roomOf wd.map.rng node).y
                + (BspListener.roomOf wd.map.rng node).h - 1)) 2) ∧
    (l.roomNum = 0 →
      (BspListener.visitNode l wd node true).2.engine.player.x
        = (BspListener.visitNode l wd node true).2.engine.stairs.x ∧
      (BspListener.visitNode l wd node true).2.engine.player.y
        = (BspListener.visitNode l wd node true).2.engine.stairs.y) ∧
    ((BspListener.visitNode l wd node true).1.lastx
        = (BspListener.roomOf wd.map.rng node).x
            + Int.tdiv (BspListener.roomOf wd.map.rng node).w 2 ∧
      (BspListener.visitNode l wd node true).1.lasty
        = (BspListener.roomOf wd.map.rng node).y
            + Int.tdiv (BspListener.roomOf wd.map.rng node).h 2) ∧
    (BspListener.visitNode l wd node true).1.lastx
      = (BspListener.visitNode l wd node true).2.engine.stairs.x
          + (if (BspListener.roomOf wd.map.rng node).w % 2 = 0 then 1 else 0) ∧
    (BspListener.visitNode l wd node true).1.lasty
      = (BspListener.visitNode l wd node true).2.engine.stairs.y
          + (if (BspListener.roomOf wd.map.rng node).h % 2 = 0 then 1 else 0) := by
  have hs := createRoom_stairs
    { wd with map := { wd.map with rng := (BspListener.pickRoom wd.map.rng node).2 } }
    (l.roomNum == 0) (BspListener.roomOf wd.map.rng node).x
    (BspListener.roomOf wd.map.rng node).y
    ((BspListener.roomOf wd.map.rng node).x + (BspListener.roomOf wd.map.rng node).w - 1)
    ((BspListener.roomOf wd.map.rng node).y + (BspListener.roomOf wd.map.rng node).h - 1)
  rw [← visitNode_engine l wd node true hleaf] at hs
  have hlx : (BspListener.visitNode l wd node true).1.lastx
      = (BspListener.roomOf wd.map.rng node).x
          + Int.tdiv (BspListener.roomOf wd.map.rng node).w 2 := by
    unfold BspListener.visitNode BspListener.roomOf
    simp only [hleaf, if_true]
  have hly : (BspListener.visitNode l wd node true).1.lasty
      = (BspListener.roomOf wd.map.rng node).y
          + Int.tdiv (BspListener.roomOf wd.map.rng node).h 2 := by
    unfold BspListener.visitNode BspListener.roomOf
    simp only [hleaf, if_true]
  refine ⟨hs, ?_, ⟨hlx, hly⟩, ?_, ?_⟩
  · intro hn
    have hp : (BspListener.visitNode l wd node true).2.engine.player
        = { wd.engine.player with
            x := Int.tdiv ((BspListener.roomOf wd.map.rng node).x
              + ((BspListener.roomOf wd.map.rng node).x
                  + (BspListener.roomOf wd.map.rng node).w - 1)) 2,
            y := Int.tdiv ((BspListener.roomOf wd.map.rng node).y
              + ((BspListener.roomOf wd.map.rng node).y
                  + (BspListener.roomOf wd.map.rng node).h - 1)) 2 } := by
      rw [visitNode_engine l wd node true hleaf]
      have hr : (l.roomNum == 0) = true := by simp [hn]
      rw [hr, createRoom_player_first]
    rw [hp, hs.1, hs.2]
    exact ⟨rfl, rfl⟩
  · rw [hlx, hs.1, Int.tdiv_eq_ediv (by omega) (by decide), Int.tdiv_eq_ediv (by omega) (by decide)]
    split <;> omega
  · rw [hly, hs.2, Int.tdiv_eq_ediv (by omega) (by decide), Int.tdiv_eq_ediv (by omega) (by decide)]
    split <;> omega

/-- C15 at a concrete input: the 8 x 9 room drawn in the second demo leaf by a generator
that returns the high end of every range has an even width and an odd height,
so the anchor is one cell right of the stairs and level with them. -/
theorem anchor_versus_centre_witness :
    (demoLeaf2.isLeaf = true ∧
      0 ≤ (BspListener.roomOf ({ demoWorld with map := { blankMap with rng := highRng } } :
        World).map.rng demoLeaf2).x ∧
      1 ≤ (BspListener.roomOf ({ demoWorld with map := { blankMap with rng := highRng } } :
        World).map.rng demoLeaf2).w ∧
      0 ≤ (BspListener.roomOf ({ demoWorld with map := { blankMap with rng := highRng } } :
        World).map.rng demoLeaf2).y ∧
      1 ≤ (BspListener.roomOf ({ demoWorld with map := { blankMap with rng := highRng } } :
        World).map.rng demoLeaf2).h) ∧
    BspListener.roomOf highRng demoLeaf2 = { x := 21, y := 11, w := 8, h := 7 } ∧
    (BspListener.visitNode freshListener
        { demoWorld with map := { blankMap with rng := highRng } } demoLeaf2 true).1.lastx
      = (BspListener.visitNode freshListener
          { demoWorld with map := { blankMap with rng := highRng } } demoLeaf2
            true).2.engine.stairs.x
        + (if (BspListener.roomOf ({ demoWorld with map := { blankMap with rng := highRng } } :
            World).map.rng demoLeaf2).w % 2 = 0 then 1 else 0) :=
  ⟨⟨by decide, by decide, by decide, by decide, by decide⟩, by decide,
    (anchor_versus_centre freshListener { demoWorld with map := { blankMap with rng := highRng } }
      demoLeaf2 (by decide) (by decide) (by decide) (by decide) (by decide)).2.2.2.1⟩

/-- C15 as stated fails for a room of even size: the 6 x 6 room with origin `(7, 5)`
drawn in the first demo leaf has corridor anchor `(10, 8)`, while `createRoom`
puts the stairs and the player on `(9, 7)`. -/
theorem anchor_versus_centre_counterexample :
    demoLeaf.isLeaf = true ∧
    BspListener.roomOf demoWorld.map.rng demoLeaf = { x := 7, y := 5, w := 6, h := 6 } ∧
    (BspListener.visitNode freshListener demoWorld demoLeaf true).1.lastx = 10 ∧
    (BspListener.visitNode freshListener demoWorld demoLeaf true).1.lasty = 8 ∧
    (BspListener.visitNode freshListener demoWorld demoLeaf true).2.engine.stairs.x = 9 ∧
    (BspListener.visitNode freshListener demoWorld demoLeaf true).2.engine.stairs.y = 7 ∧
    (BspListener.visitNode freshListener demoWorld demoLeaf true).2.engine.player.x = 9 ∧
    (BspListener.visitNode freshListener demoWorld demoLeaf true).2.engine.player.y = 7 ∧
    ((BspListener.visitNode freshListener demoWorld demoLeaf true).1.lastx,
      (BspListener.visitNode freshListener demoWorld demoLeaf true).1.lasty)
      ≠ ((BspListener.visitNode freshListener demoWorld demoLeaf true).2.engine.stairs.x,
        (BspListener.visitNode freshListener demoWorld demoLeaf true).2.engine.stairs.y) := by
  decide

/-! ## Monster archetypes -/

theorem monsterFor_eq (d : Int) : monsterFor d = if d < 80 then "orc" else "troll" := by
  unfold monsterFor Map.addMonster
  simp only [TCODRandom.getInt, fixedRng]
  split <;> simp [demoWorld, demoEngine, Actor.new]

/-- C17, evaluated on the code: `Map::addMonster` requests one draw from the inclusive
range `0..100` and creates an orc when the outcome is below 80, a troll
otherwise. The range has 101 outcomes; 80 of them create an orc and 21 a
troll, so the shares are 80/101 and 21/101, not 80% and 20%. -/
theorem addMonster_split :
    (∀ (wd : World) (x y : Int),
      (Map.addMonster wd x y).engine.actors
        = wd.engine.actors
            ++ [Actor.new x y (if wd.rnd.draw wd.rnd.pos 0 100 < 80 then "orc" else "troll")]) ∧
    (loopRange 0 100).length = 101 ∧
    ((loopRange 0 100).filter (fun d => monsterFor d = "orc")).length = 80 ∧
    ((loopRange 0 100).filter (fun d => monsterFor d = "troll")).length = 21 ∧
    ((loopRange 0 100).filter (fun d => monsterFor d = "orc")).length * 100
      ≠ 80 * (loopRange 0 100).length ∧
    ((loopRange 0 100).filter (fun d => monsterFor d = "troll")).length * 100
      ≠ 20 * (loopRange 0 100).length ∧
    monsterFor 79 = "orc" ∧ monsterFor 80 = "troll" ∧ monsterFor 100 = "troll" := by
  have ho : ∀ d : Int, (decide (monsterFor d = "orc")) = decide (d < 80) := by
    intro d
    rw [monsterFor_eq]
    by_cases h : d < 80 <;> simp [h]
  have ht : ∀ d : Int, (decide (monsterFor d = "troll")) = decide (¬ d < 80) := by
    intro d
    rw [monsterFor_eq]
    by_cases h : d < 80 <;> simp [h]
  simp only [ho, ht]
  refine ⟨?_, by decide, by decide, by decide, by decide, by decide, ?_, ?_, ?_⟩
  · intro wd x y
    unfold Map.addMonster
    simp only [TCODRandom.getInt]
    split <;> rfl
  · rw [monsterFor_eq]; rfl
  · rw [monsterFor_eq]; rfl
  · rw [monsterFor_eq]; rfl

/-! ## Save and load -/

theorem loopRange_nodup (lo hi : Int) : (loopRange lo hi).Nodup := by
  unfold loopRange
  apply List.Nodup.map
  · intro a b h
    simp only at h
    omega
  · exact List.nodup_range _

theorem loopRange_length (lo hi : Int) : (loopRange lo hi).length = (hi + 1 - lo).toNat := by
  unfold loopRange
  rw [List.length_map, List.length_range]

theorem putInt_foldl (f : Int → Int) (l : List Int) (z : TCODZip) :
    l.foldl (fun acc i => acc.putInt (f i)) z = { data := z.data ++ l.map f } := by
  induction l generalizing z with
  | nil => simp
  | cons i rest ih =>
    rw [List.foldl_cons, ih]
    simp [TCODZip.putInt]

theorem save_data (m : Map) (zip : TCODZip) :
    (m.save zip).data
      = zip.data ++ m.seed ::
          (loopRange 0 (m.width * m.height - 1)).map (fun i => boolToInt (m.tiles i).explored) := by
  unfold Map.save
  rw [putInt_foldl (fun i => boolToInt (m.tiles i).explored)]
  simp [TCODZip.putInt]

theorem load_body_fold (g : Int → Int) (is : List Int) (rest : List Int) (m : Map)
    (hn : is.Nodup) :
    (is.foldl Map.load.body (m, { data := is.map g ++ rest })).2.data = rest ∧
    (is.foldl Map.load.body (m, { data := is.map g ++ rest })).1.width = m.width ∧
    (is.foldl Map.load.body (m, { data := is.map g ++ rest })).1.height = m.height ∧
    (is.foldl Map.load.body (m, { data := is.map g ++ rest })).1.seed = m.seed ∧
    (is.foldl Map.load.body (m, { data := is.map g ++ rest })).1.map = m.map ∧
    (∀ i ∈ is, ((is.foldl Map.load.body (m, { data := is.map g ++ rest })).1.tiles i).explored
      = (g i != 0)) ∧
    (∀ i, i ∉ is → (is.foldl Map.load.body (m, { data := is.map g ++ rest })).1.tiles i
      = m.tiles i) := by
  induction is generalizing m with
  | nil =>
    refine ⟨rfl, rfl, rfl, rfl, rfl, ?_, ?_⟩
    · intro i hi; exact absurd hi (List.not_mem_nil _)
    · intro i _; rfl
  | cons j tl ih =>
    have hstep : Map.load.body (m, { data := (j :: tl).map g ++ rest }) j
        = ({ m with tiles := Function.update m.tiles j { m.tiles j with explored := g j != 0 } },
            { data := tl.map g ++ rest }) := by
      unfold Map.load.body TCODZip.getInt
      simp
    rw [List.foldl_cons, hstep]
    have hn' := (List.nodup_cons.1 hn)
    obtain ⟨h1, h2, h3, h4, h5, h6, h7⟩ := ih
      { m with tiles := Function.update m.tiles j { m.tiles j with explored := g j != 0 } } hn'.2
    refine ⟨h1, h2, h3, h4, h5, ?_, ?_⟩
    · intro i hi
      rcases List.mem_cons.1 hi with e | e
      · subst e
        rw [h7 i hn'.1]
        simp only [Function.update_same]
      · exact h6 i e
    · intro i hi
      have hij : i ≠ j := fun c => hi (c ▸ List.mem_cons_self _ _)
      have hit : i ∉ tl := fun c => hi (List.mem_cons_of_mem _ c)
      rw [h7 i hit]
      simp only [Function.update_noteq hij]

theorem carve_fields (l : BspListener) (m : Map) (node : TCODBsp) :
    (BspListener.carve l m node).2.width = m.width ∧
    (BspListener.carve l m node).2.height = m.height ∧
    (BspListener.carve l m node).2.seed = m.seed ∧
    (BspListener.carve l m node).2.tiles = m.tiles ∧
    (BspListener.carve l m node).2.currentScentValue = m.currentScentValue := by
  unfold BspListener.carve
  split
  · simp only
    split <;> simp [dig_eq_digGrid]
  · exact ⟨rfl, rfl, rfl, rfl, rfl⟩

theorem carve_fold_fields (nodes : List TCODBsp) (l : BspListener) (m : Map) :
    (nodes.foldl (fun s node => BspListener.carve s.1 s.2 node) (l, m)).2.width = m.width ∧
    (nodes.foldl (fun s node => BspListener.carve s.1 s.2 node) (l, m)).2.height = m.height ∧
    (nodes.foldl (fun s node => BspListener.carve s.1 s.2 node) (l, m)).2.seed = m.seed ∧
    (nodes.foldl (fun s node => BspListener.carve s.1 s.2 node) (l, m)).2.tiles = m.tiles ∧
    (nodes.foldl (fun s node => BspListener.carve s.1 s.2 node) (l, m)).2.currentScentValue
      = m.currentScentValue := by
  induction nodes generalizing l m with
  | nil => exact ⟨rfl, rfl, rfl, rfl, rfl⟩
  | cons node rest ih =>
    rw [List.foldl_cons]
    obtain ⟨a1, a2, a3, a4, a5⟩ := ih (BspListener.carve l m node).1 (BspListener.carve l m node).2
    obtain ⟨b1, b2, b3, b4, b5⟩ := carve_fields l m node
    exact ⟨a1.trans b1, a2.trans b2, a3.trans b3, a4.trans b4, a5.trans b5⟩

theorem traverse_map (nodes : List TCODBsp) (withActors : Bool) (l : BspListener) (wd : World) :
    (traverse nodes withActors l wd).2.map
      = (nodes.foldl (fun s node => BspListener.carve s.1 s.2 node) (l, wd.map)).2 :=
  (Prod.mk.inj (traverse_carve nodes withActors l wd)).2

theorem init_fields (mkRng : Int → TCODRandom) (bsp : BspService) (l0 : Int × Int) (wd : World)
    (withActors : Bool) :
    (Map.init mkRng bsp l0 wd withActors).map.width = wd.map.width ∧
    (Map.init mkRng bsp l0 wd withActors).map.height = wd.map.height ∧
    (Map.init mkRng bsp l0 wd withActors).map.seed = wd.map.seed := by
  unfold Map.init
  simp only
  rw [traverse_map]
  obtain ⟨a1, a2, a3, _, _⟩ := carve_fold_fields
    (bsp wd.map.width wd.map.height (mkRng wd.map.seed)).1
    { roomNum := 0, lastx := l0.1, lasty := l0.2 }
    { wd.map with rng := (bsp wd.map.width wd.map.height (mkRng wd.map.seed)).2,
                  tiles := fun _ => {}, map := TCODMap.new }
  exact ⟨a1, a2, a3⟩

theorem boolToInt_ne_zero (b : Bool) : (boolToInt b != 0) = b := by
  cases b <;> rfl

theorem idx_lt_size (m : Map) (x y : Int) (h : m.inBounds x y) :
    0 ≤ m.idx x y ∧ m.idx x y < m.width * m.height := by
  unfold Map.inBounds at h
  unfold Map.idx
  obtain ⟨h1, h2, h3, h4⟩ := h
  constructor
  · have : 0 ≤ y * m.width := mul_nonneg h3 (by omega)
    omega
  · have hy : y + 1 ≤ m.height := by omega
    have hw : 0 ≤ m.width := by omega
    have : (y + 1) * m.width ≤ m.height * m.width := mul_le_mul_of_nonneg_right hy hw
    have e1 : (y + 1) * m.width = y * m.width + m.width := by ring
    have e2 : m.height * m.width = m.width * m.height := by ring
    omega

/-- C16: save then load is a round trip on the persisted state. `save` on an empty record
writes the seed followed by exactly `width * height` explored flags in
tile-index order, and `load` of that record on a map of the same dimensions
consumes it entirely, restores the seed and gives every tile of the array, hence
every in-range coordinate `(x, y)` at index `x + y * width`, the explored flag
it had at save time. -/
theorem save_load_roundtrip (m : Map) (wd : World) (mkRng : Int → TCODRandom)
    (bsp : BspService) (l0 : Int × Int)
    (hw : wd.map.width = m.width) (hh : wd.map.height = m.height) :
    (m.save { data := [] }).data
      = m.seed :: (loopRange 0 (m.width * m.height - 1)).map
          (fun i => boolToInt (m.tiles i).explored) ∧
    (m.save { data := [] }).data.length = 1 + (m.width * m.height).toNat ∧
    (Map.load mkRng bsp l0 wd (m.save { data := [] })).2.data = [] ∧
    (Map.load mkRng bsp l0 wd (m.save { data := [] })).1.map.seed = m.seed ∧
    (Map.load mkRng bsp l0 wd (m.save { data := [] })).1.map.width = m.width ∧
    (Map.load mkRng bsp l0 wd (m.save { data := [] })).1.map.height = m.height ∧
    (∀ i : Int, 0 ≤ i ∧ i < m.width * m.height →
      ((Map.load mkRng bsp l0 wd (m.save { data := [] })).1.map.tiles i).explored
        = (m.tiles i).explored) ∧
    (∀ x y : Int, 0 ≤ x ∧ x < m.width ∧ 0 ≤ y ∧ y < m.height →
      (Map.load mkRng bsp l0 wd (m.save { data := [] })).1.map.isExplored x y
        = m.isExplored x y) := by
  have hd := save_data m { data := [] }
  simp only [List.nil_append] at hd
  have hz : (m.save { data := [] }).getInt
      = (m.seed, { data := (List.map (fun i => boolToInt (m.tiles i).explored)
          (loopRange 0 (m.width * m.height - 1)) ++ []) }) := by
    unfold TCODZip.getInt
    rw [hd]
    simp
  obtain ⟨f1, f2, f3⟩ := init_fields mkRng bsp l0
    { wd with map := { wd.map with seed := m.seed } } false
  have f1' : (Map.init mkRng bsp l0 { wd with map := { wd.map with seed := m.seed } }
      false).map.width = m.width := f1.trans hw
  have f2' : (Map.init mkRng bsp l0 { wd with map := { wd.map with seed := m.seed } }
      false).map.height = m.height := f2.trans hh
  obtain ⟨g1, g2, g3, g4, _, g6, _⟩ := load_body_fold
    (fun i => boolToInt (m.tiles i).explored) (loopRange 0 (m.width * m.height - 1)) []
    (Map.init mkRng bsp l0 { wd with map := { wd.map with seed := m.seed } } false).map
    (loopRange_nodup _ _)
  have hl : Map.load mkRng bsp l0 wd (m.save { data := [] })
      = ({ Map.init mkRng bsp l0 { wd with map := { wd.map with seed := m.seed } } false with
            map := ((loopRange 0 (m.width * m.height - 1)).foldl Map.load.body
              ((Map.init mkRng bsp l0 { wd with map := { wd.map with seed := m.seed } }
                  false).map,
                { data := (List.map (fun i => boolToInt (m.tiles i).explored)
                    (loopRange 0 (m.width * m.height - 1)) ++ []) })).1 },
          ((loopRange 0 (m.width * m.height - 1)).foldl Map.load.body
              ((Map.init mkRng bsp l0 { wd with map := { wd.map with seed := m.seed } }
                  false).map,
                { data := (List.map (fun i => boolToInt (m.tiles i).explored)
                    (loopRange 0 (m.width * m.height - 1)) ++ []) })).2) := by
    unfold Map.load
    simp only [hz, f1', f2']
  have htile : ∀ i : Int, 0 ≤ i ∧ i < m.width * m.height →
      ((Map.load mkRng bsp l0 wd (m.save { data := [] })).1.map.tiles i).explored
        = (m.tiles i).explored := by
    intro i hi
    rw [hl]
    show ((List.foldl Map.load.body _ _).1.tiles i).explored = _
    rw [g6 i ((mem_loopRange _ _ _).2 (by omega)), boolToInt_ne_zero]
  refine ⟨hd, ?_, ?_, ?_, ?_, ?_, htile, ?_⟩
  · rw [hd, List.length_cons, List.length_map, loopRange_length]
    have : m.width * m.height - 1 + 1 - 0 = m.width * m.height := by ring
    rw [this]; omega
  · rw [hl]; exact g1
  · rw [hl]; exact g4.trans f3
  · rw [hl]; exact g2.trans f1'
  · rw [hl]; exact g3.trans f2'
  · intro x y hb
    have hb' : m.inBounds x y := hb
    have hwl : (Map.load mkRng bsp l0 wd (m.save { data := [] })).1.map.width = m.width := by
      rw [hl]; exact g2.trans f1'
    unfold Map.isExplored Map.idx
    rw [hwl]
    exact htile _ (idx_lt_size m x y hb')

/-- C16 at a concrete input: the 3 x 2 small map, whose only explored tile is `(1, 1)`,
saves as its seed and six flags, the fifth set; loading that record on a blank
3 x 2 map restores the flag of `(1, 1)`. -/
theorem save_load_roundtrip_witness :
    (({ demoWorld with map := { blankMap with width := 3, height := 2 } } : World).map.width
        = smallMap.width ∧
      ({ demoWorld with map := { blankMap with width := 3, height := 2 } } : World).map.height
        = smallMap.height) ∧
    (smallMap.save { data := [] }).data = [0, 0, 0, 0, 0, 1, 0] ∧
    ((0 : Int) ≤ 1 ∧ (1 : Int) < smallMap.width ∧ (0 : Int) ≤ 1 ∧ (1 : Int) < smallMap.height) ∧
    (Map.load (fun _ => lowRng) demoBsp (0, 0)
        { demoWorld with map := { blankMap with width := 3, height := 2 } }
        (smallMap.save { data := [] })).1.map.isExplored 1 1 = true :=
  ⟨⟨by decide, by decide⟩, by decide, by decide,
    ((save_load_roundtrip smallMap
        { demoWorld with map := { blankMap with width := 3, height := 2 } }
        (fun _ => lowRng) demoBsp (0, 0) (by decide) (by decide)).2.2.2.2.2.2.2 1 1
      (by decide)).trans (by decide)⟩

/-! ## The trace of a traversal -/

theorem dig_cells_eq (x1 y1 x2 y2 : Int) :
    Map.dig.cells x1 y1 x2 y2
      = (loopRange (min x1 x2) (max x1 x2)) ×ˢ (loopRange (min y1 y2) (max y1 y2)) := by
  have hx1 : (if x2 < x1 then x2 else x1) = min x1 x2 := by
    split <;> omega
  have hx2 : (if x2 < x1 then x1 else x2) = max x1 x2 := by
    split <;> omega
  have hy1 : (if y2 < y1 then y2 else y1) = min y1 y2 := by
    split <;> omega
  have hy2 : (if y2 < y1 then y1 else y2) = max y1 y2 := by
    split <;> omega
  unfold Map.dig.cells
  simp only [hx1, hx2, hy1, hy2]

theorem mem_dig_cells (x1 y1 x2 y2 a b : Int) :
    (a, b) ∈ Map.dig.cells x1 y1 x2 y2
      ↔ (min x1 x2 ≤ a ∧ a ≤ max x1 x2) ∧ (min y1 y2 ≤ b ∧ b ≤ max y1 y2) := by
  rw [dig_cells_eq, List.mem_product, mem_loopRange, mem_loopRange]

theorem applySet_append (c1 c2 : List (Int × Int)) (t : TCODMap) :
    applySet (c1 ++ c2) t = applySet c2 (applySet c1 t) := by
  unfold applySet
  rw [List.foldl_append]

theorem applySet_walkable (cells : List (Int × Int)) (t : TCODMap) (a b : Int) :
    (applySet cells t).walkable a b = (t.walkable a b || decide ((a, b) ∈ cells)) := by
  unfold applySet
  induction cells generalizing t with
  | nil => simp
  | cons c rest ih =>
    rw [List.foldl_cons, ih]
    simp only [TCODMap.setProperties, List.mem_cons]
    by_cases h1 : a = c.1 <;> by_cases h2 : b = c.2 <;> by_cases h3 : (a, b) ∈ rest <;>
      simp [h1, h2, h3, Prod.ext_iff]

theorem digGrid_eq_applySet (xs ys : List Int) (t : TCODMap) :
    digGrid xs ys t = applySet (xs ×ˢ ys) t := by
  unfold digGrid digColumn applySet
  exact foldl_nested_product (fun acc c => acc.setProperties c.1 c.2 true true) xs ys t

/-- The grid after `dig` is the grid after the `setProperties` calls on its cells. -/
theorem dig_map_eq (m : Map) (x1 y1 x2 y2 : Int) :
    (m.dig x1 y1 x2 y2).map = applySet (Map.dig.cells x1 y1 x2 y2) m.map := by
  rw [dig_eq_digGrid, dig_cells_eq, digGrid_eq_applySet]

theorem dig_rng (m : Map) (x1 y1 x2 y2 : Int) : (m.dig x1 y1 x2 y2).rng = m.rng := by
  rw [dig_eq_digGrid]

theorem setCalls_nil : setCalls [] = [] := rfl

theorem setCalls_append (s1 s2 : List Carving) : setCalls (s1 ++ s2) = setCalls s1 ++ setCalls s2 := by
  unfold setCalls
  simp

theorem setCalls_room (x1 y1 x2 y2 : Int) :
    setCalls [Carving.room x1 y1 x2 y2] = Map.dig.cells x1 y1 x2 y2 := by
  simp [setCalls, Carving.digs]

theorem setCalls_corridor (lx ly cx cy : Int) :
    setCalls [Carving.corridor lx ly cx cy]
      = Map.dig.cells lx ly cx ly ++ Map.dig.cells cx ly cx cy := by
  simp [setCalls, Carving.digs]

theorem setCalls_cons (c : Carving) (rest : List Carving) :
    setCalls (c :: rest) = setCalls [c] ++ setCalls rest := by
  rw [← setCalls_append]; rfl

/-- The grid after `visitNode` is the grid after the `setProperties` calls of its steps. -/
theorem carve_grid (l : BspListener) (m : Map) (node : TCODBsp) :
    (BspListener.carve l m node).2.map = applySet (setCalls (l.carvings m.rng node)) m.map := by
  by_cases hleaf : node.isLeaf = true
  · by_cases hn : l.roomNum = 0
    · rw [carve_leaf_first l m node hleaf hn]
      have hr : (l.roomNum != 0) = false := by simp [hn]
      unfold BspListener.carvings BspListener.roomOf
      simp only [hleaf, hr, if_true, Bool.false_eq_true, if_false]
      rw [setCalls_room, dig_map_eq]
    · rw [carve_leaf_later l m node hleaf hn]
      have hr : (l.roomNum != 0) = true := by simpa using hn
      unfold BspListener.carvings BspListener.roomOf
      simp only [hleaf, hr, if_true]
      rw [setCalls_cons, setCalls_room, setCalls_corridor, applySet_append, applySet_append,
        dig_map_eq, dig_map_eq, dig_map_eq]
  · have hleaf' : node.isLeaf = false := by simpa using hleaf
    rw [carve_not_leaf l m node hleaf']
    unfold BspListener.carvings
    simp only [hleaf', Bool.false_eq_true, if_false]
    rfl

theorem traverseCarvings_cons (node : TCODBsp) (rest : List TCODBsp) (l : BspListener)
    (m : Map) :
    traverseCarvings (node :: rest) l m
      = l.carvings m.rng node
          ++ traverseCarvings rest (BspListener.carve l m node).1
              (BspListener.carve l m node).2 := rfl

theorem carve_fold_grid (nodes : List TCODBsp) (l : BspListener) (m : Map) :
    (nodes.foldl (fun s node => BspListener.carve s.1 s.2 node) (l, m)).2.map
      = applySet (setCalls (traverseCarvings nodes l m)) m.map := by
  induction nodes generalizing l m with
  | nil => rfl
  | cons node rest ih =>
    rw [List.foldl_cons, ih, traverseCarvings_cons, setCalls_append, applySet_append,
      carve_grid]

/-- The grid after a traversal is the grid after the `setProperties` calls of its trace. -/
theorem traverse_grid (nodes : List TCODBsp) (withActors : Bool) (l : BspListener)
    (wd : World) :
    (traverse nodes withActors l wd).2.map.map
      = applySet (setCalls (traverseCarvings nodes l wd.map)) wd.map.map := by
  rw [traverse_map, carve_fold_grid]

theorem mem_setCalls_of_dig (steps : List Carving) (c : Carving) (hc : c ∈ steps)
    (r : Int × Int × Int × Int) (hr : r ∈ c.digs) (p : Int × Int)
    (hp : p ∈ Map.dig.cells r.1 r.2.1 r.2.2.1 r.2.2.2) : p ∈ setCalls steps := by
  unfold setCalls
  rw [List.mem_flatten]
  refine ⟨Map.dig.cells r.1 r.2.1 r.2.2.1 r.2.2.2, ?_, hp⟩
  rw [List.mem_map]
  refine ⟨r, ?_, rfl⟩
  rw [List.mem_flatten]
  exact ⟨c.digs, List.mem_map.2 ⟨c, hc, rfl⟩, hr⟩

theorem isInFov_map (m : Map) (x y : Int) : (m.isInFov x y).2.map = m.map := by
  unfold Map.isInFov
  split
  · rfl
  · split <;> rfl

/-- C11: every carved cell is walkable after generation, and walkability is never taken
away. The grid after a traversal is the grid after the `setProperties` calls
of its trace; every cell of every room rectangle of the trace and every cell of
both segments of every corridor of the trace is walkable in it; and a cell
that is walkable stays walkable through `dig`, `createRoom`, `visitNode`,
`computeFov`, `isInFov` and a whole traversal. -/
theorem carved_cells_walkable (nodes : List TCODBsp) (withActors : Bool) (l : BspListener)
    (wd : World) :
    (traverse nodes withActors l wd).2.map.map
      = applySet (setCalls (traverseCarvings nodes l wd.map)) wd.map.map ∧
    (∀ x1 y1 x2 y2 : Int, Carving.room x1 y1 x2 y2 ∈ traverseCarvings nodes l wd.map →
      ∀ a b : Int, (min x1 x2 ≤ a ∧ a ≤ max x1 x2 ∧ min y1 y2 ≤ b ∧ b ≤ max y1 y2) →
        (traverse nodes withActors l wd).2.map.map.isWalkable a b = true) ∧
    (∀ lastx lasty cx cy : Int,
      Carving.corridor lastx lasty cx cy ∈ traverseCarvings nodes l wd.map →
      (∀ i : Int, (min lastx cx ≤ i ∧ i ≤ max lastx cx) →
        (traverse nodes withActors l wd).2.map.map.isWalkable i lasty = true) ∧
      (∀ j : Int, (min lasty cy ≤ j ∧ j ≤ max lasty cy) →
        (traverse nodes withActors l wd).2.map.map.isWalkable cx j = true)) ∧
    (∀ a b : Int, wd.map.map.isWalkable a b = true →
      (∀ x1 y1 x2 y2 : Int, (wd.map.dig x1 y1 x2 y2).map.isWalkable a b = true) ∧
      (∀ (first : Bool) (x1 y1 x2 y2 : Int) (wa : Bool),
        (Map.createRoom wd first x1 y1 x2 y2 wa).map.map.isWalkable a b = true) ∧
      (∀ (k : BspListener) (node : TCODBsp) (wa : Bool),
        (BspListener.visitNode k wd node wa).2.map.map.isWalkable a b = true) ∧
      (∀ (algo : FovAlgo) (eng : Engine),
        (Map.computeFov algo eng wd.map).map.isWalkable a b = true) ∧
      (∀ x y : Int, (wd.map.isInFov x y).2.map.isWalkable a b = true) ∧
      (traverse nodes withActors l wd).2.map.map.isWalkable a b = true) := by
  have hg := traverse_grid nodes withActors l wd
  refine ⟨hg, ?_, ?_, ?_⟩
  · intro x1 y1 x2 y2 hc a b hab
    rw [hg]
    unfold TCODMap.isWalkable
    rw [applySet_walkable]
    have hm : (a, b) ∈ setCalls (traverseCarvings nodes l wd.map) :=
      mem_setCalls_of_dig _ _ hc (x1, y1, x2, y2) (by simp [Carving.digs]) (a, b)
        ((mem_dig_cells x1 y1 x2 y2 a b).2 ⟨⟨hab.1, hab.2.1⟩, hab.2.2⟩)
    simp [hm]
  · intro lx ly cx cy hc
    constructor
    · intro i hi
      rw [hg]
      unfold TCODMap.isWalkable
      rw [applySet_walkable]
      have hm : (i, ly) ∈ setCalls (traverseCarvings nodes l wd.map) :=
        mem_setCalls_of_dig _ _ hc (lx, ly, cx, ly) (by simp [Carving.digs]) (i, ly)
          ((mem_dig_cells lx ly cx ly i ly).2 ⟨hi, by simp⟩)
      simp [hm]
    · intro j hj
      rw [hg]
      unfold TCODMap.isWalkable
      rw [applySet_walkable]
      have hm : (cx, j) ∈ setCalls (traverseCarvings nodes l wd.map) :=
        mem_setCalls_of_dig _ _ hc (cx, ly, cx, cy) (by simp [Carving.digs]) (cx, j)
          ((mem_dig_cells cx ly cx cy cx j).2 ⟨by simp, hj⟩)
      simp [hm]
  · intro a b hab
    unfold TCODMap.isWalkable at hab ⊢
    refine ⟨?_, ?_, ?_, ?_, ?_, ?_⟩
    · intro x1 y1 x2 y2
      rw [dig_walkable, hab]; rfl
    · intro first x1 y1 x2 y2 wa
      rw [createRoom_map, dig_walkable, hab]; rfl
    · intro k node wa
      rw [visitNode_map, carve_grid, applySet_walkable, hab]; rfl
    · intro algo eng
      rw [computeFov_map]; exact hab
    · intro x y
      rw [isInFov_map]; exact hab
    · rw [hg, applySet_walkable, hab]; rfl

/-- C11 at a concrete input: the traversal of the two demo leaves and the inner node digs
the rooms `(7,5)-(12,10)` and `(21,11)-(26,16)` and the corridor from `(10, 8)`
to `(24, 14)`; afterwards the corridor cells `(17, 8)` and `(24, 11)` are walkable. -/
theorem carved_cells_walkable_witness :
    traverseCarvings [demoLeaf, demoLeaf2, demoInner] freshListener demoWorld.map
      = [Carving.room 7 5 12 10, Carving.room 21 11 26 16, Carving.corridor 10 8 24 14] ∧
    (min (10 : Int) 24 ≤ 17 ∧ (17 : Int) ≤ max 10 24) ∧
    (traverse [demoLeaf, demoLeaf2, demoInner] true freshListener
      demoWorld).2.map.map.isWalkable 17 8 = true ∧
    (min (8 : Int) 14 ≤ 11 ∧ (11 : Int) ≤ max 8 14) ∧
    (traverse [demoLeaf, demoLeaf2, demoInner] true freshListener
      demoWorld).2.map.map.isWalkable 24 11 = true :=
  ⟨by decide, by decide,
    ((carved_cells_walkable [demoLeaf, demoLeaf2, demoInner] true freshListener demoWorld).2.2.1
      10 8 24 14 (by decide)).1 17 (by decide),
    by decide,
    ((carved_cells_walkable [demoLeaf, demoLeaf2, demoInner] true freshListener demoWorld).2.2.1
      10 8 24 14 (by decide)).2 11 (by decide)⟩

/-! ## Counting rooms and corridors -/

theorem carve_roomNum (l : BspListener) (m : Map) (node : TCODBsp) :
    (BspListener.carve l m node).1.roomNum
      = l.roomNum + (if node.isLeaf = true then 1 else 0) := by
  unfold BspListener.carve
  split <;> rfl

theorem carve_fold_roomNum (nodes : List TCODBsp) (l : BspListener) (m : Map) :
    (nodes.foldl (fun s node => BspListener.carve s.1 s.2 node) (l, m)).1.roomNum
      = l.roomNum + nodes.countP TCODBsp.isLeaf := by
  induction nodes generalizing l m with
  | nil => rfl
  | cons node rest ih =>
    rw [List.foldl_cons, ih, carve_roomNum, List.countP_cons]
    simp only
    split <;> omega

theorem traverse_listener (nodes : List TCODBsp) (withActors : Bool) (l : BspListener)
    (wd : World) :
    (traverse nodes withActors l wd).1
      = (nodes.foldl (fun s node => BspListener.carve s.1 s.2 node) (l, wd.map)).1 :=
  (Prod.mk.inj (traverse_carve nodes withActors l wd)).1

theorem carvings_not_leaf (l : BspListener) (rng : TCODRandom) (node : TCODBsp)
    (h : node.isLeaf = false) : l.carvings rng node = [] := by
  unfold BspListener.carvings
  simp only [h, Bool.false_eq_true, if_false]

theorem carvings_leaf_first (l : BspListener) (rng : TCODRandom) (node : TCODBsp)
    (h : node.isLeaf = true) (hn : l.roomNum = 0) :
    l.carvings rng node
      = [Carving.room (BspListener.roomOf rng node).x (BspListener.roomOf rng node).y
          ((BspListener.roomOf rng node).x + (BspListener.roomOf rng node).w - 1)
          ((BspListener.roomOf rng node).y + (BspListener.roomOf rng node).h - 1)] := by
  unfold BspListener.carvings
  have hr : (l.roomNum != 0) = false := by simp [hn]
  simp only [h, hr, if_true, Bool.false_eq_true, if_false]

theorem carvings_leaf_later (l : BspListener) (rng : TCODRandom) (node : TCODBsp)
    (h : node.isLeaf = true) (hn : l.roomNum ≠ 0) :
    l.carvings rng node
      = [Carving.room (BspListener.roomOf rng node).x (BspListener.roomOf rng node).y
          ((BspListener.roomOf rng node).x + (BspListener.roomOf rng node).w - 1)
          ((BspListener.roomOf rng node).y + (BspListener.roomOf rng node).h - 1),
        Carving.corridor l.lastx l.lasty
          ((BspListener.roomOf rng node).x + Int.tdiv (BspListener.roomOf rng node).w 2)
          ((BspListener.roomOf rng node).y + Int.tdiv (BspListener.roomOf rng node).h 2)] := by
  unfold BspListener.carvings
  have hr : (l.roomNum != 0) = true := by simpa using hn
  simp only [h, hr, if_true]

theorem trace_rooms (nodes : List TCODBsp) (l : BspListener) (m : Map) :
    (traverseCarvings nodes l m).countP Carving.isRoom = nodes.countP TCODBsp.isLeaf := by
  induction nodes generalizing l m with
  | nil => rfl
  | cons node rest ih =>
    rw [traverseCarvings_cons, List.countP_append, ih, List.countP_cons]
    by_cases hleaf : node.isLeaf = true
    · by_cases hn : l.roomNum = 0
      · rw [carvings_leaf_first l m.rng node hleaf hn]
        simp [hleaf, Carving.isRoom]
        omega
      · rw [carvings_leaf_later l m.rng node hleaf hn]
        simp [hleaf, Carving.isRoom, List.countP_cons]
        omega
    · have hleaf' : node.isLeaf = false := by simpa using hleaf
      rw [carvings_not_leaf l m.rng node hleaf']
      simp [hleaf']

theorem trace_corridors_later (nodes : List TCODBsp) (l : BspListener) (m : Map)
    (hn : l.roomNum ≠ 0) :
    (traverseCarvings nodes l m).countP Carving.isCorridor = nodes.countP TCODBsp.isLeaf := by
  induction nodes generalizing l m with
  | nil => rfl
  | cons node rest ih =>
    have hn1 : (BspListener.carve l m node).1.roomNum ≠ 0 := by
      rw [carve_roomNum]; omega
    rw [traverseCarvings_cons, List.countP_append, ih _ _ hn1, List.countP_cons]
    by_cases hleaf : node.isLeaf = true
    · rw [carvings_leaf_later l m.rng node hleaf hn]
      simp [hleaf, Carving.isCorridor, List.countP_cons]
      omega
    · have hleaf' : node.isLeaf = false := by simpa using hleaf
      rw [carvings_not_leaf l m.rng node hleaf']
      simp [hleaf']

theorem trace_corridors_first (nodes : List TCODBsp) (l : BspListener) (m : Map)
    (hn : l.roomNum = 0) :
    (traverseCarvings nodes l m).countP Carving.isCorridor
      = nodes.countP TCODBsp.isLeaf - 1 := by
  induction nodes generalizing l m with
  | nil => rfl
  | cons node rest ih =>
    rw [traverseCarvings_cons, List.countP_append, List.countP_cons]
    by_cases hleaf : node.isLeaf = true
    · have hn1 : (BspListener.carve l m node).1.roomNum ≠ 0 := by
        rw [carve_roomNum]; simp [hleaf]
      rw [trace_corridors_later _ _ _ hn1, carvings_leaf_first l m.rng node hleaf hn]
      simp [hleaf, Carving.isCorridor]
    · have hleaf' : node.isLeaf = false := by simpa using hleaf
      rw [carvings_not_leaf l m.rng node hleaf', carve_not_leaf l m node hleaf', ih l m hn]
      simp [hleaf']

theorem trace_no_leaf (nodes : List TCODBsp) (l : BspListener) (m : Map)
    (h : ∀ n ∈ nodes, n.isLeaf = false) : traverseCarvings nodes l m = [] := by
  induction nodes generalizing l m with
  | nil => rfl
  | cons node rest ih =>
    have hl := h node (List.mem_cons_self _ _)
    rw [traverseCarvings_cons, carvings_not_leaf l m.rng node hl, carve_not_leaf l m node hl,
      ih l m (fun n hn => h n (List.mem_cons_of_mem _ hn))]
    rfl

theorem trace_skip_no_leaf (before rest : List TCODBsp) (l : BspListener) (m : Map)
    (h : ∀ n ∈ before, n.isLeaf = false) :
    traverseCarvings (before ++ rest) l m = traverseCarvings rest l m := by
  induction before with
  | nil => rfl
  | cons node tl ih =>
    have hl := h node (List.mem_cons_self _ _)
    rw [List.cons_append, traverseCarvings_cons, carvings_not_leaf l m.rng node hl,
      carve_not_leaf l m node hl, ih (fun n hn => h n (List.mem_cons_of_mem _ hn))]
    rfl

theorem traverseCarvings_append (a b : List TCODBsp) (l : BspListener) (m : Map) :
    traverseCarvings (a ++ b) l m
      = traverseCarvings a l m
          ++ traverseCarvings b
              (a.foldl (fun s node => BspListener.carve s.1 s.2 node) (l, m)).1
              (a.foldl (fun s node => BspListener.carve s.1 s.2 node) (l, m)).2 := by
  induction a generalizing l m with
  | nil => rfl
  | cons node rest ih =>
    rw [List.cons_append, traverseCarvings_cons, traverseCarvings_cons, ih, List.foldl_cons,
      List.append_assoc]

theorem carvings_rooms (l : BspListener) (rng : TCODRandom) (node : TCODBsp) :
    (l.carvings rng node).countP Carving.isRoom = (if node.isLeaf = true then 1 else 0) := by
  by_cases hleaf : node.isLeaf = true
  · by_cases hn : l.roomNum = 0
    · rw [carvings_leaf_first l rng node hleaf hn]
      simp [hleaf, Carving.isRoom]
    · rw [carvings_leaf_later l rng node hleaf hn]
      simp [hleaf, Carving.isRoom, List.countP_cons]
  · have hleaf' : node.isLeaf = false := by simpa using hleaf
    rw [carvings_not_leaf l rng node hleaf']
    simp [hleaf']

/-- The grid after one `visitNode` is the grid after the `setProperties` calls of the
steps of that call. -/
theorem visitNode_grid (k : BspListener) (w : World) (node : TCODBsp) (wa : Bool) :
    (BspListener.visitNode k w node wa).2.map.map
      = applySet (setCalls (k.carvings w.map.rng node)) w.map.map := by
  rw [visitNode_map, carve_grid]

/-- C12: in a traversal whose listener starts at room 0, the listener's final `roomNum`
and the number of rooms in the trace both equal the number of leaves of the
node sequence, the number of corridors in the trace is that number minus one
(none when there is no leaf), and a node that is not a leaf changes nothing and
carves nothing. When the sequence holds exactly one leaf, the trace is that
leaf's room alone, without corridor, and a cell is walkable afterwards exactly
when it was walkable before or lies in the room's rectangle; in a grid that had
no walkable cell, the walkable cells are exactly the room's rectangle.
The trace counted here is what the code does: the grid after the traversal is
the grid after the `setProperties` calls of the trace; each `visitNode` call
leaves the grid that the `setProperties` calls of its own steps give, advances
`roomNum` by the number of rooms among them, and its steps are the room alone
for a first leaf and the room followed by the corridor from the previous centre
for a later leaf; and at every position of the sequence the steps of the trace
are those of `visitNode` on the listener and layout generator that the
traversal of the code has reached there. -/
theorem rooms_and_corridors (nodes : List TCODBsp) (withActors : Bool) (l : BspListener)
    (wd : World) (hl : l.roomNum = 0) :
    (traverse nodes withActors l wd).1.roomNum = nodes.countP TCODBsp.isLeaf ∧
    (traverseCarvings nodes l wd.map).countP Carving.isRoom = nodes.countP TCODBsp.isLeaf ∧
    (traverseCarvings nodes l wd.map).countP Carving.isCorridor
      = nodes.countP TCODBsp.isLeaf - 1 ∧
    (1 ≤ nodes.countP TCODBsp.isLeaf →
      (traverseCarvings nodes l wd.map).countP Carving.isCorridor + 1
        = nodes.countP TCODBsp.isLeaf) ∧
    (∀ (k : BspListener) (w : World) (node : TCODBsp) (wa : Bool), node.isLeaf = false →
      BspListener.visitNode k w node wa = (k, w) ∧ k.carvings w.map.rng node = []) ∧
    (∀ (before after : List TCODBsp) (leaf : TCODBsp), nodes = before ++ leaf :: after →
      (∀ n ∈ before, n.isLeaf = false) → (∀ n ∈ after, n.isLeaf = false) →
      leaf.isLeaf = true →
      traverseCarvings nodes l wd.map
        = [Carving.room (BspListener.roomOf wd.map.rng leaf).x
            (BspListener.roomOf wd.map.rng leaf).y
            ((BspListener.roomOf wd.map.rng leaf).x + (BspListener.roomOf wd.map.rng leaf).w - 1)
            ((BspListener.roomOf wd.map.rng leaf).y
              + (BspListener.roomOf wd.map.rng leaf).h - 1)] ∧
      (∀ a b : Int,
        (traverse nodes withActors l wd).2.map.map.isWalkable a b
          = (wd.map.map.isWalkable a b ||
              decide ((min (BspListener.roomOf wd.map.rng leaf).x
                    ((BspListener.roomOf wd.map.rng leaf).x
                      + (BspListener.roomOf wd.map.rng leaf).w - 1) ≤ a ∧
                  a ≤ max (BspListener.roomOf wd.map.rng leaf).x
                    ((BspListener.roomOf wd.map.rng leaf).x
                      + (BspListener.roomOf wd.map.rng leaf).w - 1)) ∧
                (min (BspListener.roomOf wd.map.rng leaf).y
                    ((BspListener.roomOf wd.map.rng leaf).y
                      + (BspListener.roomOf wd.map.rng leaf).h - 1) ≤ b ∧
                  b ≤ max (BspListener.roomOf wd.map.rng leaf).y
                    ((BspListener.roomOf wd.map.rng leaf).y
                      + (BspListener.roomOf wd.map.rng leaf).h - 1))))) ∧
      ((∀ a b : Int, wd.map.map.isWalkable a b = false) →
        ∀ a b : Int,
          (traverse nodes withActors l wd).2.map.map.isWalkable a b = true
            ↔ ((min (BspListener.roomOf wd.map.rng leaf).x
                    ((BspListener.roomOf wd.map.rng leaf).x
                      + (BspListener.roomOf wd.map.rng leaf).w - 1) ≤ a ∧
                  a ≤ max (BspListener.roomOf wd.map.rng leaf).x
                    ((BspListener.roomOf wd.map.rng leaf).x
                      + (BspListener.roomOf wd.map.rng leaf).w - 1)) ∧
                (min (BspListener.roomOf wd.map.rng leaf).y
                    ((BspListener.roomOf wd.map.rng leaf).y
                      + (BspListener.roomOf wd.map.rng leaf).h - 1) ≤ b ∧
                  b ≤ max (BspListener.roomOf wd.map.rng leaf).y
                    ((BspListener.roomOf wd.map.rng leaf).y
                      + (BspListener.roomOf wd.map.rng leaf).h - 1))))) ∧
    (traverse nodes withActors l wd).2.map.map
      = applySet (setCalls (traverseCarvings nodes l wd.map)) wd.map.map ∧
    (∀ (k : BspListener) (w : World) (node : TCODBsp) (wa : Bool),
      (BspListener.visitNode k w node wa).2.map.map
        = applySet (setCalls (k.carvings w.map.rng node)) w.map.map ∧
      (BspListener.visitNode k w node wa).1.roomNum
        = k.roomNum + (k.carvings w.map.rng node).countP Carving.isRoom ∧
      (node.isLeaf = true → k.roomNum = 0 →
        k.carvings w.map.rng node
          = [Carving.room (BspListener.roomOf w.map.rng node).x
              (BspListener.roomOf w.map.rng node).y
              ((BspListener.roomOf w.map.rng node).x + (BspListener.roomOf w.map.rng node).w - 1)
              ((BspListener.roomOf w.map.rng node).y
                + (BspListener.roomOf w.map.rng node).h - 1)]) ∧
      (node.isLeaf = true → k.roomNum ≠ 0 →
        k.carvings w.map.rng node
          = [Carving.room (BspListener.roomOf w.map.rng node).x
              (BspListener.roomOf w.map.rng node).y
              ((BspListener.roomOf w.map.rng node).x + (BspListener.roomOf w.map.rng node).w - 1)
              ((BspListener.roomOf w.map.rng node).y
                + (BspListener.roomOf w.map.rng node).h - 1),
            Carving.corridor k.lastx k.lasty
              ((BspListener.roomOf w.map.rng node).x
                + Int.tdiv (BspListener.roomOf w.map.rng node).w 2)
              ((BspListener.roomOf w.map.rng node).y
                + Int.tdiv (BspListener.roomOf w.map.rng node).h 2)] ∧
        (∀ i : Int, (min k.lastx (BspListener.visitNode k w node wa).1.lastx ≤ i ∧
            i ≤ max k.lastx (BspListener.visitNode k w node wa).1.lastx) →
          (BspListener.visitNode k w node wa).2.map.map.isWalkable i k.lasty = true) ∧
        (∀ j : Int, (min k.lasty (BspListener.visitNode k w node wa).1.lasty ≤ j ∧
            j ≤ max k.lasty (BspListener.visitNode k w node wa).1.lasty) →
          (BspListener.visitNode k w node wa).2.map.map.isWalkable
            (BspListener.visitNode k w node wa).1.lastx j = true))) ∧
    (∀ (before after : List TCODBsp) (node : TCODBsp), nodes = before ++ node :: after →
      traverseCarvings nodes l wd.map
        = traverseCarvings before l wd.map
          ++ ((traverse before withActors l wd).1.carvings
                (traverse before withActors l wd).2.map.rng node
              ++ traverseCarvings after
                  (traverse (before ++ [node]) withActors l wd).1
                  (traverse (before ++ [node]) withActors l wd).2.map)) := by
  have hc := trace_corridors_first nodes l wd.map hl
  refine ⟨?_, trace_rooms nodes l wd.map, hc, ?_, ?_, ?_, traverse_grid nodes withActors l wd,
    ?_, ?_⟩
  · rw [traverse_listener, carve_fold_roomNum, hl]; omega
  · intro h1; rw [hc]; omega
  · intro k w node wa hleaf
    exact ⟨visitNode_not_leaf k w node wa hleaf, carvings_not_leaf k w.map.rng node hleaf⟩
  · intro before after leaf hnodes hb ha hleaf
    have htrace : traverseCarvings nodes l wd.map
        = [Carving.room (BspListener.roomOf wd.map.rng leaf).x
            (BspListener.roomOf wd.map.rng leaf).y
            ((BspListener.roomOf wd.map.rng leaf).x + (BspListener.roomOf wd.map.rng leaf).w - 1)
            ((BspListener.roomOf wd.map.rng leaf).y
              + (BspListener.roomOf wd.map.rng leaf).h - 1)] := by
      rw [hnodes, trace_skip_no_leaf before _ l wd.map hb, traverseCarvings_cons,
        trace_no_leaf after _ _ ha, carvings_leaf_first l wd.map.rng leaf hleaf hl]
      rfl
    have hw : ∀ a b : Int,
        (traverse nodes withActors l wd).2.map.map.isWalkable a b
          = (wd.map.map.isWalkable a b ||
              decide ((min (BspListener.roomOf wd.map.rng leaf).x
                    ((BspListener.roomOf wd.map.rng leaf).x
                      + (BspListener.roomOf wd.map.rng leaf).w - 1) ≤ a ∧
                  a ≤ max (BspListener.roomOf wd.map.rng leaf).x
                    ((BspListener.roomOf wd.map.rng leaf).x
                      + (BspListener.roomOf wd.map.rng leaf).w - 1)) ∧
                (min (BspListener.roomOf wd.map.rng leaf).y
                    ((BspListener.roomOf wd.map.rng leaf).y
                      + (BspListener.roomOf wd.map.rng leaf).h - 1) ≤ b ∧
                  b ≤ max (BspListener.roomOf wd.map.rng leaf).y
                    ((BspListener.roomOf wd.map.rng leaf).y
                      + (BspListener.roomOf wd.map.rng leaf).h - 1)))) := by
      intro a b
      unfold TCODMap.isWalkable
      rw [traverse_grid, htrace, setCalls_room, applySet_walkable]
      simp only [mem_dig_cells]
    refine ⟨htrace, hw, ?_⟩
    intro h0 a b
    rw [hw a b, h0 a b]
    simp
  · intro k w node wa
    refine ⟨visitNode_grid k w node wa, ?_, ?_, ?_⟩
    · rw [visitNode_listener, carve_roomNum, carvings_rooms]
    · intro hleaf hn
      exact carvings_leaf_first k w.map.rng node hleaf hn
    · intro hleaf hn
      have hseg : ∀ a b : Int,
          (a, b) ∈ setCalls [Carving.corridor k.lastx k.lasty
              ((BspListener.roomOf w.map.rng node).x
                + Int.tdiv (BspListener.roomOf w.map.rng node).w 2)
              ((BspListener.roomOf w.map.rng node).y
                + Int.tdiv (BspListener.roomOf w.map.rng node).h 2)] →
          (BspListener.visitNode k w node wa).2.map.map.isWalkable a b = true := by
        intro a b hab
        unfold TCODMap.isWalkable
        rw [visitNode_grid, applySet_walkable, carvings_leaf_later k w.map.rng node hleaf hn,
          setCalls_cons]
        have hm : (a, b) ∈ setCalls [Carving.room (BspListener.roomOf w.map.rng node).x
              (BspListener.roomOf w.map.rng node).y
              ((BspListener.roomOf w.map.rng node).x + (BspListener.roomOf w.map.rng node).w - 1)
              ((BspListener.roomOf w.map.rng node).y
                + (BspListener.roomOf w.map.rng node).h - 1)]
            ++ setCalls [Carving.corridor k.lastx k.lasty
              ((BspListener.roomOf w.map.rng node).x
                + Int.tdiv (BspListener.roomOf w.map.rng node).w 2)
              ((BspListener.roomOf w.map.rng node).y
                + Int.tdiv (BspListener.roomOf w.map.rng node).h 2)] :=
          List.mem_append_right _ hab
        simp [hm]
      have hx : (BspListener.visitNode k w node wa).1.lastx
          = (BspListener.roomOf w.map.rng node).x
              + Int.tdiv (BspListener.roomOf w.map.rng node).w 2 := by
        rw [visitNode_listener, carve_leaf_later k w.map node hleaf hn]; rfl
      have hy : (BspListener.visitNode k w node wa).1.lasty
          = (BspListener.roomOf w.map.rng node).y
              + Int.tdiv (BspListener.roomOf w.map.rng node).h 2 := by
        rw [visitNode_listener, carve_leaf_later k w.map node hleaf hn]; rfl
      refine ⟨carvings_leaf_later k w.map.rng node hleaf hn, ?_, ?_⟩
      · intro i hi
        apply hseg
        rw [setCalls_corridor]
        apply List.mem_append_left
        rw [hx] at hi
        exact (mem_dig_cells k.lastx k.lasty
          ((BspListener.roomOf w.map.rng node).x
            + Int.tdiv (BspListener.roomOf w.map.rng node).w 2) k.lasty i k.lasty).2
          ⟨hi, by simp⟩
      · intro j hj
        apply hseg
        rw [setCalls_corridor]
        apply List.mem_append_right
        rw [hy] at hj
        rw [hx]
        exact (mem_dig_cells
          ((BspListener.roomOf w.map.rng node).x
            + Int.tdiv (BspListener.roomOf w.map.rng node).w 2) k.lasty
          ((BspListener.roomOf w.map.rng node).x
            + Int.tdiv (BspListener.roomOf w.map.rng node).w 2)
          ((BspListener.roomOf w.map.rng node).y
            + Int.tdiv (BspListener.roomOf w.map.rng node).h 2)
          ((BspListener.roomOf w.map.rng node).x
            + Int.tdiv (BspListener.roomOf w.map.rng node).w 2) j).2
          ⟨by simp, hj⟩
  · intro before after node hnodes
    rw [hnodes, traverseCarvings_append before (node :: after) l wd.map, traverseCarvings_cons,
      traverse_listener before withActors l wd, traverse_map before withActors l wd,
      traverse_listener (before ++ [node]) withActors l wd,
      traverse_map (before ++ [node]) withActors l wd, List.foldl_append]
    rfl

/-- C12 at concrete inputs: the traversal of two leaves and an inner node ends with
`roomNum = 2`, two rooms and one corridor; the traversal of an inner node and
one leaf carves that leaf's room only. On the 40 x 25 world the trace is the
rooms `7..12 x 5..10` and `21..26 x 11..16` and the corridor from `(10, 8)` to
`(24, 14)`, the grid the code leaves is the grid after the `setProperties`
calls of these three steps, and in that grid the corridor cells `(18, 8)` and
`(24, 10)`, outside both rooms, and the cell `(23, 13)` of the second room are
walkable, while `(18, 9)` is not. -/
theorem rooms_and_corridors_witness :
    freshListener.roomNum = 0 ∧
    (traverse [demoLeaf, demoLeaf2, demoInner] true freshListener demoWorld).1.roomNum = 2 ∧
    (traverseCarvings [demoLeaf, demoLeaf2, demoInner] freshListener
      demoWorld.map).countP Carving.isRoom = 2 ∧
    (traverseCarvings [demoLeaf, demoLeaf2, demoInner] freshListener
      demoWorld.map).countP Carving.isCorridor = 1 ∧
    ([demoInner, demoLeaf] = [demoInner] ++ demoLeaf :: [] ∧
      (∀ n ∈ [demoInner], n.isLeaf = false) ∧ (∀ n ∈ ([] : List TCODBsp), n.isLeaf = false) ∧
      demoLeaf.isLeaf = true) ∧
    traverseCarvings [demoInner, demoLeaf] freshListener demoWorld.map
      = [Carving.room (BspListener.roomOf demoWorld.map.rng demoLeaf).x
          (BspListener.roomOf demoWorld.map.rng demoLeaf).y
          ((BspListener.roomOf demoWorld.map.rng demoLeaf).x
            + (BspListener.roomOf demoWorld.map.rng demoLeaf).w - 1)
          ((BspListener.roomOf demoWorld.map.rng demoLeaf).y
            + (BspListener.roomOf demoWorld.map.rng demoLeaf).h - 1)] ∧
    traverseCarvings [demoLeaf, demoLeaf2, demoInner] freshListener bigWorld.map
      = [Carving.room 7 5 12 10, Carving.room 21 11 26 16, Carving.corridor 10 8 24 14] ∧
    (traverse [demoLeaf, demoLeaf2, demoInner] false freshListener bigWorld).2.map.map
      = applySet (setCalls [Carving.room 7 5 12 10, Carving.room 21 11 26 16,
          Carving.corridor 10 8 24 14]) bigWorld.map.map ∧
    (traverse [demoLeaf, demoLeaf2, demoInner] false freshListener
      bigWorld).2.map.map.isWalkable 18 8 = true ∧
    (traverse [demoLeaf, demoLeaf2, demoInner] false freshListener
      bigWorld).2.map.map.isWalkable 24 10 = true ∧
    (traverse [demoLeaf, demoLeaf2, demoInner] false freshListener
      bigWorld).2.map.map.isWalkable 23 13 = true ∧
    (traverse [demoLeaf, demoLeaf2, demoInner] false freshListener
      bigWorld).2.map.map.isWalkable 18 9 = false :=
  ⟨by decide,
    (rooms_and_corridors [demoLeaf, demoLeaf2, demoInner] true freshListener demoWorld
      (by decide)).1.trans (by decide),
    (rooms_and_corridors [demoLeaf, demoLeaf2, demoInner] true freshListener demoWorld
      (by decide)).2.1.trans (by decide),
    (rooms_and_corridors [demoLeaf, demoLeaf2, demoInner] true freshListener demoWorld
      (by decide)).2.2.1.trans (by decide),
    ⟨by decide, by decide, by simp, by decide⟩,
    ((rooms_and_corridors [demoInner, demoLeaf] true freshListener demoWorld
      (by decide)).2.2.2.2.2.1 [demoInner] [] demoLeaf (by decide) (by decide) (by simp)
      (by decide)).1,
    by decide,
    (rooms_and_corridors [demoLeaf, demoLeaf2, demoInner] false freshListener bigWorld
      (by decide)).2.2.2.2.2.2.1.trans
      (congrArg (fun t => applySet (setCalls t) bigWorld.map.map) (by decide)),
    by decide, by decide, by decide, by decide⟩

/-! ## Digging stays inside the grid -/

theorem pickRoom_draw (rng : TCODRandom) (node : TCODBsp) :
    (BspListener.pickRoom rng node).2.draw = rng.draw := rfl

theorem carve_rng_draw (l : BspListener) (m : Map) (node : TCODBsp) :
    (BspListener.carve l m node).2.rng.draw = m.rng.draw := by
  unfold BspListener.carve
  split
  · simp only
    split <;> simp only [dig_rng] <;> rfl
  · rfl

theorem inRange_of_draw (r r' : TCODRandom) (h : r'.draw = r.draw) (hr : r.InRange) :
    r'.InRange := by
  unfold TCODRandom.InRange at hr ⊢
  rw [h]; exact hr

theorem tdiv_two (w : Int) (hw : 0 ≤ w) : Int.tdiv w 2 = w / 2 :=
  Int.tdiv_eq_ediv hw (by decide)

theorem step_in_bounds (W H : Int) (l : BspListener) (m : Map) (node : TCODBsp)
    (hr : m.rng.InRange)
    (hinv : l.roomNum ≠ 0 → (0 ≤ l.lastx ∧ l.lastx < W) ∧ (0 ≤ l.lasty ∧ l.lasty < H))
    (hnode : node.isLeaf = true →
      0 ≤ node.x ∧ 0 ≤ node.y ∧ node.x + node.w ≤ W ∧ node.y + node.h ≤ H ∧
        8 ≤ node.w ∧ 8 ≤ node.h) :
    (∀ c ∈ setCalls (l.carvings m.rng node), (0 ≤ c.1 ∧ c.1 < W) ∧ (0 ≤ c.2 ∧ c.2 < H)) ∧
    ((BspListener.carve l m node).1.roomNum ≠ 0 →
      (0 ≤ (BspListener.carve l m node).1.lastx ∧ (BspListener.carve l m node).1.lastx < W) ∧
      (0 ≤ (BspListener.carve l m node).1.lasty ∧ (BspListener.carve l m node).1.lasty < H)) := by
  by_cases hleaf : node.isLeaf = true
  · obtain ⟨n1, n2, n3, n4, n5, n6⟩ := hnode hleaf
    obtain ⟨b1, b2, b3, b4, b5, b6, b7, b8⟩ := pickRoom_bounds m.rng node n5 n6 hr
    have h6 : ROOM_MIN_SIZE = 6 := rfl
    rw [h6] at b1 b3
    have tw := tdiv_two (BspListener.roomOf m.rng node).w (by omega)
    have th := tdiv_two (BspListener.roomOf m.rng node).h (by omega)
    have hroom : ∀ c ∈ Map.dig.cells (BspListener.roomOf m.rng node).x
        (BspListener.roomOf m.rng node).y
        ((BspListener.roomOf m.rng node).x + (BspListener.roomOf m.rng node).w - 1)
        ((BspListener.roomOf m.rng node).y + (BspListener.roomOf m.rng node).h - 1),
        (0 ≤ c.1 ∧ c.1 < W) ∧ (0 ≤ c.2 ∧ c.2 < H) := by
      intro c hc
      have hc' := (mem_dig_cells _ _ _ _ c.1 c.2).1 hc
      omega
    constructor
    · by_cases hn : l.roomNum = 0
      · rw [carvings_leaf_first l m.rng node hleaf hn, setCalls_room]
        exact hroom
      · obtain ⟨⟨i1, i2⟩, ⟨i3, i4⟩⟩ := hinv hn
        rw [carvings_leaf_later l m.rng node hleaf hn, setCalls_cons, setCalls_room,
          setCalls_corridor]
        intro c hc
        rcases List.mem_append.1 hc with h | h
        · exact hroom c h
        · rcases List.mem_append.1 h with h | h
          · have hc' := (mem_dig_cells _ _ _ _ c.1 c.2).1 h
            rw [tw] at hc'
            omega
          · have hc' := (mem_dig_cells _ _ _ _ c.1 c.2).1 h
            rw [tw, th] at hc'
            omega
    · intro _
      have hx : (BspListener.carve l m node).1.lastx
          = (BspListener.roomOf m.rng node).x + Int.tdiv (BspListener.roomOf m.rng node).w 2 := by
        unfold BspListener.carve BspListener.roomOf
        simp only [hleaf, if_true]
      have hy : (BspListener.carve l m node).1.lasty
          = (BspListener.roomOf m.rng node).y + Int.tdiv (BspListener.roomOf m.rng node).h 2 := by
        unfold BspListener.carve BspListener.roomOf
        simp only [hleaf, if_true]
      rw [hx, hy, tw, th]
      omega
  · have hleaf' : node.isLeaf = false := by simpa using hleaf
    rw [carvings_not_leaf l m.rng node hleaf', carve_not_leaf l m node hleaf']
    refine ⟨?_, hinv⟩
    intro c hc
    rw [setCalls_nil] at hc
    exact absurd hc (List.not_mem_nil _)

theorem trace_in_bounds (W H : Int) (nodes : List TCODBsp) (l : BspListener) (m : Map)
    (hr : m.rng.InRange)
    (hinv : l.roomNum ≠ 0 → (0 ≤ l.lastx ∧ l.lastx < W) ∧ (0 ≤ l.lasty ∧ l.lasty < H))
    (hnodes : ∀ node ∈ nodes, node.isLeaf = true →
      0 ≤ node.x ∧ 0 ≤ node.y ∧ node.x + node.w ≤ W ∧ node.y + node.h ≤ H ∧
        8 ≤ node.w ∧ 8 ≤ node.h) :
    ∀ c ∈ setCalls (traverseCarvings nodes l m), (0 ≤ c.1 ∧ c.1 < W) ∧ (0 ≤ c.2 ∧ c.2 < H) := by
  induction nodes generalizing l m with
  | nil =>
    intro c hc
    exact absurd hc (List.not_mem_nil _)
  | cons node rest ih =>
    obtain ⟨s1, s2⟩ := step_in_bounds W H l m node hr hinv (hnodes node (List.mem_cons_self _ _))
    intro c hc
    rw [traverseCarvings_cons, setCalls_append] at hc
    rcases List.mem_append.1 hc with h | h
    · exact s1 c h
    · exact ih _ _ (inRange_of_draw m.rng _ (carve_rng_draw l m node) hr) s2
        (fun n hn => hnodes n (List.mem_cons_of_mem _ hn)) c h

/-- C18: generation never digs outside the grid. For a traversal whose listener starts at
room 0, with a layout generator that honours the requested ranges, over any
node sequence whose leaves lie inside `[0, width) x [0, height)` and are at
least 8 wide and 8 high, the grid afterwards is the grid after the
`setProperties` calls of the trace, and every cell of those calls satisfies
`0 <= x < width` and `0 <= y < height`. -/
theorem digs_inside_grid (nodes : List TCODBsp) (withActors : Bool) (l : BspListener)
    (wd : World) (hl : l.roomNum = 0) (hr : wd.map.rng.InRange)
    (hnodes : ∀ node ∈ nodes, node.isLeaf = true →
      0 ≤ node.x ∧ 0 ≤ node.y ∧ node.x + node.w ≤ wd.map.width ∧
        node.y + node.h ≤ wd.map.height ∧ 8 ≤ node.w ∧ 8 ≤ node.h) :
    (traverse nodes withActors l wd).2.map.map
      = applySet (setCalls (traverseCarvings nodes l wd.map)) wd.map.map ∧
    (∀ c ∈ setCalls (traverseCarvings nodes l wd.map),
      (0 ≤ c.1 ∧ c.1 < wd.map.width) ∧ (0 ≤ c.2 ∧ c.2 < wd.map.height)) :=
  ⟨traverse_grid nodes withActors l wd,
    trace_in_bounds wd.map.width wd.map.height nodes l wd.map hr
      (fun h => absurd hl h) hnodes⟩

/-- C18 at a concrete input: on the 40 x 25 map the traversal of the two demo leaves and
the inner node passes 94 cells to `setProperties`, the corridor cell `(17, 8)`
among them, and all of them lie inside the grid. -/
theorem digs_inside_grid_witness :
    (freshListener.roomNum = 0 ∧ bigWorld.map.rng.InRange ∧
      ∀ node ∈ [demoLeaf, demoLeaf2, demoInner], node.isLeaf = true →
        0 ≤ node.x ∧ 0 ≤ node.y ∧ node.x + node.w ≤ bigWorld.map.width ∧
          node.y + node.h ≤ bigWorld.map.height ∧ 8 ≤ node.w ∧ 8 ≤ node.h) ∧
    (setCalls (traverseCarvings [demoLeaf, demoLeaf2, demoInner] freshListener
      bigWorld.map)).length = 94 ∧
    ((17 : Int), (8 : Int)) ∈ setCalls (traverseCarvings [demoLeaf, demoLeaf2, demoInner]
      freshListener bigWorld.map) ∧
    (∀ c ∈ setCalls (traverseCarvings [demoLeaf, demoLeaf2, demoInner] freshListener
        bigWorld.map),
      (0 ≤ c.1 ∧ c.1 < bigWorld.map.width) ∧ (0 ≤ c.2 ∧ c.2 < bigWorld.map.height)) :=
  ⟨⟨by decide, lowRng_inRange, by decide⟩, by decide, by decide,
    (digs_inside_grid [demoLeaf, demoLeaf2, demoInner] true freshListener bigWorld (by decide)
      lowRng_inRange (by decide)).2⟩

/-! ## Connectivity -/

theorem walkStep_symm (t : TCODMap) : Symmetric (walkStep t) := by
  intro p q h
  obtain ⟨h1, h2, h3⟩ := h
  refine ⟨h2, h1, ?_⟩
  unfold adjacent4 at h3 ⊢
  rcases h3 with ⟨e, h | h⟩ | ⟨e, h | h⟩
  · exact Or.inl ⟨e.symm, Or.inr h⟩
  · exact Or.inl ⟨e.symm, Or.inl h⟩
  · exact Or.inr ⟨e.symm, Or.inr h⟩
  · exact Or.inr ⟨e.symm, Or.inl h⟩

theorem walk_symm {t : TCODMap} {p q : Int × Int} (h : Walk t p q) : Walk t q p :=
  ⟨h.2.1, h.1, Relation.ReflTransGen.symmetric (walkStep_symm t) h.2.2⟩

theorem walk_trans {t : TCODMap} {p q r : Int × Int} (h1 : Walk t p q) (h2 : Walk t q r) :
    Walk t p r :=
  ⟨h1.1, h2.2.1, Relation.ReflTransGen.trans h1.2.2 h2.2.2⟩

theorem walk_mono {t t' : TCODMap} {p q : Int × Int}
    (hm : ∀ a b : Int, t.walkable a b = true → t'.walkable a b = true) (h : Walk t p q) :
    Walk t' p q :=
  ⟨hm _ _ h.1, hm _ _ h.2.1,
    Relation.ReflTransGen.mono (fun _ _ s => ⟨hm _ _ s.1, hm _ _ s.2.1, s.2.2⟩) h.2.2⟩

theorem walk_right (t : TCODMap) (y : Int) (n : Nat) (a : Int)
    (h : ∀ i : Int, a ≤ i ∧ i ≤ a + n → t.walkable i y = true) :
    Walk t (a, y) (a + n, y) := by
  induction n with
  | zero =>
    have h0 := h a ⟨le_refl _, by simp⟩
    refine ⟨h0, ?_, ?_⟩
    · simpa using h0
    · simp only [Nat.cast_zero, add_zero]
      exact Relation.ReflTransGen.refl
  | succ k ih =>
    have ih' := ih (fun i hi => h i ⟨hi.1, by push_cast; omega⟩)
    have hk := h (a + k) ⟨by omega, by push_cast; omega⟩
    have hk1 := h (a + (k + 1 : Nat)) ⟨by omega, le_refl _⟩
    refine ⟨ih'.1, hk1, Relation.ReflTransGen.tail ih'.2.2 ⟨hk, hk1, ?_⟩⟩
    unfold adjacent4
    right
    refine ⟨rfl, Or.inr ?_⟩
    show a + ((k + 1 : Nat) : Int) = a + k + 1
    push_cast; ring

theorem walk_up (t : TCODMap) (x : Int) (n : Nat) (b : Int)
    (h : ∀ j : Int, b ≤ j ∧ j ≤ b + n → t.walkable x j = true) :
    Walk t (x, b) (x, b + n) := by
  induction n with
  | zero =>
    have h0 := h b ⟨le_refl _, by simp⟩
    refine ⟨h0, ?_, ?_⟩
    · simpa using h0
    · simp only [Nat.cast_zero, add_zero]
      exact Relation.ReflTransGen.refl
  | succ k ih =>
    have ih' := ih (fun j hj => h j ⟨hj.1, by push_cast; omega⟩)
    have hk := h (b + k) ⟨by omega, by push_cast; omega⟩
    have hk1 := h (b + (k + 1 : Nat)) ⟨by omega, le_refl _⟩
    refine ⟨ih'.1, hk1, Relation.ReflTransGen.tail ih'.2.2 ⟨hk, hk1, ?_⟩⟩
    unfold adjacent4
    left
    refine ⟨rfl, Or.inr ?_⟩
    show b + ((k + 1 : Nat) : Int) = b + k + 1
    push_cast; ring

/-- A walkable horizontal segment joins its two ends, in either direction. -/
theorem walk_row (t : TCODMap) (y a b : Int)
    (h : ∀ i : Int, min a b ≤ i ∧ i ≤ max a b → t.walkable i y = true) :
    Walk t (a, y) (b, y) := by
  by_cases hab : a ≤ b
  · have e : b = a + ((b - a).toNat : Int) := by omega
    rw [e]
    exact walk_right t y (b - a).toNat a (fun i hi => h i (by omega))
  · have e : a = b + ((a - b).toNat : Int) := by omega
    have w := walk_right t y (a - b).toNat b (fun i hi => h i (by omega))
    rw [← e] at w
    exact walk_symm w

/-- A walkable vertical segment joins its two ends, in either direction. -/
theorem walk_column (t : TCODMap) (x a b : Int)
    (h : ∀ j : Int, min a b ≤ j ∧ j ≤ max a b → t.walkable x j = true) :
    Walk t (x, a) (x, b) := by
  by_cases hab : a ≤ b
  · have e : b = a + ((b - a).toNat : Int) := by omega
    rw [e]
    exact walk_up t x (b - a).toNat a (fun j hj => h j (by omega))
  · have e : a = b + ((a - b).toNat : Int) := by omega
    have w := walk_up t x (a - b).toNat b (fun j hj => h j (by omega))
    rw [← e] at w
    exact walk_symm w

/-- Any two cells of a walkable rectangle are joined by a path inside it. -/
theorem walk_rect (t : TCODMap) (x1 y1 x2 y2 : Int)
    (h : ∀ a b : Int, (x1 ≤ a ∧ a ≤ x2) ∧ (y1 ≤ b ∧ b ≤ y2) → t.walkable a b = true)
    (p q : Int × Int) (hp : (x1 ≤ p.1 ∧ p.1 ≤ x2) ∧ (y1 ≤ p.2 ∧ p.2 ≤ y2))
    (hq : (x1 ≤ q.1 ∧ q.1 ≤ x2) ∧ (y1 ≤ q.2 ∧ q.2 ≤ y2)) : Walk t p q := by
  have w1 : Walk t (p.1, p.2) (q.1, p.2) :=
    walk_row t p.2 p.1 q.1 (fun i hi => h i p.2 ⟨by omega, hp.2⟩)
  have w2 : Walk t (q.1, p.2) (q.1, q.2) :=
    walk_column t q.1 p.2 q.2 (fun j hj => h q.1 j ⟨hq.1, by omega⟩)
  exact walk_trans w1 w2

theorem carve_walkable (l : BspListener) (m : Map) (node : TCODBsp) (a b : Int) :
    (BspListener.carve l m node).2.map.walkable a b
      = (m.map.walkable a b || decide ((a, b) ∈ setCalls (l.carvings m.rng node))) := by
  rw [carve_grid, applySet_walkable]

theorem carve_anchor (l : BspListener) (m : Map) (node : TCODBsp) (hleaf : node.isLeaf = true) :
    (BspListener.carve l m node).1.lastx
        = (BspListener.roomOf m.rng node).x + Int.tdiv (BspListener.roomOf m.rng node).w 2 ∧
    (BspListener.carve l m node).1.lasty
        = (BspListener.roomOf m.rng node).y + Int.tdiv (BspListener.roomOf m.rng node).h 2 := by
  unfold BspListener.carve BspListener.roomOf
  simp only [hleaf, if_true, and_self]

/-- One `visitNode` keeps what was joined to the previous anchor joined to the new one,
and joins every cell of the room it carves to the new anchor. -/
theorem step_walk (l : BspListener) (m : Map) (node : TCODBsp) (hr : m.rng.InRange)
    (hnode : node.isLeaf = true → 8 ≤ node.w ∧ 8 ≤ node.h) :
    (∀ p : Int × Int, l.roomNum ≠ 0 → Walk m.map p (l.lastx, l.lasty) →
      Walk (BspListener.carve l m node).2.map p
        ((BspListener.carve l m node).1.lastx, (BspListener.carve l m node).1.lasty)) ∧
    (∀ x1 y1 x2 y2 : Int, Carving.room x1 y1 x2 y2 ∈ l.carvings m.rng node →
      ∀ p : Int × Int, (x1 ≤ p.1 ∧ p.1 ≤ x2) ∧ (y1 ≤ p.2 ∧ p.2 ≤ y2) →
        Walk (BspListener.carve l m node).2.map p
          ((BspListener.carve l m node).1.lastx, (BspListener.carve l m node).1.lasty)) ∧
    (l.roomNum ≠ 0 → (BspListener.carve l m node).1.roomNum ≠ 0) ∧
    (∀ x1 y1 x2 y2 : Int, Carving.room x1 y1 x2 y2 ∈ l.carvings m.rng node →
      (BspListener.carve l m node).1.roomNum ≠ 0) := by
  have hmono : ∀ a b : Int, m.map.walkable a b = true →
      (BspListener.carve l m node).2.map.walkable a b = true := by
    intro a b h
    rw [carve_walkable, h]; rfl
  have hnum : l.roomNum ≠ 0 → (BspListener.carve l m node).1.roomNum ≠ 0 := by
    intro h; rw [carve_roomNum]; omega
  by_cases hleaf : node.isLeaf = true
  · obtain ⟨n5, n6⟩ := hnode hleaf
    obtain ⟨b1, b2, b3, b4, b5, b6, b7, b8⟩ := pickRoom_bounds m.rng node n5 n6 hr
    have h6 : ROOM_MIN_SIZE = 6 := rfl
    rw [h6] at b1 b3
    have tw := tdiv_two (BspListener.roomOf m.rng node).w (by omega)
    have th := tdiv_two (BspListener.roomOf m.rng node).h (by omega)
    obtain ⟨ax, ay⟩ := carve_anchor l m node hleaf
    have hroomIn : Carving.room (BspListener.roomOf m.rng node).x (BspListener.roomOf m.rng node).y
        ((BspListener.roomOf m.rng node).x + (BspListener.roomOf m.rng node).w - 1)
        ((BspListener.roomOf m.rng node).y + (BspListener.roomOf m.rng node).h - 1)
        ∈ l.carvings m.rng node := by
      by_cases hn : l.roomNum = 0
      · rw [carvings_leaf_first l m.rng node hleaf hn]; simp
      · rw [carvings_leaf_later l m.rng node hleaf hn]; simp
    have hrect : ∀ a b : Int,
        ((BspListener.roomOf m.rng node).x ≤ a ∧
          a ≤ (BspListener.roomOf m.rng node).x + (BspListener.roomOf m.rng node).w - 1) ∧
        ((BspListener.roomOf m.rng node).y ≤ b ∧
          b ≤ (BspListener.roomOf m.rng node).y + (BspListener.roomOf m.rng node).h - 1) →
        (BspListener.carve l m node).2.map.walkable a b = true := by
      intro a b hab
      rw [carve_walkable]
      have hm : (a, b) ∈ setCalls (l.carvings m.rng node) :=
        mem_setCalls_of_dig _ _ hroomIn
          ((BspListener.roomOf m.rng node).x, (BspListener.roomOf m.rng node).y,
            (BspListener.roomOf m.rng node).x + (BspListener.roomOf m.rng node).w - 1,
            (BspListener.roomOf m.rng node).y + (BspListener.roomOf m.rng node).h - 1)
          (by simp [Carving.digs]) (a, b)
          ((mem_dig_cells (BspListener.roomOf m.rng node).x (BspListener.roomOf m.rng node).y
            ((BspListener.roomOf m.rng node).x + (BspListener.roomOf m.rng node).w - 1)
            ((BspListener.roomOf m.rng node).y + (BspListener.roomOf m.rng node).h - 1)
            a b).2 (by omega))
      simp [hm]
    have hroomWalk : ∀ p : Int × Int,
        ((BspListener.roomOf m.rng node).x ≤ p.1 ∧
          p.1 ≤ (BspListener.roomOf m.rng node).x + (BspListener.roomOf m.rng node).w - 1) ∧
        ((BspListener.roomOf m.rng node).y ≤ p.2 ∧
          p.2 ≤ (BspListener.roomOf m.rng node).y + (BspListener.roomOf m.rng node).h - 1) →
        Walk (BspListener.carve l m node).2.map p
          ((BspListener.carve l m node).1.lastx, (BspListener.carve l m node).1.lasty) := by
      intro p hp
      apply walk_rect _ _ _ _ _ hrect p _ hp
      rw [ax, ay, tw, th]
      show ((BspListener.roomOf m.rng node).x
            ≤ (BspListener.roomOf m.rng node).x + (BspListener.roomOf m.rng node).w / 2 ∧
          (BspListener.roomOf m.rng node).x + (BspListener.roomOf m.rng node).w / 2
            ≤ (BspListener.roomOf m.rng node).x + (BspListener.roomOf m.rng node).w - 1) ∧
        ((BspListener.roomOf m.rng node).y
            ≤ (BspListener.roomOf m.rng node).y + (BspListener.roomOf m.rng node).h / 2 ∧
          (BspListener.roomOf m.rng node).y + (BspListener.roomOf m.rng node).h / 2
            ≤ (BspListener.roomOf m.rng node).y + (BspListener.roomOf m.rng node).h - 1)
      omega
    refine ⟨?_, ?_, hnum, ?_⟩
    · intro p hn hw
      have hcor : Carving.corridor l.lastx l.lasty
          ((BspListener.roomOf m.rng node).x + Int.tdiv (BspListener.roomOf m.rng node).w 2)
          ((BspListener.roomOf m.rng node).y + Int.tdiv (BspListener.roomOf m.rng node).h 2)
          ∈ l.carvings m.rng node := by
        rw [carvings_leaf_later l m.rng node hleaf hn]; simp
      have w1 : Walk (BspListener.carve l m node).2.map (l.lastx, l.lasty)
          ((BspListener.carve l m node).1.lastx, l.lasty) := by
        apply walk_row
        intro i hi
        rw [carve_walkable]
        have hm : (i, l.lasty) ∈ setCalls (l.carvings m.rng node) :=
          mem_setCalls_of_dig _ _ hcor
            (l.lastx, l.lasty,
              (BspListener.roomOf m.rng node).x + Int.tdiv (BspListener.roomOf m.rng node).w 2,
              l.lasty) (by simp [Carving.digs]) (i, l.lasty)
            ((mem_dig_cells l.lastx l.lasty
              ((BspListener.roomOf m.rng node).x + Int.tdiv (BspListener.roomOf m.rng node).w 2)
              l.lasty i l.lasty).2 ⟨by rw [← ax]; exact hi, by simp⟩)
        simp [hm]
      have w2 : Walk (BspListener.carve l m node).2.map
          ((BspListener.carve l m node).1.lastx, l.lasty)
          ((BspListener.carve l m node).1.lastx, (BspListener.carve l m node).1.lasty) := by
        apply walk_column
        intro j hj
        rw [carve_walkable]
        have hm : ((BspListener.carve l m node).1.lastx, j)
            ∈ setCalls (l.carvings m.rng node) := by
          rw [ax]
          exact mem_setCalls_of_dig _ _ hcor
            ((BspListener.roomOf m.rng node).x + Int.tdiv (BspListener.roomOf m.rng node).w 2,
              l.lasty,
              (BspListener.roomOf m.rng node).x + Int.tdiv (BspListener.roomOf m.rng node).w 2,
              (BspListener.roomOf m.rng node).y + Int.tdiv (BspListener.roomOf m.rng node).h 2)
            (by simp [Carving.digs]) _
            ((mem_dig_cells
              ((BspListener.roomOf m.rng node).x + Int.tdiv (BspListener.roomOf m.rng node).w 2)
              l.lasty
              ((BspListener.roomOf m.rng node).x + Int.tdiv (BspListener.roomOf m.rng node).w 2)
              ((BspListener.roomOf m.rng node).y + Int.tdiv (BspListener.roomOf m.rng node).h 2)
              ((BspListener.roomOf m.rng node).x + Int.tdiv (BspListener.roomOf m.rng node).w 2)
              j).2 ⟨by simp, by rw [← ay]; exact hj⟩)
        simp [hm]
      exact walk_trans (walk_trans (walk_mono hmono hw) w1) w2
    · intro x1 y1 x2 y2 hc p hp
      have e : Carving.room x1 y1 x2 y2
          = Carving.room (BspListener.roomOf m.rng node).x (BspListener.roomOf m.rng node).y
            ((BspListener.roomOf m.rng node).x + (BspListener.roomOf m.rng node).w - 1)
            ((BspListener.roomOf m.rng node).y + (BspListener.roomOf m.rng node).h - 1) := by
        by_cases hn : l.roomNum = 0
        · rw [carvings_leaf_first l m.rng node hleaf hn] at hc
          simpa using hc
        · rw [carvings_leaf_later l m.rng node hleaf hn] at hc
          simpa using hc
      injection e with e1 e2 e3 e4
      subst e1 e2 e3 e4
      exact hroomWalk p hp
    · intro _ _ _ _ _
      rw [carve_roomNum]; simp [hleaf]
  · have hleaf' : node.isLeaf = false := by simpa using hleaf
    refine ⟨?_, ?_, hnum, ?_⟩
    · intro p _ hw
      rw [carve_not_leaf l m node hleaf']
      exact hw
    · intro x1 y1 x2 y2 hc
      rw [carvings_not_leaf l m.rng node hleaf'] at hc
      exact absurd hc (List.not_mem_nil _)
    · intro x1 y1 x2 y2 hc
      rw [carvings_not_leaf l m.rng node hleaf'] at hc
      exact absurd hc (List.not_mem_nil _)

theorem fold_walk (nodes : List TCODBsp) (l : BspListener) (m : Map) (hr : m.rng.InRange)
    (hnodes : ∀ node ∈ nodes, node.isLeaf = true → 8 ≤ node.w ∧ 8 ≤ node.h) :
    (∀ p : Int × Int, l.roomNum ≠ 0 → Walk m.map p (l.lastx, l.lasty) →
      Walk (nodes.foldl (fun s node => BspListener.carve s.1 s.2 node) (l, m)).2.map p
        ((nodes.foldl (fun s node => BspListener.carve s.1 s.2 node) (l, m)).1.lastx,
          (nodes.foldl (fun s node => BspListener.carve s.1 s.2 node) (l, m)).1.lasty)) ∧
    (∀ x1 y1 x2 y2 : Int, Carving.room x1 y1 x2 y2 ∈ traverseCarvings nodes l m →
      ∀ p : Int × Int, (x1 ≤ p.1 ∧ p.1 ≤ x2) ∧ (y1 ≤ p.2 ∧ p.2 ≤ y2) →
        Walk (nodes.foldl (fun s node => BspListener.carve s.1 s.2 node) (l, m)).2.map p
          ((nodes.foldl (fun s node => BspListener.carve s.1 s.2 node) (l, m)).1.lastx,
            (nodes.foldl (fun s node => BspListener.carve s.1 s.2 node) (l, m)).1.lasty)) := by
  induction nodes generalizing l m with
  | nil =>
    refine ⟨fun p _ h => h, ?_⟩
    intro x1 y1 x2 y2 hc
    exact absurd hc (List.not_mem_nil _)
  | cons node rest ih =>
    obtain ⟨s1, s2, s3, s4⟩ := step_walk l m node hr (hnodes node (List.mem_cons_self _ _))
    obtain ⟨i1, i2⟩ := ih (BspListener.carve l m node).1 (BspListener.carve l m node).2
      (inRange_of_draw m.rng _ (carve_rng_draw l m node) hr)
      (fun n hn => hnodes n (List.mem_cons_of_mem _ hn))
    rw [List.foldl_cons]
    constructor
    · intro p hn hw
      exact i1 p (s3 hn) (s1 p hn hw)
    · intro x1 y1 x2 y2 hc p hp
      rw [traverseCarvings_cons] at hc
      rcases List.mem_append.1 hc with h | h
      · exact i1 p (s4 x1 y1 x2 y2 h) (s2 x1 y1 x2 y2 h p hp)
      · exact i2 x1 y1 x2 y2 h p hp

/-- C19: the generated dungeon is connected. For a traversal with a layout generator
that honours the requested ranges, over any node sequence whose leaves are at
least 8 wide and 8 high, any cell of any room of the trace and any cell of any
room of the trace are joined, in the grid after the traversal, by a path of
4-adjacent walkable cells (both cells being walkable). -/
theorem dungeon_connected (nodes : List TCODBsp) (withActors : Bool) (l : BspListener)
    (wd : World) (hr : wd.map.rng.InRange)
    (hnodes : ∀ node ∈ nodes, node.isLeaf = true → 8 ≤ node.w ∧ 8 ≤ node.h) :
    ∀ x1 y1 x2 y2 u1 v1 u2 v2 : Int,
      Carving.room x1 y1 x2 y2 ∈ traverseCarvings nodes l wd.map →
      Carving.room u1 v1 u2 v2 ∈ traverseCarvings nodes l wd.map →
      ∀ p q : Int × Int,
        (x1 ≤ p.1 ∧ p.1 ≤ x2) ∧ (y1 ≤ p.2 ∧ p.2 ≤ y2) →
        (u1 ≤ q.1 ∧ q.1 ≤ u2) ∧ (v1 ≤ q.2 ∧ q.2 ≤ v2) →
        Walk (traverse nodes withActors l wd).2.map.map p q := by
  intro x1 y1 x2 y2 u1 v1 u2 v2 h1 h2 p q hp hq
  obtain ⟨_, hB⟩ := fold_walk nodes l wd.map hr hnodes
  rw [traverse_map]
  exact walk_trans (hB x1 y1 x2 y2 h1 p hp) (walk_symm (hB u1 v1 u2 v2 h2 q hq))

/-- C19 at a concrete input: after the traversal of the two demo leaves and the inner
node, the corner `(7, 5)` of the first room and the corner `(26, 16)` of the
second are joined by a path of walkable cells. -/
theorem dungeon_connected_witness :
    (demoWorld.map.rng.InRange ∧
      ∀ node ∈ [demoLeaf, demoLeaf2, demoInner], node.isLeaf = true →
        8 ≤ node.w ∧ 8 ≤ node.h) ∧
    (Carving.room 7 5 12 10
        ∈ traverseCarvings [demoLeaf, demoLeaf2, demoInner] freshListener demoWorld.map ∧
      Carving.room 21 11 26 16
        ∈ traverseCarvings [demoLeaf, demoLeaf2, demoInner] freshListener demoWorld.map) ∧
    Walk (traverse [demoLeaf, demoLeaf2, demoInner] true freshListener demoWorld).2.map.map
      (7, 5) (26, 16) :=
  ⟨⟨lowRng_inRange, by decide⟩, ⟨by decide, by decide⟩,
    dungeon_connected [demoLeaf, demoLeaf2, demoInner] true freshListener demoWorld
      lowRng_inRange (by decide) 7 5 12 10 21 11 26 16 (by decide) (by decide) (7, 5) (26, 16)
      (by decide) (by decide)⟩

end M7Rogue
